import Mathlib

/-!
# Connection forwarder of the flexVDI client (`src/src/conn-forward.c`)

A shallow embedding of the forwarder: the C functions become state-passing
functions on a `ConnForwarder` value holding the two hash tables, the heap of
`Connection` objects (a `Connection *` is an index into it), the static id
counter and the list of commands handed to `send_command`.

Asynchronous GLib operations are events of the main loop: an armed operation
is recorded on its connection, and its completion is an `Event` that runs the
C callback with the result chosen by the environment.
-/

namespace ConnForward

/-! ## Constants -/

/-- `#define WINDOW_SIZE 10*1024*1024`. -/
def WINDOW_SIZE : Nat := 10 * 1024 * 1024

/-- Modelled from the spec: the constants and struct sizes of `flexdp.h`, which
is not among the sources. `max_message_length` is `FLEXVDI_MAX_MESSAGE_LENGTH`,
`header_size` is `sizeof(FlexVDIMessageHeader)`, `listen_msg_size` is
`sizeof(FlexVDIForwardListenMsg)` and `connect_msg_size` is
`sizeof(FlexVDIForwardConnectMsg)`. -/
structure Consts where
  max_message_length : Nat
  header_size : Nat
  listen_msg_size : Nat
  connect_msg_size : Nat
deriving DecidableEq

/-- `#define MAX_MSG_SIZE FLEXVDI_MAX_MESSAGE_LENGTH - sizeof(FlexVDIMessageHeader)`. -/
def MAX_MSG_SIZE (K : Consts) : Nat := K.max_message_length - K.header_size

/-- `#define DATA_HEAD_SIZE sizeof(FlexVDIMessageHeader)`. -/
def DATA_HEAD_SIZE (K : Consts) : Nat := K.header_size

/-- `#define BUFFER_SIZE MAX_MSG_SIZE - DATA_HEAD_SIZE`. -/
def BUFFER_SIZE (K : Consts) : Nat := MAX_MSG_SIZE K - DATA_HEAD_SIZE K

/-- Modelled from the spec: sample values of the constants of `flexdp.h`, used
only to evaluate the forwarder on concrete inputs. The sizes of the LISTEN and
CONNECT structs are the packed sizes of the wire table of the spec
(`u32 + u16 + u8 + u16` and `u32 + u32 + u16 + u8 + u16`); the spec gives no
value for the maximum message length and the header size, which are taken as
64 KiB and two `u32`. -/
def flexdp : Consts :=
  { max_message_length := 65536, header_size := 8, listen_msg_size := 9,
    connect_msg_size := 13 }

/-- Modelled from the spec: `FLEXVDI_FWDPROTO_TCP`, the value 1 of the `proto`
field (`flexdp.h` is not among the sources). -/
def FLEXVDI_FWDPROTO_TCP : Nat := 1

/-- Values of a `guint32`. -/
def U32 : Nat := 2 ^ 32

/-- Values of a `guint16` (ports, and the `addressLength` field of the wire
messages). -/
def U16 : Nat := 2 ^ 16

/-! ## Data model -/

/-- `struct _AddressPort`: the target of a rule. -/
structure AddressPort where
  port : Nat
  address : List Char
deriving DecidableEq

/-- Modelled from the spec: the commands handed to `send_command`, one
constructor per command code, with the fields of the wire structs of
`flexdp.h` (not among the sources) at the widths of the spec: `id`, `listenId`,
`size`, `winSize` are `u32`, `port` and `addressLength` are `u16`, `proto` is
`u8`. `len` is the `data_size` argument of `send_command`. -/
inductive OutMsg where
  | listen (id port proto addressLength : Nat) (address : List Char) (len : Nat)
  | shutdown (listenId : Nat)
  | connect (id winSize port proto addressLength : Nat) (address : List Char) (len : Nat)
  | data (id size : Nat) (payload : List Nat) (len : Nat)
  | close (id : Nat)
  | ack (id size winSize : Nat)
deriving DecidableEq

/-- Modelled from the spec: the inbound messages, one constructor per command
code handled by `conn_forwarder_handle_message`. A DATA message carries its
`size` bytes as `payload` (`size` is the length of the list); `other` is any
command code without a case in the switch. -/
inductive InMsg where
  | accepted (id listenId winSize : Nat)
  | data (id : Nat) (payload : List Nat)
  | close (id : Nat)
  | ack (id size winSize : Nat)
  | other (command : Nat)
deriving DecidableEq

/-- `struct Connection`. `socket` and `conn` say whether the pointers are
non-NULL, `cancelled` is the state of `cancellable`, `write_buffer` is the
`GQueue` of `GBytes` (head first). The last five fields are not in the C
struct: `freed` records that `unref_connection` released the object, `reads`
counts the reads armed by `program_read` that have not completed, `writing` is
the buffer of the write armed by `g_output_stream_write_async` that has not
completed, `connect_pending` is the async connect, and `written` is the
sequence of bytes the socket reported written so far. -/
structure Connection where
  socket : Bool
  conn : Bool
  cancelled : Bool
  write_buffer : List (List Nat)
  data_sent : Nat
  data_received : Nat
  ack_interval : Nat
  connecting : Bool
  refs : Int
  id : Nat
  freed : Bool
  reads : Nat
  writing : Option (List Nat)
  connect_pending : Bool
  written : List Nat
deriving DecidableEq

/-- `struct ConnForwarder` together with the rest of the process state the
forwarder acts on: `heap` holds every `Connection` ever allocated (a pointer is
an index), `connections` maps an id to a pointer, `listener` lists the targets
attached to the listening sockets, `accepts` counts the pending accepts,
`seq` is the static counter of `generate_connection_id`, and `sent` lists the
commands passed to `send_command`, oldest first. -/
structure ConnForwarder where
  remote_assocs : List (Nat × AddressPort)
  connections : List (Nat × Nat)
  listener : List AddressPort
  accepts : Nat
  heap : List Connection
  seq : Nat
  sent : List OutMsg
deriving DecidableEq

/-! ## GLib hash tables with direct keys -/

/-- `g_hash_table_lookup`. -/
def tbl_lookup {α : Type} : List (Nat × α) → Nat → Option α
  | [], _ => none
  | (k, v) :: t, key => if k = key then some v else tbl_lookup t key

/-- The table without the entries of a key. -/
def tbl_erase {α : Type} (t : List (Nat × α)) (key : Nat) : List (Nat × α) :=
  t.filter (fun e => decide (e.1 ≠ key))

/-- `g_hash_table_insert` on the entries (an existing entry of the key is
replaced). -/
def tbl_insert {α : Type} (t : List (Nat × α)) (key : Nat) (v : α) : List (Nat × α) :=
  (key, v) :: tbl_erase t key

/-! ## Rule strings -/

/-- One call of `strtok(s, ":")` on the unread rest of the string: leading
delimiters are skipped, the token runs to the next delimiter, and the scan
resumes after that delimiter. `none` is the NULL result. -/
def strtok (s : List Char) : Option (List Char × List Char) :=
  let s1 := s.dropWhile (fun c => c == ':')
  if s1 = [] then none
  else some (s1.takeWhile (fun c => c != ':'), (s1.dropWhile (fun c => c != ':')).drop 1)

/-- The pieces of a string between its colons (a string with `n` colons has
`n + 1` pieces, some of them possibly empty). -/
def pieces : List Char → List (List Char)
  | [] => [[]]
  | c :: cs =>
    if c = ':' then [] :: pieces cs
    else
      match pieces cs with
      | [] => [[c]]
      | p :: ps => (c :: p) :: ps

/-- The colon-delimited tokens of a rule string, in the words of the
specification: its non-empty pieces, in order. -/
def tokens (s : List Char) : List (List Char) :=
  (pieces s).filter (fun t => decide (t ≠ []))

/-- `tokenize_redirection`: `none` is FALSE; on TRUE the result is
`(bind_address, port, host, host_port)` with `bind_address = none` for NULL. -/
def tokenize_redirection (redir : List Char) :
    Option (Option (List Char) × List Char × List Char × List Char) :=
  match strtok redir with
  | none => none
  | some (bind_address, r1) =>
    match strtok r1 with
    | none => none
    | some (port, r2) =>
      match strtok r2 with
      | none => none
      | some (host, r3) =>
        match strtok r3 with
        | none => some (none, bind_address, port, host)
        | some (host_port, _) => some (some bind_address, port, host, host_port)

/-- `isspace` of the C locale. -/
def isspace (c : Char) : Bool :=
  c.toNat = 32 || (9 ≤ c.toNat && c.toNat ≤ 13)

/-- Value of the leading decimal digits of a string, continuing from `acc`. -/
def digits_value : Nat → List Char → Nat
  | acc, [] => acc
  | acc, c :: cs =>
    if 48 ≤ c.toNat ∧ c.toNat ≤ 57 then digits_value (acc * 10 + (c.toNat - 48)) cs else acc

/-- `atoi` of the C library: white space, an optional sign, then the leading
decimal digits; 0 when there is no digit. (Values outside `int` are undefined in
C and are not truncated here.) -/
def atoi (s : List Char) : Int :=
  match s.dropWhile isspace with
  | [] => 0
  | c :: cs =>
    if c = '-' then - (digits_value 0 cs : Int)
    else if c = '+' then (digits_value 0 cs : Int)
    else (digits_value 0 (c :: cs) : Int)

/-- The conversion `guint16 x = atoi(...)`. -/
def to_guint16 (i : Int) : Nat := (i % 65536).toNat

/-! ## Connections -/

/-- `send_command`. -/
def send_command (cf : ConnForwarder) (m : OutMsg) : ConnForwarder :=
  { cf with sent := cf.sent ++ [m] }

/-- Store through a `Connection *`. -/
def set_conn (cf : ConnForwarder) (p : Nat) (c : Connection) : ConnForwarder :=
  { cf with heap := cf.heap.set p c }

/-- `new_connection` (`g_malloc0` zeroes the fields that are not assigned). -/
def new_connection (id ack_int : Nat) : Connection :=
  { socket := false, conn := false, cancelled := false, write_buffer := [],
    data_sent := 0, data_received := 0, ack_interval := ack_int, connecting := true,
    refs := 1, id := id, freed := false, reads := 0, writing := none,
    connect_pending := false, written := [] }

/-- `new_connection_with_socket` (`g_socket_client_new` does not return NULL). -/
def new_connection_with_socket (id ack_int : Nat) : Connection :=
  { new_connection id ack_int with socket := true }

/-- `new_open_connection`. -/
def new_open_connection (id ack_int : Nat) : Connection :=
  { new_connection id ack_int with conn := true }

/-- Place a new object on the heap; the result is the state and the pointer. -/
def alloc (cf : ConnForwarder) (c : Connection) : ConnForwarder × Nat :=
  ({ cf with heap := cf.heap ++ [c] }, cf.heap.length)

/-- `unref_connection`: the object is released when the count reaches zero. -/
def unref_connection (cf : ConnForwarder) (p : Nat) : ConnForwarder :=
  match cf.heap[p]? with
  | none => cf
  | some c =>
    set_conn cf p { c with refs := c.refs - 1, freed := if c.refs - 1 = 0 then true else c.freed }

/-- `g_hash_table_remove(cf->connections, id)`: the value destroy function of
the table is `unref_connection`. The Boolean is the result of the call. -/
def connections_remove (cf : ConnForwarder) (id : Nat) : ConnForwarder × Bool :=
  match tbl_lookup cf.connections id with
  | none => (cf, false)
  | some q => (unref_connection { cf with connections := tbl_erase cf.connections id } q, true)

/-- `g_hash_table_insert(cf->connections, id, conn)`: a value already stored
under the key is passed to `unref_connection`. -/
def connections_insert (cf : ConnForwarder) (id p : Nat) : ConnForwarder :=
  match tbl_lookup cf.connections id with
  | none => { cf with connections := tbl_insert cf.connections id p }
  | some q => unref_connection { cf with connections := tbl_insert cf.connections id p } q

/-- `close_agent_connection`. -/
def close_agent_connection (cf : ConnForwarder) (id : Nat) : ConnForwarder :=
  send_command cf (OutMsg.close id)

/-- `close_connection_no_notify`. -/
def close_connection_no_notify (cf : ConnForwarder) (p : Nat) : ConnForwarder :=
  match cf.heap[p]? with
  | none => cf
  | some c => (connections_remove (set_conn cf p { c with cancelled := true }) c.id).1

/-- `close_connection`. -/
def close_connection (cf : ConnForwarder) (p : Nat) : ConnForwarder :=
  match cf.heap[p]? with
  | none => cf
  | some c => close_connection_no_notify (close_agent_connection cf c.id) p

/-! ## Forwarder API -/

/-- `conn_forwarder_new`: both tables empty, no listening socket; the static
`seq` of `generate_connection_id` starts at 0. -/
def conn_forwarder_new : ConnForwarder :=
  { remote_assocs := [], connections := [], listener := [], accepts := 0,
    heap := [], seq := 0, sent := [] }

/-- `conn_forwarder_agent_disconnected`: `g_hash_table_remove_all` on both
tables; every value of the connections table goes through `unref_connection`. -/
def conn_forwarder_agent_disconnected (cf : ConnForwarder) : ConnForwarder :=
  (cf.connections.map (fun e => e.2)).foldl unref_connection
    { cf with remote_assocs := [], connections := [] }

/-- `conn_forwarder_disassociate_remote`. -/
def conn_forwarder_disassociate_remote (cf : ConnForwarder) (rport : Nat) :
    ConnForwarder × Bool :=
  match tbl_lookup cf.remote_assocs rport with
  | none => (cf, false)
  | some _ =>
    (send_command { cf with remote_assocs := tbl_erase cf.remote_assocs rport }
      (OutMsg.shutdown rport), true)

/-- `conn_forwarder_associate_remote`. -/
def conn_forwarder_associate_remote (K : Consts) (cf : ConnForwarder) (remote : List Char) :
    ConnForwarder × Bool :=
  match tokenize_redirection remote with
  | none => (cf, false)
  | some (bind_address, guest_port, host, host_port) =>
    let rport := to_guint16 (atoi guest_port)
    let lport := to_guint16 (atoi host_port)
    let cf1 :=
      if (tbl_lookup cf.remote_assocs rport).isSome then
        (conn_forwarder_disassociate_remote cf rport).1
      else cf
    let cf2 := { cf1 with
      remote_assocs := tbl_insert cf1.remote_assocs rport { port := lport, address := host } }
    let bind_address := bind_address.getD "localhost".toList
    let addr_len := bind_address.length
    let msg_len := K.listen_msg_size + addr_len + 1
    (send_command cf2
      (OutMsg.listen rport rport FLEXVDI_FWDPROTO_TCP (addr_len % U16) bind_address msg_len),
     true)

/-- `conn_forwarder_associate_local`; `res` is the result of
`g_socket_listener_add_address` or `g_socket_listener_add_inet_port`, which
attaches the target to the new listening socket when it succeeds. A new accept
is armed; the one that was pending is cancelled and still completes (with an
error). -/
def conn_forwarder_associate_local (cf : ConnForwarder) (loc : List Char) (res : Bool) :
    ConnForwarder × Bool :=
  match tokenize_redirection loc with
  | none => (cf, false)
  | some (_, _, host, host_port) =>
    let rport := to_guint16 (atoi host_port)
    let cf1 :=
      if res then { cf with listener := cf.listener ++ [{ port := rport, address := host }] }
      else cf
    ({ cf1 with accepts := cf1.accepts + 1 }, res)

/-- `generate_connection_id`: `return --seq;` on a `guint32`. -/
def generate_connection_id (cf : ConnForwarder) : ConnForwarder × Nat :=
  let seq := (cf.seq + U32 - 1) % U32
  ({ cf with seq := seq }, seq)

/-- `listener_accept_callback`: `none` is an accept that finished with an
error, `some host` an accepted connection whose listening socket carries the
target `host`. -/
def listener_accept_callback (K : Consts) (cf : ConnForwarder) (r : Option AddressPort) :
    ConnForwarder :=
  match r with
  | none => cf
  | some host =>
    let (cf1, id) := generate_connection_id cf
    let (cf2, p) := alloc cf1 (new_open_connection id (WINDOW_SIZE / 2))
    let addr_len := host.address.length
    let msg_len := K.connect_msg_size + addr_len + 1
    let cf3 := send_command cf2
      (OutMsg.connect id ((WINDOW_SIZE / 2 * 2) % U32) host.port FLEXVDI_FWDPROTO_TCP
        (addr_len % U16) host.address msg_len)
    let cf4 := connections_insert cf3 id p
    { cf4 with accepts := cf4.accepts + 1 }

/-- Why a call of the forwarder yields no next state: `fault` is an access
through a NULL pointer or to a released object, `not_enabled` an event the main
loop cannot deliver in the state. -/
inductive Stop where
  | fault
  | not_enabled
deriving DecidableEq

/-- `program_read`: arms a read on the input stream of `conn->conn`.
`g_io_stream_get_input_stream` reads the class of its argument without a NULL
test, so the call with `conn->conn` NULL is a NULL dereference (`Stop.fault`). -/
def program_read (cf : ConnForwarder) (p : Nat) : Except Stop ConnForwarder :=
  match cf.heap[p]? with
  | none => Except.ok cf
  | some c =>
    if c.conn then Except.ok (set_conn cf p { c with reads := c.reads + 1 })
    else Except.error Stop.fault

/-- `connection_read_callback`: `none` is a read error, `some bytes` the bytes
read (none of them at end of stream). -/
def connection_read_callback (K : Consts) (cf : ConnForwarder) (p : Nat)
    (r : Option (List Nat)) : Except Stop ConnForwarder :=
  match cf.heap[p]? with
  | none => Except.ok cf
  | some c =>
    if c.cancelled then Except.ok (unref_connection cf p)
    else
      match r with
      | none => Except.ok (unref_connection (close_connection cf p) p)
      | some bytes =>
        if bytes.length = 0 then Except.ok (unref_connection (close_connection cf p) p)
        else
          let size := bytes.length % U32
          let cf1 := send_command cf (OutMsg.data c.id size bytes (DATA_HEAD_SIZE K + size))
          let data_sent := (c.data_sent + size) % U32
          let cf2 := set_conn cf1 p { c with data_sent := data_sent }
          if data_sent < WINDOW_SIZE then program_read cf2 p
          else Except.ok (unref_connection cf2 p)

/-- `g_bytes_new_from_bytes(bytes, offset, length)`. -/
def g_bytes_new_from_bytes (bytes : List Nat) (offset length : Nat) : List Nat :=
  (bytes.drop offset).take length

/-- The queue operations of `connection_write_callback` after a write of
`num_written` bytes: the head is popped and, when `remaining` is not zero, the
view of its unwritten part is pushed back at the head. (`num_written` is at
most the size of the head, which is what was passed to the write, so the
subtraction does not go below zero.) -/
def pop_written (write_buffer : List (List Nat)) (num_written : Nat) : List (List Nat) :=
  let bytes := write_buffer.headD []
  let remaining := bytes.length - num_written
  if remaining ≠ 0 then g_bytes_new_from_bytes bytes num_written remaining :: write_buffer.tail
  else write_buffer.tail

/-- `connection_write_callback`: `none` is a write error, `some num_written`
the count returned by `g_output_stream_write_finish`. The C code updates
`data_received` and builds the ACK after the `unref_connection` of the empty
queue; when that call released the object (`g_free`), these are accesses to
released memory (`Stop.fault`). -/
def connection_write_callback (cf : ConnForwarder) (p : Nat) (r : Option Nat) :
    Except Stop ConnForwarder :=
  match cf.heap[p]? with
  | none => Except.ok cf
  | some c =>
    match r with
    | none => Except.ok (unref_connection (close_connection cf p) p)
    | some num_written =>
      let q1 := pop_written c.write_buffer num_written
      let cf1 :=
        match q1 with
        | new_bytes :: _ =>
          set_conn cf p { c with write_buffer := q1, writing := some new_bytes }
        | [] => unref_connection (set_conn cf p { c with write_buffer := q1 }) p
      match cf1.heap[p]? with
      | none => Except.ok cf1
      | some c1 =>
        if c1.freed then Except.error Stop.fault
        else
          let data_received := (c1.data_received + num_written) % U32
          if data_received ≥ c1.ack_interval then
            Except.ok (send_command (set_conn cf1 p { c1 with data_received := 0 })
              (OutMsg.ack c1.id data_received ((c1.ack_interval * 2) % U32)))
          else Except.ok (set_conn cf1 p { c1 with data_received := data_received })

/-- `connection_connect_callback`: `ok` says whether
`g_socket_client_connect_to_host_finish` returned a connection. -/
def connection_connect_callback (cf : ConnForwarder) (p : Nat) (ok : Bool) :
    Except Stop ConnForwarder :=
  match cf.heap[p]? with
  | none => Except.ok cf
  | some c =>
    if c.cancelled then Except.ok (unref_connection cf p)
    else if !ok then
      Except.ok (unref_connection (close_connection (set_conn cf p { c with conn := false }) p) p)
    else
      let cf1 := set_conn cf p { c with conn := true, connecting := false }
      match program_read cf1 p with
      | Except.ok cf2 => Except.ok (send_command cf2 (OutMsg.ack c.id 0 WINDOW_SIZE))
      | Except.error x => Except.error x

/-- `handle_accepted`. The `g_debug` call reads `local->address` and
`local->port` before `local` is tested, so a `listenId` without association is
a NULL dereference (`Stop.fault`). -/
def handle_accepted (cf : ConnForwarder) (id listenId winSize : Nat) :
    Except Stop ConnForwarder :=
  let cf1 :=
    match tbl_lookup cf.connections id with
    | some q => close_connection_no_notify cf q
    | none => cf
  match tbl_lookup cf1.remote_assocs listenId with
  | none => Except.error Stop.fault
  | some _ =>
    let (cf2, p) := alloc cf1 (new_connection_with_socket id (winSize / 2))
    let cf3 := connections_insert cf2 id p
    match cf3.heap[p]? with
    | none => Except.ok cf3
    | some c => Except.ok (set_conn cf3 p { c with refs := c.refs + 1, connect_pending := true })

/-- `handle_data`. The write is armed on the output stream of `conn->conn`:
`g_io_stream_get_output_stream` reads the class of its argument without a NULL
test, so the call with `conn->conn` NULL is a NULL dereference (`Stop.fault`). -/
def handle_data (cf : ConnForwarder) (id : Nat) (payload : List Nat) :
    Except Stop ConnForwarder :=
  match tbl_lookup cf.connections id with
  | none => Except.ok cf
  | some p =>
    match cf.heap[p]? with
    | none => Except.ok cf
    | some c =>
      if c.connecting then Except.ok cf
      else
        let q := c.write_buffer ++ [payload]
        if q.length = 1 then
          if c.conn then
            Except.ok (set_conn cf p { c with write_buffer := q, refs := c.refs + 1,
                                              writing := some payload })
          else Except.error Stop.fault
        else Except.ok (set_conn cf p { c with write_buffer := q })

/-- `handle_close`. -/
def handle_close (cf : ConnForwarder) (id : Nat) : ConnForwarder :=
  match tbl_lookup cf.connections id with
  | some p => close_connection_no_notify cf p
  | none => close_agent_connection cf id

/-- `handle_ack`. -/
def handle_ack (cf : ConnForwarder) (id size winSize : Nat) : Except Stop ConnForwarder :=
  match tbl_lookup cf.connections id with
  | none => Except.ok cf
  | some p =>
    match cf.heap[p]? with
    | none => Except.ok cf
    | some c =>
      if c.connecting then
        program_read
          (set_conn cf p { c with connecting := false, ack_interval := winSize / 2,
                                  refs := c.refs + 1 }) p
      else
        let data_sent_before := c.data_sent
        let data_sent := (c.data_sent + U32 - size % U32) % U32
        let cf1 := set_conn cf p { c with data_sent := data_sent }
        if data_sent < WINDOW_SIZE ∧ data_sent_before ≥ WINDOW_SIZE then
          program_read (set_conn cf p { c with data_sent := data_sent, refs := c.refs + 1 }) p
        else Except.ok cf1

/-- `conn_forwarder_handle_message`. -/
def conn_forwarder_handle_message (cf : ConnForwarder) (m : InMsg) :
    Except Stop ConnForwarder :=
  match m with
  | InMsg.accepted id listenId winSize => handle_accepted cf id listenId winSize
  | InMsg.data id payload => handle_data cf id payload
  | InMsg.close id => Except.ok (handle_close cf id)
  | InMsg.ack id size winSize => handle_ack cf id size winSize
  | InMsg.other _ => Except.ok cf

/-! ## The main loop -/

/-- What the main loop can deliver to the forwarder: a call of the API by the
host, an inbound message, or the completion of an armed operation on the
connection at pointer `p`. -/
inductive Event where
  | associate_remote (rule : List Char)
  | associate_local (rule : List Char) (res : Bool)
  | agent_disconnected
  | message (m : InMsg)
  | accept_done (r : Option AddressPort)
  | read_done (p : Nat) (r : Option (List Nat))
  | write_done (p : Nat) (r : Option Nat)
  | connect_done (p : Nat) (ok : Bool)
deriving DecidableEq

/-- An inbound message is well formed when its integer fields are `u32` values
and a DATA payload is shorter than `2^31` bytes (a message of the agent channel
is bounded by `FLEXVDI_MAX_MESSAGE_LENGTH`), so that sizes fit the `int`
variables of `connection_write_callback`. -/
def InMsg.wf : InMsg → Bool
  | InMsg.accepted id listenId winSize => id < U32 && listenId < U32 && winSize < U32
  | InMsg.data id payload => id < U32 && payload.length < 2 ^ 31
  | InMsg.close id => id < U32
  | InMsg.ack id size winSize => id < U32 && size < U32 && winSize < U32
  | InMsg.other _ => true

/-- One turn of the main loop. A completion event is enabled only when the
operation is armed: an accept delivers the target of one of the listening
sockets, a read delivers at most `BUFFER_SIZE` bytes, a write reports at most
the size it was given, and the bytes it reports are appended to `written`. The
turn yields no next state when the event is not enabled (`Stop.not_enabled`)
or when the handler it runs faults (`Stop.fault`). -/
def step (K : Consts) (cf : ConnForwarder) (e : Event) : Except Stop ConnForwarder :=
  match e with
  | Event.associate_remote rule => Except.ok (conn_forwarder_associate_remote K cf rule).1
  | Event.associate_local rule res => Except.ok (conn_forwarder_associate_local cf rule res).1
  | Event.agent_disconnected => Except.ok (conn_forwarder_agent_disconnected cf)
  | Event.message m =>
    if m.wf then conn_forwarder_handle_message cf m else Except.error Stop.not_enabled
  | Event.accept_done r =>
    if 0 < cf.accepts ∧ (∀ host, r = some host → host ∈ cf.listener) then
      Except.ok (listener_accept_callback K { cf with accepts := cf.accepts - 1 } r)
    else Except.error Stop.not_enabled
  | Event.read_done p r =>
    match cf.heap[p]? with
    | none => Except.error Stop.not_enabled
    | some c =>
      if 0 < c.reads ∧ (∀ bytes, r = some bytes → bytes.length ≤ BUFFER_SIZE K) then
        connection_read_callback K (set_conn cf p { c with reads := c.reads - 1 }) p r
      else Except.error Stop.not_enabled
  | Event.write_done p r =>
    match cf.heap[p]? with
    | none => Except.error Stop.not_enabled
    | some c =>
      match c.writing with
      | none => Except.error Stop.not_enabled
      | some buf =>
        match r with
        | none =>
          connection_write_callback (set_conn cf p { c with writing := none }) p none
        | some n =>
          if n ≤ buf.length then
            connection_write_callback
              (set_conn cf p { c with writing := none, written := c.written ++ buf.take n })
              p (some n)
          else Except.error Stop.not_enabled
  | Event.connect_done p ok =>
    match cf.heap[p]? with
    | none => Except.error Stop.not_enabled
    | some c =>
      if c.connect_pending then
        connection_connect_callback (set_conn cf p { c with connect_pending := false }) p ok
      else Except.error Stop.not_enabled

/-- Run the main loop over a list of events; the run stops at the first turn
that yields no next state. -/
def run (K : Consts) : ConnForwarder → List Event → Except Stop ConnForwarder
  | cf, [] => Except.ok cf
  | cf, e :: es =>
    match step K cf e with
    | Except.ok cf1 => run K cf1 es
    | Except.error x => Except.error x

/-! ## The net effect of the handlers on their connection -/

/-- The connection after `connection_write_callback` with a successful write
of `n` bytes (the call returns only when the object is not released). -/
def write_cell (c : Connection) (n : Nat) : Connection :=
  { c with
    write_buffer := pop_written c.write_buffer n,
    writing :=
      match pop_written c.write_buffer n with
      | new_bytes :: _ => some new_bytes
      | [] => c.writing,
    refs := if pop_written c.write_buffer n = [] then c.refs - 1 else c.refs,
    freed :=
      if pop_written c.write_buffer n = [] ∧ c.refs - 1 = 0 then true else c.freed,
    data_received :=
      if (c.data_received + n) % U32 ≥ c.ack_interval then 0 else (c.data_received + n) % U32 }

/-- The messages `connection_write_callback` sends after a successful write of
`n` bytes. -/
def write_acks (c : Connection) (n : Nat) : List OutMsg :=
  if (c.data_received + n) % U32 ≥ c.ack_interval then
    [OutMsg.ack c.id ((c.data_received + n) % U32) ((c.ack_interval * 2) % U32)]
  else []

/-- The connection after `connection_read_callback` has forwarded `bytes`. -/
def read_cell (c : Connection) (bytes : List Nat) : Connection :=
  { c with
    data_sent := (c.data_sent + bytes.length % U32) % U32,
    reads :=
      if (c.data_sent + bytes.length % U32) % U32 < WINDOW_SIZE then c.reads + 1 else c.reads,
    refs := if (c.data_sent + bytes.length % U32) % U32 < WINDOW_SIZE then c.refs else c.refs - 1,
    freed :=
      if ¬ (c.data_sent + bytes.length % U32) % U32 < WINDOW_SIZE ∧ c.refs - 1 = 0 then true
      else c.freed }

/-- The connection after `handle_data` has queued `payload`. -/
def data_cell (c : Connection) (payload : List Nat) : Connection :=
  { c with
    write_buffer := c.write_buffer ++ [payload],
    refs := if c.write_buffer = [] then c.refs + 1 else c.refs,
    writing := if c.write_buffer = [] then some payload else c.writing }

/-- The connection after `handle_ack`. -/
def ack_cell (c : Connection) (size winSize : Nat) : Connection :=
  if c.connecting then
    { c with connecting := false, ack_interval := winSize / 2, refs := c.refs + 1,
             reads := c.reads + 1 }
  else if (c.data_sent + U32 - size % U32) % U32 < WINDOW_SIZE ∧ c.data_sent ≥ WINDOW_SIZE then
    { c with data_sent := (c.data_sent + U32 - size % U32) % U32, refs := c.refs + 1,
             reads := c.reads + 1 }
  else { c with data_sent := (c.data_sent + U32 - size % U32) % U32 }

/-- The connection after `connection_connect_callback`. -/
def connect_cell (c : Connection) (ok : Bool) : Connection :=
  if c.cancelled then c
  else if ok then { c with conn := true, connecting := false, reads := c.reads + 1 }
  else { c with conn := false }

/-- The connection `handle_accepted` creates, with its connect armed. -/
def accepted_cell (id winSize : Nat) : Connection :=
  { new_connection_with_socket id (winSize / 2) with refs := 2, connect_pending := true }

/-! ## The inbound stream of one connection -/

/-- The events of the inbound direction of one stream: a DATA message for the
id of the connection, or the successful completion of the write armed on it. -/
inductive StreamEvent where
  | data (payload : List Nat)
  | written (n : Nat)
deriving DecidableEq

/-- The event of the main loop for a stream event of the connection with id
`id` at pointer `p`. -/
def StreamEvent.event (id p : Nat) : StreamEvent → Event
  | StreamEvent.data payload => Event.message (InMsg.data id payload)
  | StreamEvent.written n => Event.write_done p (some n)

/-- The concatenation of the DATA payloads of a list of stream events. -/
def payloads : List StreamEvent → List Nat
  | [] => []
  | StreamEvent.data payload :: es => payload ++ payloads es
  | StreamEvent.written _ :: es => payloads es

/-- The number of bytes the write completions of a list of stream events
report. -/
def written_total : List StreamEvent → Nat
  | [] => 0
  | StreamEvent.data _ :: es => written_total es
  | StreamEvent.written n :: es => n + written_total es

/-- The `size` fields of the ACK messages of a list of commands. -/
def ack_sizes : List OutMsg → List Nat
  | [] => []
  | OutMsg.ack _ size _ :: ms => size :: ack_sizes ms
  | _ :: ms => ack_sizes ms

/-! ## The outbound window -/

/-- The `size` fields of the DATA messages of a list of commands. -/
def data_sizes : List OutMsg → List Nat
  | [] => []
  | OutMsg.data _ size _ _ :: ms => size :: data_sizes ms
  | _ :: ms => data_sizes ms

/-- The peer acknowledges within what was sent: an ACK for a connection of the
table that is not connecting has a `size` of at most its `data_sent`. -/
def ack_within (cf : ConnForwarder) : Event → Bool
  | Event.message (InMsg.ack id size _) =>
    match tbl_lookup cf.connections id with
    | none => true
    | some p =>
      match cf.heap[p]? with
      | none => true
      | some c => c.connecting || decide (size ≤ c.data_sent)
  | _ => true

/-- Every ACK of a run is within what was sent at the moment it arrives. -/
def acks_within (K : Consts) : ConnForwarder → List Event → Bool
  | _, [] => true
  | cf, e :: es =>
    ack_within cf e &&
      (match step K cf e with
       | Except.ok cf1 => acks_within K cf1 es
       | Except.error _ => true)

/-- The outbound window of a connection: `data_sent` is below the window plus
one read chunk, at most one read is in flight, and only while `data_sent` is
below the window; a connection that is connecting or has no socket connection
yet has read nothing. -/
def Window (K : Consts) (c : Connection) : Prop :=
  c.data_sent < WINDOW_SIZE + BUFFER_SIZE K ∧ c.reads ≤ 1 ∧
  (0 < c.reads → c.data_sent < WINDOW_SIZE) ∧
  (c.connecting = true → c.reads = 0 ∧ c.data_sent = 0) ∧
  (c.conn = false → c.reads = 0 ∧ c.data_sent = 0) ∧
  (c.connect_pending = true → c.conn = false)

/-! ## Concrete runs -/

/-- The state after a list of events from a new forwarder (the new forwarder
itself when the run stops before the end of the list). -/
def run_state (K : Consts) (evs : List Event) : ConnForwarder :=
  match run K conn_forwarder_new evs with
  | Except.ok cf => cf
  | Except.error _ => conn_forwarder_new

/-- Scenario S1 up to the first DATA, with a peer window of 4 bytes: the rule
`127.0.0.1:7000:echo.host:9000` is registered, a local connection is accepted,
the peer acknowledges it and sends three bytes. -/
def echo_events : List Event :=
  [Event.associate_local "127.0.0.1:7000:echo.host:9000".toList true,
   Event.accept_done (some { port := 9000, address := "echo.host".toList }),
   Event.message (InMsg.ack 4294967295 0 4),
   Event.message (InMsg.data 4294967295 [104, 101, 108])]

/-- Scenario S1 up to the handshake, with a peer window of 4 bytes: the rule is
registered, a local connection is accepted and the peer acknowledges it. -/
def echo_open : List Event :=
  [Event.associate_local "127.0.0.1:7000:echo.host:9000".toList true,
   Event.accept_done (some { port := 9000, address := "echo.host".toList }),
   Event.message (InMsg.ack 4294967295 0 4)]

/-- The connection of scenario S1 after the handshake of `echo_open`. -/
def echo_conn : Connection :=
  { new_open_connection 4294967295 2 with connecting := false, refs := 2, reads := 1 }

/-- An inbound stream for the connection of `echo_open`: three bytes, a
partial write of two, two more bytes, and the writes that drain the queue. -/
def echo_stream : List StreamEvent :=
  [StreamEvent.data [104, 101, 108], StreamEvent.written 2, StreamEvent.data [108, 111],
   StreamEvent.written 1, StreamEvent.written 2]

/-- The rule `127.0.0.1:7000:<host>:9000` of scenario S1 for a host name
`host`. -/
def echo_rule (host : List Char) : List Char :=
  "127.0.0.1".toList ++ ':' :: ("7000".toList ++ ':' :: (host ++ ':' :: "9000".toList))

/-- Scenario S1 up to the registration of the rule. -/
def echo_listen : List Event :=
  [Event.associate_local "127.0.0.1:7000:echo.host:9000".toList true]

/-- Scenario S2 up to the handshake: the rule is registered, a local
connection is accepted, and the peer sends `ACK{size = 0, winSize = 2 * WINDOW_SIZE}`. -/
def stall_open : List Event :=
  [Event.associate_local "127.0.0.1:7000:echo.host:9000".toList true,
   Event.accept_done (some { port := 9000, address := "echo.host".toList }),
   Event.message (InMsg.ack 4294967295 0 20971520)]

/-- Scenario S2: after the handshake the application writes `WINDOW_SIZE + 1`
bytes and no ACK arrives; the socket delivers them in 160 reads of
`BUFFER_SIZE = 65520` bytes and a last read of the 2561 bytes that are left. -/
def stall_events : List Event :=
  stall_open ++ List.replicate 160 (Event.read_done 0 (some (List.replicate 65520 0))) ++
    [Event.read_done 0 (some (List.replicate 2561 0))]

/-- The connection of scenario S2 after the handshake of `stall_open`. -/
def stall_conn : Connection :=
  { new_open_connection 4294967295 10485760 with connecting := false, refs := 2, reads := 1 }

/-- The ids returned by `n` successive calls of `generate_connection_id`,
oldest first, and the state after them. -/
def generate_connection_ids : ConnForwarder → Nat → ConnForwarder × List Nat
  | cf, 0 => (cf, [])
  | cf, n + 1 =>
    ((generate_connection_ids (generate_connection_id cf).1 n).1,
     (generate_connection_id cf).2 :: (generate_connection_ids (generate_connection_id cf).1 n).2)

/-- Every entry of the connections table of `cf1` is an entry of the table of
`cf`, with the same pointer. -/
def TableSub (cf cf1 : ConnForwarder) : Prop :=
  ∀ k q, tbl_lookup cf1.connections k = some q → tbl_lookup cf.connections k = some q

/-- The key of an entry of the connections table is the `id` field of the
object it points to. -/
def TableIds (cf : ConnForwarder) : Prop :=
  ∀ k q, tbl_lookup cf.connections k = some q → ∃ c, cf.heap[q]? = some c ∧ c.id = k

/-- The first half of `handle_accepted`: a connection already stored under the
id of the message is closed without notification. -/
def accepted_prior (cf : ConnForwarder) (id : Nat) : ConnForwarder :=
  match tbl_lookup cf.connections id with
  | some q => close_connection_no_notify cf q
  | none => cf

/-- The second half of `handle_accepted`, on the state the first half leaves:
the lookup of `listenId` and the new connection with its connect armed. -/
def accepted_connect (cf1 : ConnForwarder) (id listenId winSize : Nat) :
    Except Stop ConnForwarder :=
  match tbl_lookup cf1.remote_assocs listenId with
  | none => Except.error Stop.fault
  | some _ =>
    let (cf2, p) := alloc cf1 (new_connection_with_socket id (winSize / 2))
    let cf3 := connections_insert cf2 id p
    match cf3.heap[p]? with
    | none => Except.ok cf3
    | some c => Except.ok (set_conn cf3 p { c with refs := c.refs + 1, connect_pending := true })

/-- The number of local connections accepted by the events of a run. -/
def accept_count : List Event → Nat
  | [] => 0
  | Event.accept_done (some _) :: es => accept_count es + 1
  | _ :: es => accept_count es

/-- The ids of the ACCEPTED messages among the events of a run are below `B`. -/
def accepted_below (B : Nat) : List Event → Bool
  | [] => true
  | Event.message (InMsg.accepted id _ _) :: es => decide (id < B) && accepted_below B es
  | _ :: es => accepted_below B es

/-- The ids of the agent and the local ids are apart after `n` local accepts:
the counter is `2^32 - n` and a key of the connections table is below `B` or
one of the `n` ids at the top of the range. -/
def IdsApart (B n : Nat) (cf : ConnForwarder) : Prop :=
  cf.seq = (U32 - n) % U32 ∧
    ∀ k q, tbl_lookup cf.connections k = some q → k < B ∨ (U32 - n ≤ k ∧ k < U32)

/-- The rules of the collision scenarios: the remote rule `7000:host:80` and the
local rule `127.0.0.1:7000:echo.host:9000`. -/
def clash_rules : List Event :=
  [Event.associate_remote "7000:host:80".toList,
   Event.associate_local "127.0.0.1:7000:echo.host:9000".toList true]

/-- The agent announces a connection on port 7000 under the id `0xFFFFFFFF`. -/
def clash_accepted : Event := Event.message (InMsg.accepted 4294967295 7000 8)

/-- A local connection is accepted on the listening socket of the local rule. -/
def clash_accept : Event :=
  Event.accept_done (some { port := 9000, address := "echo.host".toList })

/-- A run that keeps the ids apart: the rules are registered, the agent
announces connection 5 on port 7000, and a local connection is accepted. -/
def apart_events : List Event :=
  clash_rules ++ [Event.message (InMsg.accepted 5 7000 8), clash_accept]

/-- A state with the remote rule `7000:host:80` registered. -/
def remote_rule_state : ConnForwarder :=
  run_state flexdp [Event.associate_remote "7000:host:80".toList]

/-- The connection at a pointer after `close_connection_no_notify` removed its
entry from the table: the token is fired and the reference of the table is
released. -/
def closed_cell (c : Connection) : Connection :=
  { c with cancelled := true, refs := c.refs - 1,
           freed := if c.refs - 1 = 0 then true else c.freed }

/-- The state after the rule `7000:host:80` and the message
`ACCEPTED{id = 1, listenId = 7000, winSize = 8}`. -/
def accepted_state : ConnForwarder :=
  run_state flexdp [Event.associate_remote "7000:host:80".toList,
    Event.message (InMsg.accepted 1 7000 8)]

/-- Scenario S1 with the peer gone while a write is in flight: after the
handshake and a DATA message of three bytes, the read on the socket returns
end of stream, and then the write that was armed fails. -/
def reset_events : List Event :=
  echo_events ++ [Event.read_done 0 (some []), Event.write_done 0 none]

/-- Scenario S1 cut off by the agent: after the handshake and a DATA message of
three bytes (a read and a write are in flight) the agent disconnects. -/
def disconnect_events : List Event := echo_events ++ [Event.agent_disconnected]

/-- An announced connection cut off by the agent: the rule `7000:host:80`, the
message `ACCEPTED{id = 1, listenId = 7000, winSize = 8}` (the connect is in
flight), and the agent disconnects. -/
def disconnect_connecting : List Event :=
  [Event.associate_remote "7000:host:80".toList, Event.message (InMsg.accepted 1 7000 8),
   Event.agent_disconnected]

/-- Scenario S1 up to the CONNECT: the rule is registered and a local
connection is accepted. -/
def echo_accepted : List Event :=
  [Event.associate_local "127.0.0.1:7000:echo.host:9000".toList true,
   Event.accept_done (some { port := 9000, address := "echo.host".toList })]

/-- The connection of scenario S1 after the accept. -/
def echo_new : Connection := new_open_connection 4294967295 (WINDOW_SIZE / 2)

/-- What holds of every connection in a reachable state, whatever the peer
sends: a read is in flight only on a connection that has its socket
connection, a connection whose connect is in flight has none yet, and
`data_sent` is a `guint32` value. -/
def Armed (c : Connection) : Prop :=
  (0 < c.reads → c.conn = true) ∧ (c.connect_pending = true → c.conn = false) ∧
  c.data_sent < U32

/-- The connection at a pointer after `unref_connection`. -/
def unref_cell (c : Connection) : Connection :=
  { c with refs := c.refs - 1, freed := if c.refs - 1 = 0 then true else c.freed }

/-- The number of asynchronous operations in flight on a connection: its reads,
its write and its connect. -/
def ops (c : Connection) : Nat :=
  c.reads + (if c.writing.isSome then 1 else 0) + (if c.connect_pending then 1 else 0)

/-- The connection of scenario S1 after `echo_events`: a read and a write of
three bytes are in flight. -/
def echo_data_conn : Connection :=
  { echo_conn with write_buffer := [[104, 101, 108]], refs := 3,
                   writing := some [104, 101, 108] }

/-- The connections table has one entry per id and one entry per object. -/
def TableNodup (cf : ConnForwarder) : Prop :=
  (cf.connections.map Prod.fst).Nodup ∧ (cf.connections.map Prod.snd).Nodup

/-- The number of entries of the connections table that point to the object at
`p`. -/
def held (cf : ConnForwarder) (p : Nat) : Nat := (cf.connections.map Prod.snd).count p

/-! ## Relations used to state what a step changes -/

/-- Two values of a connection that differ at most in the reference count, the
released flag and the cancellation flag. -/
def Quiet (c c1 : Connection) : Prop :=
  c1 = { c with refs := c1.refs, freed := c1.freed, cancelled := c1.cancelled }

/-- Two heaps with the same objects, each changed at most in its reference
count, released flag and cancellation flag. -/
def HeapQuiet (h h1 : List Connection) : Prop :=
  h1.length = h.length ∧
    ∀ (j : Nat) (c : Connection), h[j]? = some c → ∃ c1, h1[j]? = some c1 ∧ Quiet c c1

/-- Every object of the heap satisfies `P`. -/
def HeapAll (P : Connection → Prop) (cf : ConnForwarder) : Prop :=
  ∀ (j : Nat) (c : Connection), cf.heap[j]? = some c → P c

/-- The connections table holds pointers to objects of the heap. -/
def TableValid (cf : ConnForwarder) : Prop :=
  ∀ id q, tbl_lookup cf.connections id = some q → q < cf.heap.length

/-- What one turn of the main loop on event `e` can do to the connection at
pointer `j`, apart from its reference count, released flag and cancellation
flag: nothing, or the net effect of the handler that `e` runs on it. A handler
that arms a read or a write returns only on a connection that has its socket
connection (`hconn`). -/
inductive CellStep (K : Consts) (cf : ConnForwarder) :
    Event → Nat → Connection → Connection → Prop where
  | quiet (e : Event) (j : Nat) (c : Connection) : CellStep K cf e j c c
  | data (id j : Nat) (payload : List Nat) (c : Connection)
      (hl : tbl_lookup cf.connections id = some j) (hwf : payload.length < 2 ^ 31)
      (hcon : c.connecting = false) (hconn : c.write_buffer = [] → c.conn = true) :
      CellStep K cf (Event.message (InMsg.data id payload)) j c (data_cell c payload)
  | ack (id size winSize j : Nat) (c : Connection)
      (hl : tbl_lookup cf.connections id = some j) (hs : size < U32) (hw : winSize < U32)
      (hconn : c.connecting = true ∨
        ((c.data_sent + U32 - size % U32) % U32 < WINDOW_SIZE ∧ c.data_sent ≥ WINDOW_SIZE) →
          c.conn = true) :
      CellStep K cf (Event.message (InMsg.ack id size winSize)) j c (ack_cell c size winSize)
  | read_quiet (j : Nat) (r : Option (List Nat)) (c : Connection) (hr : 0 < c.reads) :
      CellStep K cf (Event.read_done j r) j c { c with reads := c.reads - 1 }
  | read_data (j : Nat) (bytes : List Nat) (c : Connection) (hr : 0 < c.reads)
      (hb : bytes.length ≤ BUFFER_SIZE K) (hne : bytes.length ≠ 0) (hcan : c.cancelled = false)
      (hconn : (c.data_sent + bytes.length % U32) % U32 < WINDOW_SIZE → c.conn = true) :
      CellStep K cf (Event.read_done j (some bytes)) j c
        (read_cell { c with reads := c.reads - 1 } bytes)
  | write_err (j : Nat) (c : Connection) :
      CellStep K cf (Event.write_done j none) j c { c with writing := none }
  | write_ok (j n : Nat) (c : Connection) (buf : List Nat) (hw : c.writing = some buf)
      (hn : n ≤ buf.length) :
      CellStep K cf (Event.write_done j (some n)) j c
        (write_cell { c with writing := none, written := c.written ++ buf.take n } n)
  | connect (j : Nat) (ok : Bool) (c : Connection) (hp : c.connect_pending = true) :
      CellStep K cf (Event.connect_done j ok) j c
        (connect_cell { c with connect_pending := false } ok)

/-- The connections a turn of the main loop can create. -/
def CellNew (c : Connection) : Prop :=
  (∃ id, c = new_open_connection id (WINDOW_SIZE / 2)) ∨
  (∃ id winSize, winSize < U32 ∧ c = accepted_cell id winSize)

/-- Every object of the heap `h1` is, up to `Quiet`, an object of `cf` after a
`CellStep` of event `e`, or a new connection. -/
def Cells (K : Consts) (cf : ConnForwarder) (e : Event) (h1 : List Connection) : Prop :=
  ∀ (j : Nat) (c1 : Connection), h1[j]? = some c1 →
    (∃ c c0, cf.heap[j]? = some c ∧ CellStep K cf e j c c0 ∧ Quiet c0 c1) ∨
    (cf.heap[j]? = none ∧ ∃ c0, CellNew c0 ∧ Quiet c0 c1)

/-- The byte counters and buffer sizes of a connection fit the `int` and
`guint32` variables that hold them, and the write that is armed is the one of
the head of the queue. -/
def Sizes (c : Connection) : Prop :=
  c.ack_interval < 2 ^ 31 ∧ c.data_received ≤ c.ack_interval ∧
  (c.connecting = true → c.data_received = 0 ∧ c.writing = none) ∧
  (∀ b ∈ c.write_buffer, b.length < 2 ^ 31) ∧
  (∀ buf, c.writing = some buf → c.write_buffer.head? = some buf)

/-- The states the main loop reaches from a new forwarder. -/
def Reachable (K : Consts) (cf : ConnForwarder) : Prop :=
  ∃ evs, run K conn_forwarder_new evs = Except.ok cf

/-- The reference counts of a state in which the object at `q` holds `n`
references beyond its accounted ones: for every object, `refs` is the number
of its operations in flight plus the number of table entries that point to it
(plus `n` at `q`), and the object is released exactly when `refs` is zero; and
the table has valid pointers and no duplicates. -/
def Balanced (cf : ConnForwarder) (q : Nat) (n : Int) : Prop :=
  TableValid cf ∧ TableNodup cf ∧
  ∀ (p : Nat) (c : Connection), cf.heap[p]? = some c →
    c.refs = (ops c : Int) + (held cf p : Int) + (if p = q then n else 0) ∧
    (c.freed = true ↔ c.refs = 0)

/-- What also holds of every connection in a reachable state: a connection that
is not connecting has its socket connection, and a connection whose connect is
in flight is connecting. -/
def Joined (c : Connection) : Prop :=
  (c.connecting = false → c.conn = true) ∧ (c.connect_pending = true → c.connecting = true)

/-- Scenario S1 closed by the peer while a write is in flight: after the
handshake and a DATA message of three bytes (a read and a write are in flight)
the peer sends CLOSE for the connection, and the read, whose token is fired,
completes. The write is then the only operation in flight on a connection that
is out of the table. -/
def closing_events : List Event :=
  echo_events ++ [Event.message (InMsg.close 4294967295), Event.read_done 0 none]

/-- The connection of scenario S1 after `closing_events`: out of the table,
token fired, with the write of three bytes in flight and its one reference. -/
def closing_conn : Connection :=
  { echo_data_conn with cancelled := true, refs := 1, reads := 0 }

/-- Scenario S1 with a partial write before the peer closes: after the
handshake and a DATA message of three bytes the socket reports two bytes
written (an ACK of size 2 is sent and a write of the last byte is armed), then
the peer sends CLOSE for the connection and the read, whose token is fired,
completes. -/
def partial_events : List Event :=
  echo_events ++ [Event.write_done 0 (some 2), Event.message (InMsg.close 4294967295),
    Event.read_done 0 none]

/-- The connection of scenario S1 after `partial_events`: out of the table,
token fired, two bytes reported written and acknowledged, with the write of
the last byte in flight and its one reference. -/
def partial_conn : Connection :=
  { echo_conn with cancelled := true, refs := 1, reads := 0, write_buffer := [[108]],
                   writing := some [108], written := [104, 101] }

/-! ## Rule strings: the tokenizer against the tokens of the specification -/

theorem pieces_ne_nil (s : List Char) : pieces s ≠ [] := by
  cases s with
  | nil => simp [pieces]
  | cons c cs =>
    unfold pieces
    split
    · simp
    · split <;> simp

/-- The first piece is the run up to the first colon, the others are the pieces
of what follows that colon. -/
theorem pieces_eq (s : List Char) :
    pieces s = s.takeWhile (fun c => c != ':') ::
      (match s.dropWhile (fun c => c != ':') with
       | [] => []
       | _ :: r => pieces r) := by
  induction s with
  | nil => simp [pieces]
  | cons c cs ih =>
    by_cases hc : c = ':'
    · subst hc
      simp [pieces]
    · have h1 : (c != ':') = true := by simp [hc]
      rw [pieces, if_neg hc, ih]
      simp [List.takeWhile_cons, List.dropWhile_cons, h1]

theorem tokens_colon (s : List Char) : tokens (':' :: s) = tokens s := by
  simp [tokens, pieces]

theorem strtok_colon (s : List Char) : strtok (':' :: s) = strtok s := by
  simp [strtok, List.dropWhile_cons]

/-- A call of `strtok` returns the first token of the specification and leaves
the string whose tokens are the remaining ones; it returns NULL exactly when
there is no token. -/
theorem strtok_tokens (s : List Char) :
    (tokens s = [] ∧ strtok s = none) ∨
    (∃ t r, strtok s = some (t, r) ∧ tokens s = t :: tokens r) := by
  induction s with
  | nil => left; simp [tokens, pieces, strtok]
  | cons c cs ih =>
    by_cases hc : c = ':'
    · subst hc
      rw [tokens_colon, strtok_colon]
      exact ih
    · right
      have h1 : (c != ':') = true := by simp [hc]
      have h2 : (c == ':') = false := by simp [hc]
      refine ⟨c :: cs.takeWhile (fun c => c != ':'),
        (cs.dropWhile (fun c => c != ':')).drop 1, ?_, ?_⟩
      · simp [strtok, List.dropWhile_cons, List.takeWhile_cons, h1, h2]
      · rw [tokens, pieces_eq (c :: cs)]
        simp only [List.takeWhile_cons, List.dropWhile_cons, h1, if_true]
        rw [List.filter_cons_of_pos (by simp)]
        congr 1
        cases hd : cs.dropWhile (fun c => c != ':') with
        | nil => simp [tokens, pieces]
        | cons d r => simp [tokens]

theorem strtok_none_iff (s : List Char) : strtok s = none ↔ tokens s = [] := by
  rcases strtok_tokens s with ⟨h1, h2⟩ | ⟨t, r, h1, h2⟩
  · simp [h1, h2]
  · simp [h1, h2]

theorem strtok_cons {s : List Char} {t : List Char} {ts : List (List Char)}
    (h : tokens s = t :: ts) : ∃ r, strtok s = some (t, r) ∧ tokens r = ts := by
  rcases strtok_tokens s with ⟨h1, _⟩ | ⟨t1, r, h1, h2⟩
  · rw [h1] at h; cases h
  · rw [h2] at h
    injection h with ha hb
    subst ha
    exact ⟨r, h1, hb⟩

/-- What `tokenize_redirection` returns, in terms of the tokens of the rule. -/
theorem tokenize_redirection_eq (s : List Char) :
    tokenize_redirection s =
      match tokens s with
      | a :: b :: c :: d :: _ => some (some a, b, c, d)
      | [a, b, c] => some (none, a, b, c)
      | _ => none := by
  unfold tokenize_redirection
  cases h0 : tokens s with
  | nil => rw [(strtok_none_iff s).2 h0]
  | cons a l1 =>
    obtain ⟨r1, hs1, ht1⟩ := strtok_cons h0
    rw [hs1]
    cases l1 with
    | nil => simp only []; rw [(strtok_none_iff r1).2 ht1]
    | cons b l2 =>
      obtain ⟨r2, hs2, ht2⟩ := strtok_cons ht1
      simp only [hs2]
      cases l2 with
      | nil => rw [(strtok_none_iff r2).2 ht2]
      | cons c l3 =>
        obtain ⟨r3, hs3, ht3⟩ := strtok_cons ht2
        simp only [hs3]
        cases l3 with
        | nil => rw [(strtok_none_iff r3).2 ht3]
        | cons d l4 =>
          obtain ⟨r4, hs4, _⟩ := strtok_cons ht3
          simp only [hs4]

/-! ## Hash tables -/

theorem tbl_lookup_erase_self {α : Type} (t : List (Nat × α)) (k : Nat) :
    tbl_lookup (tbl_erase t k) k = none := by
  induction t with
  | nil => rfl
  | cons e t ih =>
    obtain ⟨k1, v1⟩ := e
    by_cases h : k1 = k
    · simpa [tbl_erase, h] using ih
    · simpa [tbl_erase, h, tbl_lookup] using ih

theorem tbl_lookup_erase_ne {α : Type} (t : List (Nat × α)) {k q : Nat} (hq : q ≠ k) :
    tbl_lookup (tbl_erase t k) q = tbl_lookup t q := by
  induction t with
  | nil => rfl
  | cons e t ih =>
    obtain ⟨k1, v1⟩ := e
    by_cases h : k1 = k
    · subst h
      have h2 : k1 ≠ q := fun x => hq x.symm
      simpa [tbl_erase, tbl_lookup, h2] using ih
    · by_cases h3 : k1 = q
      · subst h3
        simp [tbl_erase, h, tbl_lookup]
      · simpa [tbl_erase, h, tbl_lookup, h3] using ih

theorem tbl_erase_erase {α : Type} (t : List (Nat × α)) (k : Nat) :
    tbl_erase (tbl_erase t k) k = tbl_erase t k := by
  simp [tbl_erase]

theorem tbl_lookup_insert_self {α : Type} (t : List (Nat × α)) (k : Nat) (v : α) :
    tbl_lookup (tbl_insert t k v) k = some v := by
  simp [tbl_insert, tbl_lookup]

theorem tbl_lookup_insert_ne {α : Type} (t : List (Nat × α)) {k q : Nat} (v : α) (hq : q ≠ k) :
    tbl_lookup (tbl_insert t k v) q = tbl_lookup t q := by
  have h2 : k ≠ q := fun x => hq x.symm
  simp [tbl_insert, tbl_lookup, h2, tbl_lookup_erase_ne t hq]

theorem tbl_insert_entries {α : Type} (t : List (Nat × α)) (k : Nat) (v : α) :
    (tbl_insert t k v).filter (fun e => decide (e.1 = k)) = [(k, v)] := by
  simp [tbl_insert, tbl_erase, List.filter_filter]

/-! ## `conn_forwarder_associate_remote` -/

/-- The result of `conn_forwarder_associate_remote` on a rule the tokenizer
accepts. -/
theorem associate_remote_of_tokenize (K : Consts) (cf : ConnForwarder) (rule : List Char)
    (bind : Option (List Char)) (g h hp : List Char)
    (htok : tokenize_redirection rule = some (bind, g, h, hp)) :
    conn_forwarder_associate_remote K cf rule =
      ({ cf with
          remote_assocs := tbl_insert cf.remote_assocs (to_guint16 (atoi g))
            { port := to_guint16 (atoi hp), address := h },
          sent := cf.sent ++
            ((if (tbl_lookup cf.remote_assocs (to_guint16 (atoi g))).isSome
              then [OutMsg.shutdown (to_guint16 (atoi g))] else []) ++
            [OutMsg.listen (to_guint16 (atoi g)) (to_guint16 (atoi g)) FLEXVDI_FWDPROTO_TCP
              ((bind.getD "localhost".toList).length % U16) (bind.getD "localhost".toList)
              (K.listen_msg_size + (bind.getD "localhost".toList).length + 1)]) }, true) := by
  unfold conn_forwarder_associate_remote
  rw [htok]
  cases hl : tbl_lookup cf.remote_assocs (to_guint16 (atoi g)) with
  | none => simp [send_command, hl]
  | some v =>
    simp [send_command, conn_forwarder_disassociate_remote, hl, tbl_insert, tbl_erase_erase]

theorem tokenize_three {rule g h hp : List Char} (ht : tokens rule = [g, h, hp]) :
    tokenize_redirection rule = some (none, g, h, hp) := by
  rw [tokenize_redirection_eq, ht]

theorem tokenize_four {rule b g h hp : List Char} {rest : List (List Char)}
    (ht : tokens rule = b :: g :: h :: hp :: rest) :
    tokenize_redirection rule = some (some b, g, h, hp) := by
  rw [tokenize_redirection_eq, ht]

theorem tokenize_rule {rule : List Char} {bind : Option (List Char)} {g h hp : List Char}
    (htok : (bind = none ∧ tokens rule = [g, h, hp]) ∨
      (∃ b, bind = some b ∧ tokens rule = [b, g, h, hp])) :
    tokenize_redirection rule = some (bind, g, h, hp) := by
  rcases htok with ⟨hb, ht⟩ | ⟨b, hb, ht⟩
  · rw [hb]; exact tokenize_three ht
  · rw [hb]; exact tokenize_four ht

theorem tokenize_few {rule : List Char} (h : (tokens rule).length < 3) :
    tokenize_redirection rule = none := by
  rw [tokenize_redirection_eq]
  match ht : tokens rule, h with
  | [], _ => rfl
  | [_], _ => rfl
  | [_, _], _ => rfl
  | _ :: _ :: _ :: l, h => simp at h; omega

theorem pieces_append_colon (t rest : List Char) (hc : ∀ c ∈ t, c ≠ ':') :
    pieces (t ++ ':' :: rest) = t :: pieces rest := by
  induction t with
  | nil => simp [pieces]
  | cons c cs ih =>
    have h1 : c ≠ ':' := hc c (List.mem_cons_self _ _)
    have h2 := ih (fun x hx => hc x (List.mem_cons_of_mem _ hx))
    simp [pieces, h1, h2]

theorem tokens_append_colon (t rest : List Char) (hne : t ≠ []) (hc : ∀ c ∈ t, c ≠ ':') :
    tokens (t ++ ':' :: rest) = t :: tokens rest := by
  simp [tokens, pieces_append_colon t rest hc, hne]

theorem atoi_no_number (c : Char) (cs : List Char) (hs : isspace c = false)
    (hplus : c ≠ '+') (hminus : c ≠ '-') (hd : ¬ (48 ≤ c.toNat ∧ c.toNat ≤ 57)) :
    to_guint16 (atoi (c :: cs)) = 0 := by
  simp [atoi, List.dropWhile_cons, hs, hplus, hminus, digits_value, hd, to_guint16]

/-- The state after `conn_forwarder_associate_remote` on a rule whose bind
address is `a`, with rule `1:h:2`, from a fresh forwarder. -/
theorem associate_remote_bind (K : Consts) (a : List Char) (hne : a ≠ [])
    (hc : ∀ c ∈ a, c ≠ ':') :
    (conn_forwarder_associate_remote K conn_forwarder_new (a ++ ":1:h:2".toList)).1.sent =
      [OutMsg.listen 1 1 1 (a.length % 65536) a (K.listen_msg_size + a.length + 1)] := by
  have h1 : ":1:h:2".toList = ':' :: "1:h:2".toList := by decide
  have h2 : tokens "1:h:2".toList = ["1".toList, "h".toList, "2".toList] := by decide
  have h3 : tokens (a ++ ":1:h:2".toList) = [a, "1".toList, "h".toList, "2".toList] := by
    rw [h1, tokens_append_colon a _ hne hc, h2]
  rw [associate_remote_of_tokenize K _ _ _ _ _ _ (tokenize_four h3)]
  have h4 : to_guint16 (atoi ['1']) = 1 := by decide
  simp [h4, conn_forwarder_new, tbl_lookup, FLEXVDI_FWDPROTO_TCP, U16]

/-! ## Heaps -/

theorem quiet_refl (c : Connection) : Quiet c c := by
  cases c; rfl

theorem quiet_trans {a b c : Connection} (h1 : Quiet a b) (h2 : Quiet b c) : Quiet a c := by
  unfold Quiet at *
  rw [h2, h1]

theorem Quiet.mk_refs (c : Connection) (r : Int) (f : Bool) :
    Quiet c { c with refs := r, freed := f } := by
  cases c; rfl

theorem Quiet.mk_cancelled (c : Connection) (b : Bool) :
    Quiet c { c with cancelled := b } := by
  cases c; rfl

theorem heap_quiet_refl (h : List Connection) : HeapQuiet h h :=
  ⟨rfl, fun _ c hc => ⟨c, hc, quiet_refl c⟩⟩

theorem heap_quiet_trans {a b c : List Connection} (h1 : HeapQuiet a b) (h2 : HeapQuiet b c) :
    HeapQuiet a c := by
  refine ⟨h2.1.trans h1.1, fun j x hx => ?_⟩
  obtain ⟨y, hy, hxy⟩ := h1.2 j x hx
  obtain ⟨z, hz, hyz⟩ := h2.2 j y hy
  exact ⟨z, hz, quiet_trans hxy hyz⟩

theorem HeapQuiet.set {h : List Connection} {p : Nat} {c c1 : Connection}
    (hc : h[p]? = some c) (hq : Quiet c c1) : HeapQuiet h (h.set p c1) := by
  refine ⟨List.length_set _ _ _, fun j x hx => ?_⟩
  by_cases hj : p = j
  · subst hj
    have hlt : p < h.length := by
      rcases Nat.lt_or_ge p h.length with hl | hl
      · exact hl
      · rw [List.getElem?_eq_none hl] at hc; cases hc
    rw [hc] at hx
    injection hx with hx
    subst hx
    exact ⟨c1, by simp [List.getElem?_set, hlt], hq⟩
  · exact ⟨x, by simp [List.getElem?_set, hj, hx], quiet_refl x⟩

theorem HeapQuiet.get {h h1 : List Connection} (hq : HeapQuiet h h1) {j : Nat}
    {c1 : Connection} (hc : h1[j]? = some c1) : ∃ c, h[j]? = some c ∧ Quiet c c1 := by
  have hlt : j < h.length := by
    rcases Nat.lt_or_ge j h1.length with hl | hl
    · rw [← hq.1]; exact hl
    · rw [List.getElem?_eq_none hl] at hc; cases hc
  obtain ⟨c, hcj⟩ : ∃ c, h[j]? = some c := ⟨h[j], List.getElem?_eq_getElem hlt⟩
  obtain ⟨c2, hc2, hq2⟩ := hq.2 j c hcj
  rw [hc] at hc2
  injection hc2 with hc2
  subst hc2
  exact ⟨c, hcj, hq2⟩

theorem unref_connection_quiet (cf : ConnForwarder) (p : Nat) :
    HeapQuiet cf.heap (unref_connection cf p).heap := by
  unfold unref_connection
  cases hc : cf.heap[p]? with
  | none => exact heap_quiet_refl _
  | some c => exact HeapQuiet.set hc (Quiet.mk_refs c _ _)

theorem connections_remove_quiet (cf : ConnForwarder) (id : Nat) :
    HeapQuiet cf.heap (connections_remove cf id).1.heap := by
  unfold connections_remove
  cases tbl_lookup cf.connections id with
  | none => exact heap_quiet_refl _
  | some q => exact unref_connection_quiet { cf with connections := tbl_erase cf.connections id } q

theorem connections_insert_quiet (cf : ConnForwarder) (id p : Nat) :
    HeapQuiet cf.heap (connections_insert cf id p).heap := by
  unfold connections_insert
  cases tbl_lookup cf.connections id with
  | none => exact heap_quiet_refl _
  | some q =>
    exact unref_connection_quiet { cf with connections := tbl_insert cf.connections id p } q

theorem close_connection_no_notify_quiet (cf : ConnForwarder) (p : Nat) :
    HeapQuiet cf.heap (close_connection_no_notify cf p).heap := by
  unfold close_connection_no_notify
  cases hc : cf.heap[p]? with
  | none => exact heap_quiet_refl _
  | some c =>
    exact heap_quiet_trans (HeapQuiet.set hc (Quiet.mk_cancelled c true))
      (connections_remove_quiet _ _)

theorem close_connection_quiet (cf : ConnForwarder) (p : Nat) :
    HeapQuiet cf.heap (close_connection cf p).heap := by
  unfold close_connection
  cases hc : cf.heap[p]? with
  | none => exact heap_quiet_refl _
  | some c => exact close_connection_no_notify_quiet (close_agent_connection cf c.id) p

theorem foldl_unref_quiet (ps : List Nat) (cf : ConnForwarder) :
    HeapQuiet cf.heap (ps.foldl unref_connection cf).heap := by
  induction ps generalizing cf with
  | nil => exact heap_quiet_refl _
  | cons q ps ih => exact heap_quiet_trans (unref_connection_quiet cf q) (ih _)

theorem agent_disconnected_quiet (cf : ConnForwarder) :
    HeapQuiet cf.heap (conn_forwarder_agent_disconnected cf).heap :=
  foldl_unref_quiet _ { cf with remote_assocs := [], connections := [] }

theorem heap_lt_of_get {h : List Connection} {p : Nat} {c : Connection} (hc : h[p]? = some c) :
    p < h.length := by
  rcases Nat.lt_or_ge p h.length with hl | hl
  · exact hl
  · rw [List.getElem?_eq_none hl] at hc; cases hc

theorem heap_set_self {h : List Connection} {p : Nat} {c : Connection} (c1 : Connection)
    (hc : h[p]? = some c) : (h.set p c1)[p]? = some c1 := by
  simp [List.getElem?_set, heap_lt_of_get hc]

theorem heap_set_ne {h : List Connection} {p j : Nat} (c1 : Connection) (hj : p ≠ j) :
    (h.set p c1)[j]? = h[j]? := by
  simp [List.getElem?_set, hj]

theorem heap_set_same {h : List Connection} {p : Nat} {c : Connection} (hc : h[p]? = some c) :
    h.set p c = h := by
  apply List.ext_getElem?
  intro j
  by_cases hj : p = j
  · subst hj; rw [heap_set_self _ hc, hc]
  · rw [heap_set_ne _ hj]

theorem heap_set_set (h : List Connection) (p : Nat) (a b : Connection) :
    (h.set p a).set p b = h.set p b := by
  simp [List.set_set]

theorem HeapQuiet.append {h h1 : List Connection} (hq : HeapQuiet h h1) (x : Connection) :
    HeapQuiet (h ++ [x]) (h1 ++ [x]) := by
  refine ⟨by simp [hq.1], fun j c hc => ?_⟩
  rcases Nat.lt_or_ge j h.length with hl | hl
  · rw [List.getElem?_append_left hl] at hc
    obtain ⟨c1, hc1, hq1⟩ := hq.2 j c hc
    refine ⟨c1, ?_, hq1⟩
    rw [List.getElem?_append_left (by rw [hq.1]; exact hl)]
    exact hc1
  · rw [List.getElem?_append_right hl] at hc
    refine ⟨c, ?_, quiet_refl c⟩
    rw [List.getElem?_append_right (by rw [hq.1]; exact hl), hq.1]
    exact hc

theorem HeapQuiet.set_both {h h1 : List Connection} (hq : HeapQuiet h h1) (p : Nat)
    {a b : Connection} (hab : Quiet a b) : HeapQuiet (h.set p a) (h1.set p b) := by
  refine ⟨by simp [hq.1], fun j c hc => ?_⟩
  by_cases hj : p = j
  · subst hj
    have hlt : p < h.length := by
      have := heap_lt_of_get hc
      simpa using this
    rw [List.getElem?_set, if_pos rfl, if_pos hlt] at hc
    injection hc with hc
    subst hc
    exact ⟨b, by simp [List.getElem?_set, hq.1, hlt], hab⟩
  · rw [heap_set_ne _ hj] at hc
    obtain ⟨c1, hc1, hq1⟩ := hq.2 j c hc
    exact ⟨c1, by rw [heap_set_ne _ hj]; exact hc1, hq1⟩

theorem tbl_erase_absent {α : Type} (t : List (Nat × α)) (k : Nat)
    (h : tbl_lookup t k = none) : tbl_erase t k = t := by
  induction t with
  | nil => rfl
  | cons e t ih =>
    obtain ⟨k1, v1⟩ := e
    by_cases hk : k1 = k
    · simp [tbl_lookup, hk] at h
    · simp only [tbl_lookup, hk, if_false] at h
      have := ih h
      simp only [tbl_erase] at this ⊢
      rw [List.filter_cons_of_pos (by simpa using hk), this]

theorem tbl_lookup_erase_some {α : Type} (t : List (Nat × α)) {k q : Nat} {v : α}
    (h : tbl_lookup (tbl_erase t k) q = some v) : tbl_lookup t q = some v := by
  by_cases hq : q = k
  · subst hq
    rw [tbl_lookup_erase_self] at h
    cases h
  · rw [tbl_lookup_erase_ne t hq] at h
    exact h

/-! ## What the reference-count operations leave unchanged -/

@[simp] theorem unref_connection_remote_assocs (cf : ConnForwarder) (p : Nat) :
    (unref_connection cf p).remote_assocs = cf.remote_assocs := by
  unfold unref_connection
  cases cf.heap[p]? <;> rfl

@[simp] theorem unref_connection_connections (cf : ConnForwarder) (p : Nat) :
    (unref_connection cf p).connections = cf.connections := by
  unfold unref_connection
  cases cf.heap[p]? <;> rfl

@[simp] theorem unref_connection_listener (cf : ConnForwarder) (p : Nat) :
    (unref_connection cf p).listener = cf.listener := by
  unfold unref_connection
  cases cf.heap[p]? <;> rfl

@[simp] theorem unref_connection_accepts (cf : ConnForwarder) (p : Nat) :
    (unref_connection cf p).accepts = cf.accepts := by
  unfold unref_connection
  cases cf.heap[p]? <;> rfl

@[simp] theorem unref_connection_seq (cf : ConnForwarder) (p : Nat) :
    (unref_connection cf p).seq = cf.seq := by
  unfold unref_connection
  cases cf.heap[p]? <;> rfl

@[simp] theorem unref_connection_sent (cf : ConnForwarder) (p : Nat) :
    (unref_connection cf p).sent = cf.sent := by
  unfold unref_connection
  cases cf.heap[p]? <;> rfl

@[simp] theorem connections_remove_remote_assocs (cf : ConnForwarder) (id : Nat) :
    (connections_remove cf id).1.remote_assocs = cf.remote_assocs := by
  unfold connections_remove
  cases tbl_lookup cf.connections id with
  | none => rfl
  | some q => simp

@[simp] theorem connections_insert_remote_assocs (cf : ConnForwarder) (id p : Nat) :
    (connections_insert cf id p).remote_assocs = cf.remote_assocs := by
  unfold connections_insert
  cases tbl_lookup cf.connections id with
  | none => rfl
  | some q => simp

@[simp] theorem close_connection_no_notify_remote_assocs (cf : ConnForwarder) (p : Nat) :
    (close_connection_no_notify cf p).remote_assocs = cf.remote_assocs := by
  unfold close_connection_no_notify
  cases cf.heap[p]? with
  | none => rfl
  | some c => simp [set_conn]

@[simp] theorem connections_remove_listener (cf : ConnForwarder) (id : Nat) :
    (connections_remove cf id).1.listener = cf.listener := by
  unfold connections_remove
  cases tbl_lookup cf.connections id with
  | none => rfl
  | some q => simp

@[simp] theorem connections_insert_listener (cf : ConnForwarder) (id p : Nat) :
    (connections_insert cf id p).listener = cf.listener := by
  unfold connections_insert
  cases tbl_lookup cf.connections id with
  | none => rfl
  | some q => simp

@[simp] theorem close_connection_no_notify_listener (cf : ConnForwarder) (p : Nat) :
    (close_connection_no_notify cf p).listener = cf.listener := by
  unfold close_connection_no_notify
  cases cf.heap[p]? with
  | none => rfl
  | some c => simp [set_conn]

@[simp] theorem connections_remove_accepts (cf : ConnForwarder) (id : Nat) :
    (connections_remove cf id).1.accepts = cf.accepts := by
  unfold connections_remove
  cases tbl_lookup cf.connections id with
  | none => rfl
  | some q => simp

@[simp] theorem connections_insert_accepts (cf : ConnForwarder) (id p : Nat) :
    (connections_insert cf id p).accepts = cf.accepts := by
  unfold connections_insert
  cases tbl_lookup cf.connections id with
  | none => rfl
  | some q => simp

@[simp] theorem close_connection_no_notify_accepts (cf : ConnForwarder) (p : Nat) :
    (close_connection_no_notify cf p).accepts = cf.accepts := by
  unfold close_connection_no_notify
  cases cf.heap[p]? with
  | none => rfl
  | some c => simp [set_conn]

@[simp] theorem connections_remove_seq (cf : ConnForwarder) (id : Nat) :
    (connections_remove cf id).1.seq = cf.seq := by
  unfold connections_remove
  cases tbl_lookup cf.connections id with
  | none => rfl
  | some q => simp

@[simp] theorem connections_insert_seq (cf : ConnForwarder) (id p : Nat) :
    (connections_insert cf id p).seq = cf.seq := by
  unfold connections_insert
  cases tbl_lookup cf.connections id with
  | none => rfl
  | some q => simp

@[simp] theorem close_connection_no_notify_seq (cf : ConnForwarder) (p : Nat) :
    (close_connection_no_notify cf p).seq = cf.seq := by
  unfold close_connection_no_notify
  cases cf.heap[p]? with
  | none => rfl
  | some c => simp [set_conn]

@[simp] theorem connections_remove_sent (cf : ConnForwarder) (id : Nat) :
    (connections_remove cf id).1.sent = cf.sent := by
  unfold connections_remove
  cases tbl_lookup cf.connections id with
  | none => rfl
  | some q => simp

@[simp] theorem connections_insert_sent (cf : ConnForwarder) (id p : Nat) :
    (connections_insert cf id p).sent = cf.sent := by
  unfold connections_insert
  cases tbl_lookup cf.connections id with
  | none => rfl
  | some q => simp

@[simp] theorem close_connection_no_notify_sent (cf : ConnForwarder) (p : Nat) :
    (close_connection_no_notify cf p).sent = cf.sent := by
  unfold close_connection_no_notify
  cases cf.heap[p]? with
  | none => rfl
  | some c => simp [set_conn]

@[simp] theorem close_connection_remote_assocs (cf : ConnForwarder) (p : Nat) :
    (close_connection cf p).remote_assocs = cf.remote_assocs := by
  unfold close_connection
  cases cf.heap[p]? with
  | none => rfl
  | some c => simp [close_agent_connection, send_command]

@[simp] theorem close_connection_listener (cf : ConnForwarder) (p : Nat) :
    (close_connection cf p).listener = cf.listener := by
  unfold close_connection
  cases cf.heap[p]? with
  | none => rfl
  | some c => simp [close_agent_connection, send_command]

@[simp] theorem close_connection_accepts (cf : ConnForwarder) (p : Nat) :
    (close_connection cf p).accepts = cf.accepts := by
  unfold close_connection
  cases cf.heap[p]? with
  | none => rfl
  | some c => simp [close_agent_connection, send_command]

@[simp] theorem close_connection_seq (cf : ConnForwarder) (p : Nat) :
    (close_connection cf p).seq = cf.seq := by
  unfold close_connection
  cases cf.heap[p]? with
  | none => rfl
  | some c => simp [close_agent_connection, send_command]

@[simp] theorem connections_remove_connections (cf : ConnForwarder) (id : Nat) :
    (connections_remove cf id).1.connections = tbl_erase cf.connections id := by
  unfold connections_remove
  cases h : tbl_lookup cf.connections id with
  | none => exact (tbl_erase_absent _ _ h).symm
  | some q => simp

@[simp] theorem connections_insert_connections (cf : ConnForwarder) (id p : Nat) :
    (connections_insert cf id p).connections = tbl_insert cf.connections id p := by
  unfold connections_insert
  cases tbl_lookup cf.connections id with
  | none => rfl
  | some q => simp

theorem close_connection_no_notify_connections {cf : ConnForwarder} {p : Nat} {c : Connection}
    (hc : cf.heap[p]? = some c) :
    (close_connection_no_notify cf p).connections = tbl_erase cf.connections c.id := by
  unfold close_connection_no_notify
  rw [hc]
  simp [set_conn]

theorem close_connection_connections {cf : ConnForwarder} {p : Nat} {c : Connection}
    (hc : cf.heap[p]? = some c) :
    (close_connection cf p).connections = tbl_erase cf.connections c.id := by
  unfold close_connection
  rw [hc]
  have h2 : (close_agent_connection cf c.id).heap[p]? = some c := hc
  simp only [close_connection_no_notify_connections h2]
  rfl

theorem close_connection_sent {cf : ConnForwarder} {p : Nat} {c : Connection}
    (hc : cf.heap[p]? = some c) :
    (close_connection cf p).sent = cf.sent ++ [OutMsg.close c.id] := by
  unfold close_connection
  rw [hc]
  simp [close_agent_connection, send_command]

/-! ## The handlers, one connection at a time -/

theorem program_read_ok {cf : ConnForwarder} {p : Nat} {c : Connection}
    (hc : cf.heap[p]? = some c) (hconn : c.conn = true) :
    program_read cf p = Except.ok (set_conn cf p { c with reads := c.reads + 1 }) := by
  unfold program_read
  rw [hc]
  dsimp only
  rw [if_pos hconn]

theorem program_read_fault {cf : ConnForwarder} {p : Nat} {c : Connection}
    (hc : cf.heap[p]? = some c) (hconn : c.conn = false) :
    program_read cf p = Except.error Stop.fault := by
  unfold program_read
  rw [hc]
  dsimp only
  rw [if_neg (by rw [hconn]; exact Bool.false_ne_true)]

theorem program_read_eq {cf cf1 : ConnForwarder} {p : Nat} {c : Connection}
    (h : program_read cf p = Except.ok cf1) (hc : cf.heap[p]? = some c) :
    c.conn = true ∧ cf1 = set_conn cf p { c with reads := c.reads + 1 } := by
  by_cases hconn : c.conn = true
  · rw [program_read_ok hc hconn] at h
    injection h with h
    exact ⟨hconn, h.symm⟩
  · rw [program_read_fault hc (by simpa using hconn)] at h
    cases h

/-- A property of the state that the stores through a pointer keep is kept by
`program_read` when it returns. -/
theorem program_read_inv {I : ConnForwarder → Prop}
    (hset : ∀ cf p c, I cf → I (set_conn cf p c)) {cf cf1 : ConnForwarder} {p : Nat}
    (hi : I cf) (h : program_read cf p = Except.ok cf1) : I cf1 := by
  cases hc : cf.heap[p]? with
  | none =>
    unfold program_read at h
    rw [hc] at h
    injection h with h
    exact h ▸ hi
  | some c =>
    rw [(program_read_eq h hc).2]
    exact hset _ _ _ hi

theorem connection_write_callback_some {cf : ConnForwarder} {p : Nat} {c : Connection} (n : Nat)
    (hc : cf.heap[p]? = some c) :
    connection_write_callback cf p (some n) =
      if (write_cell c n).freed = true then Except.error Stop.fault
      else Except.ok
        { cf with heap := cf.heap.set p (write_cell c n), sent := cf.sent ++ write_acks c n } := by
  unfold connection_write_callback
  rw [hc]
  dsimp only
  cases hq : pop_written c.write_buffer n with
  | nil =>
    simp only [unref_connection, set_conn, heap_set_self _ hc, heap_set_set, write_cell,
      write_acks, hq, send_command, true_and]
    by_cases h0 : c.refs - 1 = 0
    · simp only [h0, if_true]
    · simp only [h0, if_false]
      by_cases hf : c.freed = true
      · simp only [hf, if_true]
      · by_cases hge : c.ack_interval ≤ (c.data_received + n) % U32
        · simp [hf, hge]
        · simp [hf, hge]
  | cons b q =>
    simp only [set_conn, heap_set_self _ hc, heap_set_set, write_cell,
      write_acks, hq, send_command]
    by_cases hf : c.freed = true
    · simp [hf]
    · by_cases hge : c.ack_interval ≤ (c.data_received + n) % U32
      · simp [hf, hge]
      · simp [hf, hge]

theorem connection_write_callback_ok {cf cf1 : ConnForwarder} {p : Nat} {c : Connection}
    (n : Nat) (hc : cf.heap[p]? = some c)
    (h : connection_write_callback cf p (some n) = Except.ok cf1) :
    (write_cell c n).freed = false ∧
    cf1 = { cf with heap := cf.heap.set p (write_cell c n),
                    sent := cf.sent ++ write_acks c n } := by
  rw [connection_write_callback_some n hc] at h
  split at h
  · cases h
  · rename_i hf
    injection h with h
    exact ⟨by simpa using hf, h.symm⟩

theorem connection_write_callback_none {cf : ConnForwarder} {p : Nat} {c : Connection}
    (hc : cf.heap[p]? = some c) :
    connection_write_callback cf p none =
      Except.ok (unref_connection (close_connection cf p) p) := by
  unfold connection_write_callback
  rw [hc]

theorem connection_write_callback_err {cf cf1 : ConnForwarder} {p : Nat}
    (h : connection_write_callback cf p none = Except.ok cf1) :
    HeapQuiet cf.heap cf1.heap := by
  cases hc : cf.heap[p]? with
  | none =>
    unfold connection_write_callback at h
    rw [hc] at h
    injection h with h
    rw [← h]
    exact heap_quiet_refl _
  | some c =>
    rw [connection_write_callback_none hc] at h
    injection h with h
    rw [← h]
    exact heap_quiet_trans (close_connection_quiet cf p) (unref_connection_quiet _ p)

theorem connection_read_callback_data {K : Consts} {cf : ConnForwarder} {p : Nat}
    {c : Connection} (bytes : List Nat) (hc : cf.heap[p]? = some c)
    (hcan : c.cancelled = false) (hb : bytes.length ≠ 0)
    (hconn : (c.data_sent + bytes.length % U32) % U32 < WINDOW_SIZE → c.conn = true) :
    connection_read_callback K cf p (some bytes) =
      Except.ok { cf with
        heap := cf.heap.set p (read_cell c bytes),
        sent := cf.sent ++
          [OutMsg.data c.id (bytes.length % U32) bytes (DATA_HEAD_SIZE K + bytes.length % U32)] } := by
  unfold connection_read_callback
  rw [hc]
  dsimp only
  rw [if_neg (by rw [hcan]; exact Bool.false_ne_true), if_neg hb]
  by_cases hw : (c.data_sent + bytes.length % U32) % U32 < WINDOW_SIZE
  · rw [if_pos hw]
    have hc2 : (set_conn (send_command cf (OutMsg.data c.id (bytes.length % U32) bytes
          (DATA_HEAD_SIZE K + bytes.length % U32))) p
          { c with data_sent := (c.data_sent + bytes.length % U32) % U32 }).heap[p]? =
        some { c with data_sent := (c.data_sent + bytes.length % U32) % U32 } :=
      heap_set_self _ hc
    rw [program_read_ok hc2 (hconn hw)]
    simp only [set_conn, send_command, heap_set_set, read_cell, hw, if_true,
      not_true_eq_false, false_and, if_false]
  · rw [if_neg hw]
    unfold unref_connection
    simp only [set_conn, send_command, heap_set_self _ hc, heap_set_set, read_cell, hw,
      if_false, false_and, not_false_eq_true, true_and]

/-- A read completion that forwards bytes and leaves `data_sent` below the
window returns only on a connection that has its socket connection. -/
theorem connection_read_callback_conn {K : Consts} {cf cf1 : ConnForwarder} {p : Nat}
    {c : Connection} (bytes : List Nat) (hc : cf.heap[p]? = some c)
    (hcan : c.cancelled = false) (hb : bytes.length ≠ 0)
    (h : connection_read_callback K cf p (some bytes) = Except.ok cf1)
    (hw : (c.data_sent + bytes.length % U32) % U32 < WINDOW_SIZE) : c.conn = true := by
  unfold connection_read_callback at h
  rw [hc] at h
  dsimp only at h
  rw [if_neg (by rw [hcan]; exact Bool.false_ne_true), if_neg hb, if_pos hw] at h
  exact (program_read_eq h (heap_set_self _ hc)).1

theorem connection_read_callback_quiet {K : Consts} {cf cf1 : ConnForwarder} {p : Nat}
    {c : Connection} (r : Option (List Nat)) (hc : cf.heap[p]? = some c)
    (hq : c.cancelled = true ∨ r = none ∨ r = some [])
    (h : connection_read_callback K cf p r = Except.ok cf1) :
    HeapQuiet cf.heap cf1.heap := by
  unfold connection_read_callback at h
  rw [hc] at h
  dsimp only at h
  by_cases hcan : c.cancelled = true
  · rw [if_pos hcan] at h
    injection h with h
    rw [← h]
    exact unref_connection_quiet _ _
  · rw [if_neg hcan] at h
    rcases hq with hq | hq | hq
    · exact absurd hq hcan
    · subst hq
      injection h with h
      rw [← h]
      exact heap_quiet_trans (close_connection_quiet cf p) (unref_connection_quiet _ p)
    · subst hq
      simp only [List.length_nil, if_true] at h
      injection h with h
      rw [← h]
      exact heap_quiet_trans (close_connection_quiet cf p) (unref_connection_quiet _ p)

/-- What `handle_data` does when it returns: nothing, or the payload is queued
on the connection of the id, which is not connecting (and has its socket
connection when a write is armed). -/
theorem handle_data_eq {cf cf1 : ConnForwarder} {id : Nat} {payload : List Nat}
    (h : handle_data cf id payload = Except.ok cf1) :
    cf1 = cf ∨
    ∃ p c, tbl_lookup cf.connections id = some p ∧ cf.heap[p]? = some c ∧
      c.connecting = false ∧ (c.write_buffer = [] → c.conn = true) ∧
      cf1 = set_conn cf p (data_cell c payload) := by
  unfold handle_data at h
  cases hl : tbl_lookup cf.connections id with
  | none => rw [hl] at h; injection h with h; exact Or.inl h.symm
  | some p =>
    rw [hl] at h
    dsimp only at h
    cases hc : cf.heap[p]? with
    | none => rw [hc] at h; injection h with h; exact Or.inl h.symm
    | some c =>
      rw [hc] at h
      dsimp only at h
      by_cases hcon : c.connecting = true
      · rw [if_pos hcon] at h; injection h with h; exact Or.inl h.symm
      · right
        rw [if_neg hcon] at h
        refine ⟨p, c, rfl, hc, by simpa using hcon, ?_⟩
        cases hq : c.write_buffer with
        | nil =>
          rw [hq] at h
          simp only [List.nil_append, List.length_singleton, if_true] at h
          split at h
          · rename_i hconn
            injection h with h
            refine ⟨fun _ => hconn, ?_⟩
            rw [← h]
            simp [data_cell, hq]
          · cases h
        | cons b q =>
          rw [hq] at h
          simp only [List.cons_append, List.length_cons, List.length_append,
            List.length_singleton] at h
          rw [if_neg (by omega)] at h
          injection h with h
          refine ⟨fun hx => (by cases hx), ?_⟩
          rw [← h]
          simp [data_cell, hq]

/-- What `handle_ack` does when it returns: nothing, or the update of the
connection of the id (which has its socket connection when a read is armed). -/
theorem handle_ack_eq {cf cf1 : ConnForwarder} {id size winSize : Nat}
    (h : handle_ack cf id size winSize = Except.ok cf1) :
    cf1 = cf ∨
    ∃ p c, tbl_lookup cf.connections id = some p ∧ cf.heap[p]? = some c ∧
      (c.connecting = true ∨
        ((c.data_sent + U32 - size % U32) % U32 < WINDOW_SIZE ∧ c.data_sent ≥ WINDOW_SIZE) →
          c.conn = true) ∧
      cf1 = set_conn cf p (ack_cell c size winSize) := by
  unfold handle_ack at h
  cases hl : tbl_lookup cf.connections id with
  | none => rw [hl] at h; injection h with h; exact Or.inl h.symm
  | some p =>
    rw [hl] at h
    dsimp only at h
    cases hc : cf.heap[p]? with
    | none => rw [hc] at h; injection h with h; exact Or.inl h.symm
    | some c =>
      rw [hc] at h
      dsimp only at h
      right
      refine ⟨p, c, rfl, hc, ?_⟩
      unfold ack_cell
      by_cases hcon : c.connecting = true
      · rw [if_pos hcon] at h
        rw [if_pos hcon]
        obtain ⟨hconn, h1⟩ := program_read_eq h (heap_set_self _ hc)
        refine ⟨fun _ => hconn, ?_⟩
        rw [h1]
        simp only [set_conn, heap_set_set]
      · rw [if_neg hcon] at h
        rw [if_neg hcon]
        by_cases hw : (c.data_sent + U32 - size % U32) % U32 < WINDOW_SIZE ∧
            c.data_sent ≥ WINDOW_SIZE
        · rw [if_pos hw] at h
          rw [if_pos hw]
          obtain ⟨hconn, h1⟩ := program_read_eq h (heap_set_self _ hc)
          refine ⟨fun _ => hconn, ?_⟩
          rw [h1]
          simp only [set_conn, heap_set_set]
        · rw [if_neg hw] at h
          rw [if_neg hw]
          injection h with h
          refine ⟨fun hx => ?_, h.symm⟩
          rcases hx with hx | hx
          · exact absurd hx hcon
          · exact absurd hx hw

theorem handle_close_quiet (cf : ConnForwarder) (id : Nat) :
    HeapQuiet cf.heap (handle_close cf id).heap := by
  unfold handle_close
  cases tbl_lookup cf.connections id with
  | none => exact heap_quiet_refl _
  | some p => exact close_connection_no_notify_quiet cf p

/-- The state after a connect completion with success on a connection that is
not cancelled: the call of `program_read` returns, since `conn` was just set. -/
theorem connection_connect_callback_ok {cf : ConnForwarder} {p : Nat} {c : Connection}
    (hc : cf.heap[p]? = some c) (hcan : c.cancelled = false) :
    connection_connect_callback cf p true =
      Except.ok (send_command
        (set_conn cf p { c with conn := true, connecting := false, reads := c.reads + 1 })
        (OutMsg.ack c.id 0 WINDOW_SIZE)) := by
  unfold connection_connect_callback
  rw [hc]
  dsimp only
  rw [if_neg (by rw [hcan]; exact Bool.false_ne_true)]
  have hc2 : (set_conn cf p { c with conn := true, connecting := false }).heap[p]? =
      some { c with conn := true, connecting := false } := heap_set_self _ hc
  simp only [Bool.not_true, Bool.false_eq_true, if_false, program_read_ok hc2 rfl]
  simp only [set_conn, heap_set_set]

theorem connection_connect_callback_quiet {cf cf1 : ConnForwarder} {p : Nat} {c : Connection}
    (ok : Bool) (hc : cf.heap[p]? = some c)
    (h : connection_connect_callback cf p ok = Except.ok cf1) :
    HeapQuiet (cf.heap.set p (connect_cell c ok)) cf1.heap := by
  unfold connect_cell
  by_cases hcan : c.cancelled = true
  · unfold connection_connect_callback at h
    rw [hc] at h
    dsimp only at h
    rw [if_pos hcan] at h
    injection h with h
    rw [if_pos hcan, heap_set_same hc, ← h]
    exact unref_connection_quiet _ _
  · rw [if_neg hcan]
    cases ok with
    | false =>
      unfold connection_connect_callback at h
      rw [hc] at h
      dsimp only at h
      rw [if_neg hcan] at h
      simp only [Bool.not_false, if_true] at h
      injection h with h
      rw [← h]
      simp only [Bool.false_eq_true, if_false]
      exact heap_quiet_trans (close_connection_quiet (set_conn cf p { c with conn := false }) p)
        (unref_connection_quiet _ p)
    | true =>
      rw [connection_connect_callback_ok hc (by simpa using hcan)] at h
      injection h with h
      rw [← h]
      simp only [if_true, set_conn, send_command]
      exact heap_quiet_refl _

theorem handle_accepted_quiet {cf cf1 : ConnForwarder} {id listenId winSize : Nat}
    (h : handle_accepted cf id listenId winSize = Except.ok cf1) :
    HeapQuiet (cf.heap ++ [accepted_cell id winSize]) cf1.heap := by
  unfold handle_accepted at h
  dsimp only at h
  split at h
  · cases h
  · have hq1 : HeapQuiet cf.heap
        (match tbl_lookup cf.connections id with
          | some q => close_connection_no_notify cf q
          | none => cf).heap := by
      split
      · exact close_connection_no_notify_quiet _ _
      · exact heap_quiet_refl _
    revert h
    generalize (match tbl_lookup cf.connections id with
          | some q => close_connection_no_notify cf q
          | none => cf) = cfa at hq1 ⊢
    intro h
    have hq2 := heap_quiet_trans (hq1.append (new_connection_with_socket id (winSize / 2)))
      (connections_insert_quiet (alloc cfa (new_connection_with_socket id (winSize / 2))).1 id
        (alloc cfa (new_connection_with_socket id (winSize / 2))).2)
    simp only [alloc] at h hq2
    have hlen : cfa.heap.length = cf.heap.length := hq1.1
    rw [hlen] at h hq2
    obtain ⟨c1, hc1, hqc⟩ := hq2.2 cf.heap.length (new_connection_with_socket id (winSize / 2))
      (by simp)
    rw [hc1] at h
    simp only [Except.ok.injEq] at h
    subst h
    have hset : cf.heap ++ [accepted_cell id winSize] =
        (cf.heap ++ [new_connection_with_socket id (winSize / 2)]).set cf.heap.length
          (accepted_cell id winSize) := by
      simp
    rw [hset]
    refine HeapQuiet.set_both hq2 _ ?_
    unfold Quiet at hqc ⊢
    rw [hqc]
    rfl

theorem listener_accept_callback_quiet (K : Consts) (cf : ConnForwarder) (host : AddressPort) :
    HeapQuiet (cf.heap ++ [new_open_connection ((cf.seq + U32 - 1) % U32) (WINDOW_SIZE / 2)])
      (listener_accept_callback K cf (some host)).heap := by
  unfold listener_accept_callback
  simp only [generate_connection_id, alloc, send_command]
  exact connections_insert_quiet _ _ _

theorem associate_remote_heap (K : Consts) (cf : ConnForwarder) (rule : List Char) :
    (conn_forwarder_associate_remote K cf rule).1.heap = cf.heap := by
  cases ht : tokenize_redirection rule with
  | none => unfold conn_forwarder_associate_remote; rw [ht]
  | some t =>
    obtain ⟨bind, g, h, hp⟩ := t
    rw [associate_remote_of_tokenize K cf rule bind g h hp ht]

theorem associate_local_heap (cf : ConnForwarder) (rule : List Char) (res : Bool) :
    (conn_forwarder_associate_local cf rule res).1.heap = cf.heap := by
  unfold conn_forwarder_associate_local
  cases tokenize_redirection rule with
  | none => rfl
  | some t =>
    obtain ⟨bind, g, h, hp⟩ := t
    cases res <;> rfl

/-! ## One turn of the main loop, one connection at a time -/

theorem Cells.of_quiet {K : Consts} {cf : ConnForwarder} {e : Event} {h1 : List Connection}
    (hq : HeapQuiet cf.heap h1) : Cells K cf e h1 := by
  intro j c1 hc1
  obtain ⟨c, hc, hqc⟩ := hq.get hc1
  exact Or.inl ⟨c, c, hc, CellStep.quiet e j c, hqc⟩

theorem Cells.of_set {K : Consts} {cf : ConnForwarder} {e : Event} {h1 : List Connection}
    {p : Nat} {c c0 : Connection} (hc : cf.heap[p]? = some c) (hs : CellStep K cf e p c c0)
    (hq : HeapQuiet (cf.heap.set p c0) h1) : Cells K cf e h1 := by
  intro j c1 hc1
  obtain ⟨x, hx, hqx⟩ := hq.get hc1
  by_cases hj : p = j
  · subst hj
    rw [heap_set_self _ hc] at hx
    injection hx with hx
    subst hx
    exact Or.inl ⟨c, c0, hc, hs, hqx⟩
  · rw [heap_set_ne _ hj] at hx
    exact Or.inl ⟨x, x, hx, CellStep.quiet e j x, hqx⟩

theorem Cells.of_append {K : Consts} {cf : ConnForwarder} {e : Event} {h1 : List Connection}
    {x : Connection} (hn : CellNew x) (hq : HeapQuiet (cf.heap ++ [x]) h1) :
    Cells K cf e h1 := by
  intro j c1 hc1
  obtain ⟨y, hy, hqy⟩ := hq.get hc1
  rcases Nat.lt_or_ge j cf.heap.length with hl | hl
  · rw [List.getElem?_append_left hl] at hy
    exact Or.inl ⟨y, y, hy, CellStep.quiet e j y, hqy⟩
  · rw [List.getElem?_append_right hl] at hy
    have hj : j - cf.heap.length = 0 := by
      rcases Nat.eq_zero_or_pos (j - cf.heap.length) with h0 | h0
      · exact h0
      · rw [List.getElem?_eq_none (by simp only [List.length_singleton]; omega)] at hy
        cases hy
    rw [hj] at hy
    simp only [List.getElem?_cons_zero, Option.some.injEq] at hy
    subst hy
    exact Or.inr ⟨List.getElem?_eq_none hl, x, hn, hqy⟩

theorem message_cells {K : Consts} {cf cf1 : ConnForwarder} {m : InMsg} (hwf : m.wf = true)
    (h : conn_forwarder_handle_message cf m = Except.ok cf1) :
    Cells K cf (Event.message m) cf1.heap := by
  cases m with
  | accepted id listenId winSize =>
    simp only [InMsg.wf, Bool.and_eq_true, decide_eq_true_eq] at hwf
    exact Cells.of_append (Or.inr ⟨id, winSize, hwf.2, rfl⟩) (handle_accepted_quiet h)
  | data id payload =>
    simp only [InMsg.wf, Bool.and_eq_true, decide_eq_true_eq] at hwf
    simp only [conn_forwarder_handle_message] at h
    rcases handle_data_eq h with h1 | ⟨p, c, hl, hc, hcon, hconn, h1⟩
    · rw [h1]; exact Cells.of_quiet (heap_quiet_refl _)
    · rw [h1]
      exact Cells.of_set hc (CellStep.data id p payload c hl hwf.2 hcon hconn)
        (heap_quiet_refl _)
  | close id =>
    simp only [conn_forwarder_handle_message, Except.ok.injEq] at h
    subst h
    exact Cells.of_quiet (handle_close_quiet cf id)
  | ack id size winSize =>
    simp only [InMsg.wf, Bool.and_eq_true, decide_eq_true_eq] at hwf
    simp only [conn_forwarder_handle_message] at h
    rcases handle_ack_eq h with h1 | ⟨p, c, hl, hc, hconn, h1⟩
    · rw [h1]; exact Cells.of_quiet (heap_quiet_refl _)
    · rw [h1]
      exact Cells.of_set hc (CellStep.ack id size winSize p c hl hwf.1.2 hwf.2 hconn)
        (heap_quiet_refl _)
  | other command =>
    simp only [conn_forwarder_handle_message, Except.ok.injEq] at h
    subst h
    exact Cells.of_quiet (heap_quiet_refl _)

/-- The state after a successful write completion that returns. -/
theorem step_write_ok {K : Consts} {cf cf1 : ConnForwarder} {p n : Nat}
    (h : step K cf (Event.write_done p (some n)) = Except.ok cf1) :
    ∃ c buf, cf.heap[p]? = some c ∧ c.writing = some buf ∧ n ≤ buf.length ∧
      cf1 = { cf with
        heap := cf.heap.set p
          (write_cell { c with writing := none, written := c.written ++ buf.take n } n),
        sent := cf.sent ++ write_acks c n } := by
  simp only [step] at h
  cases hc : cf.heap[p]? with
  | none => rw [hc] at h; cases h
  | some c =>
    rw [hc] at h
    dsimp only at h
    cases hw : c.writing with
    | none => rw [hw] at h; cases h
    | some buf =>
      rw [hw] at h
      dsimp only at h
      by_cases hn : n ≤ buf.length
      · rw [if_pos hn] at h
        have hc0 :
            (set_conn cf p
              { c with writing := none, written := c.written ++ buf.take n }).heap[p]? =
            some { c with writing := none, written := c.written ++ buf.take n } :=
          heap_set_self _ hc
        have h1 := (connection_write_callback_ok n hc0 h).2
        refine ⟨c, buf, rfl, hw, hn, ?_⟩
        rw [h1]
        simp only [set_conn, heap_set_set]
        rfl
      · rw [if_neg hn] at h; cases h

/-- A successful write completion returns exactly when it does not release the
connection: otherwise the update of `data_received` is an access to released
memory. -/
theorem step_write_some {K : Consts} {cf : ConnForwarder} {p n : Nat} {c : Connection}
    {buf : List Nat} (hc : cf.heap[p]? = some c) (hw : c.writing = some buf)
    (hn : n ≤ buf.length) :
    step K cf (Event.write_done p (some n)) =
      if (write_cell { c with writing := none, written := c.written ++ buf.take n } n).freed
          = true then Except.error Stop.fault
      else Except.ok { cf with
        heap := cf.heap.set p
          (write_cell { c with writing := none, written := c.written ++ buf.take n } n),
        sent := cf.sent ++ write_acks c n } := by
  simp only [step]
  rw [hc]
  dsimp only
  rw [hw]
  dsimp only
  have hc0 :
      (set_conn cf p
        { c with writing := none, written := c.written ++ buf.take n }).heap[p]? =
      some { c with writing := none, written := c.written ++ buf.take n } :=
    heap_set_self _ hc
  rw [if_pos hn, connection_write_callback_some n hc0]
  simp only [set_conn, heap_set_set]
  rfl

/-- The state after a read completion that delivers bytes on a connection that
is not cancelled. -/
theorem step_read_data {K : Consts} {cf cf1 : ConnForwarder} {p : Nat} {bytes : List Nat}
    {c : Connection} (h : step K cf (Event.read_done p (some bytes)) = Except.ok cf1)
    (hc : cf.heap[p]? = some c) (hcan : c.cancelled = false) (hne : bytes.length ≠ 0) :
    0 < c.reads ∧ bytes.length ≤ BUFFER_SIZE K ∧
      cf1 = { cf with
        heap := cf.heap.set p (read_cell { c with reads := c.reads - 1 } bytes),
        sent := cf.sent ++
          [OutMsg.data c.id (bytes.length % U32) bytes (DATA_HEAD_SIZE K + bytes.length % U32)] } := by
  simp only [step] at h
  rw [hc] at h
  dsimp only at h
  split at h
  · rename_i hg
    have hc0 : (set_conn cf p { c with reads := c.reads - 1 }).heap[p]? =
        some { c with reads := c.reads - 1 } := heap_set_self _ hc
    have hconn := connection_read_callback_conn bytes hc0 hcan hne h
    rw [connection_read_callback_data bytes hc0 hcan hne hconn] at h
    simp only [Except.ok.injEq] at h
    refine ⟨hg.1, hg.2 bytes rfl, ?_⟩
    rw [← h]
    simp only [set_conn, heap_set_set]
  · cases h

/-- A read completion that leaves `data_sent` below the window returns only on
a connection that has its socket connection. -/
theorem step_read_conn {K : Consts} {cf cf1 : ConnForwarder} {p : Nat} {bytes : List Nat}
    {c : Connection} (h : step K cf (Event.read_done p (some bytes)) = Except.ok cf1)
    (hc : cf.heap[p]? = some c) (hcan : c.cancelled = false) (hne : bytes.length ≠ 0)
    (hw : (c.data_sent + bytes.length % U32) % U32 < WINDOW_SIZE) : c.conn = true := by
  simp only [step] at h
  rw [hc] at h
  dsimp only at h
  split at h
  · have hc0 : (set_conn cf p { c with reads := c.reads - 1 }).heap[p]? =
        some { c with reads := c.reads - 1 } := heap_set_self _ hc
    have hconn := connection_read_callback_conn bytes hc0 hcan hne h hw
    exact hconn
  · cases h

theorem step_cells {K : Consts} {cf cf1 : ConnForwarder} {e : Event}
    (h : step K cf e = Except.ok cf1) : Cells K cf e cf1.heap := by
  cases e with
  | associate_remote rule =>
    simp only [step, Except.ok.injEq] at h
    subst h
    rw [associate_remote_heap]
    exact Cells.of_quiet (heap_quiet_refl _)
  | associate_local rule res =>
    simp only [step, Except.ok.injEq] at h
    subst h
    rw [associate_local_heap]
    exact Cells.of_quiet (heap_quiet_refl _)
  | agent_disconnected =>
    simp only [step, Except.ok.injEq] at h
    subst h
    exact Cells.of_quiet (agent_disconnected_quiet cf)
  | message m =>
    simp only [step] at h
    split at h
    · rename_i hwf
      exact message_cells hwf h
    · cases h
  | accept_done r =>
    simp only [step] at h
    split at h
    · simp only [Except.ok.injEq] at h
      subst h
      cases r with
      | none => exact Cells.of_quiet (heap_quiet_refl _)
      | some host =>
        exact Cells.of_append (Or.inl ⟨_, rfl⟩)
          (listener_accept_callback_quiet K { cf with accepts := cf.accepts - 1 } host)
    · cases h
  | read_done p r =>
    cases hc : cf.heap[p]? with
    | none => simp only [step, hc] at h; cases h
    | some c =>
      by_cases hq : c.cancelled = true ∨ r = none ∨ r = some []
      · simp only [step, hc] at h
        split at h
        · rename_i hg
          have hc0 : (set_conn cf p { c with reads := c.reads - 1 }).heap[p]? =
              some { c with reads := c.reads - 1 } := heap_set_self _ hc
          exact Cells.of_set hc (CellStep.read_quiet p r c hg.1)
            (connection_read_callback_quiet r hc0 hq h)
        · cases h
      · have hcan : c.cancelled = false := by
          cases hx : c.cancelled with
          | false => rfl
          | true => exact absurd (Or.inl hx) hq
        cases r with
        | none => exact absurd (Or.inr (Or.inl rfl)) hq
        | some bytes =>
          have hne : bytes.length ≠ 0 := by
            intro h0
            exact hq (Or.inr (Or.inr (by rw [List.length_eq_zero.1 h0])))
          obtain ⟨hr, hb, h1⟩ := step_read_data h hc hcan hne
          have hconn := step_read_conn h hc hcan hne
          rw [h1]
          exact Cells.of_set hc (CellStep.read_data p bytes c hr hb hne hcan hconn)
            (heap_quiet_refl _)
  | write_done p r =>
    cases r with
    | none =>
      simp only [step] at h
      cases hc : cf.heap[p]? with
      | none => rw [hc] at h; cases h
      | some c =>
        rw [hc] at h
        dsimp only at h
        cases hw : c.writing with
        | none => rw [hw] at h; cases h
        | some buf =>
          rw [hw] at h
          dsimp only at h
          exact Cells.of_set hc (CellStep.write_err p c) (connection_write_callback_err h)
    | some n =>
      obtain ⟨c, buf, hc, hw, hn, h1⟩ := step_write_ok h
      rw [h1]
      exact Cells.of_set hc (CellStep.write_ok p n c buf hw hn) (heap_quiet_refl _)
  | connect_done p ok =>
    simp only [step] at h
    cases hc : cf.heap[p]? with
    | none => rw [hc] at h; cases h
    | some c =>
      rw [hc] at h
      dsimp only at h
      split at h
      · rename_i hp
        have hc0 : (set_conn cf p { c with connect_pending := false }).heap[p]? =
            some { c with connect_pending := false } := heap_set_self _ hc
        have := connection_connect_callback_quiet ok hc0 h
        simp only [set_conn, heap_set_set] at this
        exact Cells.of_set hc (CellStep.connect p ok c hp) this
      · cases h

/-! ## Invariants of the reachable states -/

theorem run_invariant {K : Consts} {I : ConnForwarder → Prop}
    (hstep : ∀ cf e cf1, I cf → step K cf e = Except.ok cf1 → I cf1)
    (evs : List Event) : ∀ cf cf1, I cf → run K cf evs = Except.ok cf1 → I cf1 := by
  induction evs with
  | nil =>
    intro cf cf1 hi h
    simp only [run, Except.ok.injEq] at h
    subst h
    exact hi
  | cons e es ih =>
    intro cf cf1 hi h
    simp only [run] at h
    cases hs : step K cf e with
    | error x => rw [hs] at h; cases h
    | ok cf2 =>
      rw [hs] at h
      exact ih cf2 cf1 (hstep cf e cf2 hi hs) h

theorem heap_all_step {K : Consts} {cf cf1 : ConnForwarder} {e : Event}
    {P : Connection → Prop} (hquiet : ∀ c c1, P c → Quiet c c1 → P c1)
    (hnew : ∀ c, CellNew c → P c)
    (hstep : ∀ j c c0, cf.heap[j]? = some c → P c → CellStep K cf e j c c0 → P c0)
    (hall : HeapAll P cf) (h : step K cf e = Except.ok cf1) : HeapAll P cf1 := by
  intro j c1 hc1
  rcases step_cells h j c1 hc1 with ⟨c, c0, hc, hs, hq⟩ | ⟨_, c0, hn, hq⟩
  · exact hquiet c0 c1 (hstep j c c0 hc (hall j c hc) hs) hq
  · exact hquiet c0 c1 (hnew c0 hn) hq

theorem heap_all_init (P : Connection → Prop) : HeapAll P conn_forwarder_new := by
  intro j c hc
  simp [conn_forwarder_new] at hc

theorem sizes_quiet (c c1 : Connection) (h : Sizes c) (hq : Quiet c c1) : Sizes c1 := by
  unfold Quiet at hq
  rw [hq]
  exact h

theorem sizes_new (c : Connection) (h : CellNew c) : Sizes c := by
  rcases h with ⟨id, rfl⟩ | ⟨id, w, hw, rfl⟩
  · refine ⟨?_, Nat.zero_le _, fun _ => ⟨rfl, rfl⟩, ?_, ?_⟩
    · show WINDOW_SIZE / 2 < 2 ^ 31
      decide
    · intro b hb; cases hb
    · intro buf hb; cases hb
  · refine ⟨?_, Nat.zero_le _, fun _ => ⟨rfl, rfl⟩, ?_, ?_⟩
    · show w / 2 < 2 ^ 31
      unfold U32 at hw
      omega
    · intro b hb; cases hb
    · intro buf hb; cases hb

theorem slice_length_le (bytes : List Nat) (offset length : Nat) :
    (g_bytes_new_from_bytes bytes offset length).length ≤ bytes.length := by
  unfold g_bytes_new_from_bytes
  rw [List.length_take, List.length_drop]
  omega

theorem pop_written_mem {q : List (List Nat)} {n : Nat} {b : List Nat}
    (hb : b ∈ pop_written q n) : ∃ b0 ∈ q, b.length ≤ b0.length := by
  unfold pop_written at hb
  cases q with
  | nil =>
    simp at hb
  | cons x t =>
    simp only [List.headD_cons, List.tail_cons] at hb
    split at hb
    · rcases List.mem_cons.1 hb with h1 | h1
      · exact ⟨x, List.mem_cons_self _ _, by rw [h1]; exact slice_length_le _ _ _⟩
      · exact ⟨b, List.mem_cons_of_mem _ h1, le_refl _⟩
    · exact ⟨b, List.mem_cons_of_mem _ hb, le_refl _⟩

theorem sizes_cell_step {K : Consts} {cf : ConnForwarder} {e : Event} {j : Nat}
    {c c0 : Connection} (h : Sizes c) (hs : CellStep K cf e j c c0) : Sizes c0 := by
  obtain ⟨h1, h2, h3, h4, h5⟩ := h
  cases hs with
  | quiet => exact ⟨h1, h2, h3, h4, h5⟩
  | data id _ payload _ hl hwf hcon hconn =>
    refine ⟨h1, h2, fun hx => ?_, ?_, ?_⟩
    · have hx2 : c.connecting = true := hx
      rw [hcon] at hx2
      cases hx2
    · intro b hb
      rcases List.mem_append.1 hb with hb | hb
      · exact h4 b hb
      · rw [List.mem_singleton.1 hb]; exact hwf
    · intro buf hbuf
      show (c.write_buffer ++ [payload]).head? = some buf
      simp only [data_cell] at hbuf
      cases hq : c.write_buffer with
      | nil =>
        rw [hq] at hbuf
        simp only [if_true, Option.some.injEq] at hbuf
        rw [hbuf]; rfl
      | cons x t =>
        rw [hq] at hbuf
        simp only [reduceCtorEq, if_false] at hbuf
        have := h5 buf hbuf
        rw [hq] at this
        exact this
  | ack id size winSize _ _ hl hsz hw hconn =>
    unfold ack_cell
    by_cases hcon : c.connecting = true
    · rw [if_pos hcon]
      obtain ⟨h31, h32⟩ := h3 hcon
      refine ⟨?_, ?_, fun hx => absurd hx Bool.false_ne_true, h4, h5⟩
      · show winSize / 2 < 2 ^ 31
        unfold U32 at hw
        omega
      · show c.data_received ≤ winSize / 2
        rw [h31]; exact Nat.zero_le _
    · rw [if_neg hcon]
      split
      · exact ⟨h1, h2, h3, h4, h5⟩
      · exact ⟨h1, h2, h3, h4, h5⟩
  | read_quiet _ r _ hr => exact ⟨h1, h2, h3, h4, h5⟩
  | read_data _ bytes _ hr hb hne hcan hconn => exact ⟨h1, h2, h3, h4, h5⟩
  | write_err =>
    refine ⟨h1, h2, fun hx => ⟨(h3 hx).1, rfl⟩, h4, ?_⟩
    intro buf hbuf
    cases hbuf
  | write_ok _ n _ buf hw hn =>
    have hnc : ¬ c.connecting = true := by
      intro hx
      have := (h3 hx).2
      rw [hw] at this
      cases this
    refine ⟨h1, ?_, fun hx => absurd hx hnc, ?_, ?_⟩
    · show (if (c.data_received + n) % U32 ≥ c.ack_interval then 0
        else (c.data_received + n) % U32) ≤ c.ack_interval
      split
      · exact Nat.zero_le _
      · omega
    · intro b hb
      obtain ⟨b0, hb0, hle⟩ := pop_written_mem (q := c.write_buffer) (n := n) hb
      exact lt_of_le_of_lt hle (h4 b0 hb0)
    · intro b hb
      show (pop_written c.write_buffer n).head? = some b
      simp only [write_cell] at hb
      cases hq : pop_written c.write_buffer n with
      | nil => rw [hq] at hb; cases hb
      | cons x t =>
        rw [hq] at hb
        simp only [Option.some.injEq] at hb
        rw [hb]; rfl
  | connect _ ok _ hp =>
    unfold connect_cell
    split
    · exact ⟨h1, h2, h3, h4, h5⟩
    · split
      · exact ⟨h1, h2, fun hx => absurd hx Bool.false_ne_true, h4, h5⟩
      · exact ⟨h1, h2, h3, h4, h5⟩

theorem step_sizes {K : Consts} (cf : ConnForwarder) (e : Event) (cf1 : ConnForwarder)
    (hall : HeapAll Sizes cf) (h : step K cf e = Except.ok cf1) : HeapAll Sizes cf1 :=
  heap_all_step sizes_quiet sizes_new (fun _ _ _ _ hp hs => sizes_cell_step hp hs) hall h

theorem reachable_sizes {K : Consts} {cf : ConnForwarder} (h : Reachable K cf) :
    HeapAll Sizes cf := by
  obtain ⟨evs, hrun⟩ := h
  exact run_invariant step_sizes evs _ _ (heap_all_init _) hrun

/-! ## Claims on `conn_forwarder_associate_remote` -/

/-- C5 (amended): for every rule string with exactly three or exactly four
tokens, `conn_forwarder_associate_remote` returns true, stores
`guest_port -> {host, host_port}` in the association map (the ports being the
`atoi` values of their tokens as `guint16`), and its last message is one LISTEN
with `id = port = guest_port`, `proto = 1`, the bind address token (or
`localhost` with three tokens) as address, `addressLength` the length of the
address modulo `2^16` (the length itself below 65536), and message length
`sizeof(FlexVDIForwardListenMsg) + length + 1`; the only message that can
precede it is the SHUTDOWN of a previous rule of the port. -/
theorem associate_remote_emits_listen (K : Consts) (cf : ConnForwarder) (rule : List Char)
    (bind : Option (List Char)) (g h hp : List Char)
    (htok : (bind = none ∧ tokens rule = [g, h, hp]) ∨
      (∃ b, bind = some b ∧ tokens rule = [b, g, h, hp])) :
    (conn_forwarder_associate_remote K cf rule).2 = true ∧
    tbl_lookup (conn_forwarder_associate_remote K cf rule).1.remote_assocs
        (to_guint16 (atoi g)) = some { port := to_guint16 (atoi hp), address := h } ∧
    (∃ pre, (pre = [] ∨ pre = [OutMsg.shutdown (to_guint16 (atoi g))]) ∧
      (conn_forwarder_associate_remote K cf rule).1.sent = cf.sent ++ pre ++
        [OutMsg.listen (to_guint16 (atoi g)) (to_guint16 (atoi g)) 1
          ((bind.getD "localhost".toList).length % 65536) (bind.getD "localhost".toList)
          (K.listen_msg_size + (bind.getD "localhost".toList).length + 1)]) ∧
    ((bind.getD "localhost".toList).length < 65536 →
      (bind.getD "localhost".toList).length % 65536 = (bind.getD "localhost".toList).length) := by
  rw [associate_remote_of_tokenize K cf rule bind g h hp (tokenize_rule htok)]
  refine ⟨rfl, tbl_lookup_insert_self _ _ _, ?_, fun hlt => Nat.mod_eq_of_lt hlt⟩
  refine ⟨if (tbl_lookup cf.remote_assocs (to_guint16 (atoi g))).isSome
      then [OutMsg.shutdown (to_guint16 (atoi g))] else [], ?_, ?_⟩
  · split
    · right; rfl
    · left; rfl
  · simp [FLEXVDI_FWDPROTO_TCP, U16]

theorem associate_remote_emits_listen_witness :
    tokens "5000:host:80".toList = ["5000".toList, "host".toList, "80".toList] ∧
    (conn_forwarder_associate_remote flexdp conn_forwarder_new "5000:host:80".toList).2 = true :=
  ⟨by decide,
   (associate_remote_emits_listen flexdp conn_forwarder_new "5000:host:80".toList none
      "5000".toList "host".toList "80".toList (Or.inl ⟨rfl, by decide⟩)).1⟩

/-- C5 (counterexample): with a bind address of 65536 characters the rule
`<address>:1:h:2` has four non-empty tokens, and the LISTEN that is emitted
carries `addressLength = 0`, not the length of the address. -/
theorem associate_remote_address_length_wraps :
    (conn_forwarder_associate_remote flexdp conn_forwarder_new
        (List.replicate 65536 'a' ++ ":1:h:2".toList)).1.sent =
      [OutMsg.listen 1 1 1 0 (List.replicate 65536 'a') 65546] ∧
    (List.replicate 65536 'a').length = 65536 := by
  have hne : List.replicate 65536 'a' ≠ [] := by
    intro h
    have h2 : (List.replicate 65536 'a').length = 0 := by rw [h]; rfl
    rw [List.length_replicate] at h2
    exact absurd h2 (by decide)
  have hc : ∀ c ∈ List.replicate 65536 'a', c ≠ ':' := by
    intro c hmem
    rw [List.eq_of_mem_replicate hmem]
    decide
  refine ⟨?_, List.length_replicate _ _⟩
  rw [associate_remote_bind flexdp _ hne hc, List.length_replicate]
  rfl

/-- C6: when guest port `P` is already associated, a well-formed rule for `P`
emits exactly SHUTDOWN{listenId = P} and then LISTEN{id = P, port = P,
address = bind address}; afterwards the association map has exactly one entry
for `P`, with the target of the new rule, and the entries of all other ports
are as before. -/
theorem associate_remote_replaces (K : Consts) (cf : ConnForwarder) (rule : List Char)
    (bind : Option (List Char)) (g h hp : List Char) (P : Nat) (old : AddressPort)
    (hassoc : tbl_lookup cf.remote_assocs P = some old)
    (htok : (bind = none ∧ tokens rule = [g, h, hp]) ∨
      (∃ b, bind = some b ∧ tokens rule = [b, g, h, hp]))
    (hport : to_guint16 (atoi g) = P) :
    (conn_forwarder_associate_remote K cf rule).2 = true ∧
    (∃ al len, (conn_forwarder_associate_remote K cf rule).1.sent = cf.sent ++
      [OutMsg.shutdown P, OutMsg.listen P P 1 al (bind.getD "localhost".toList) len]) ∧
    (conn_forwarder_associate_remote K cf rule).1.remote_assocs.filter
        (fun e => decide (e.1 = P)) = [(P, { port := to_guint16 (atoi hp), address := h })] ∧
    tbl_lookup (conn_forwarder_associate_remote K cf rule).1.remote_assocs P =
      some { port := to_guint16 (atoi hp), address := h } ∧
    (∀ q, q ≠ P → tbl_lookup (conn_forwarder_associate_remote K cf rule).1.remote_assocs q =
      tbl_lookup cf.remote_assocs q) ∧
    (conn_forwarder_associate_remote K cf rule).1.connections = cf.connections := by
  rw [associate_remote_of_tokenize K cf rule bind g h hp (tokenize_rule htok), hport]
  refine ⟨rfl, ⟨(bind.getD "localhost".toList).length % U16,
    K.listen_msg_size + (bind.getD "localhost".toList).length + 1, ?_⟩,
    tbl_insert_entries _ _ _, tbl_lookup_insert_self _ _ _,
    fun q hq => tbl_lookup_insert_ne _ _ hq, rfl⟩
  simp [hassoc, FLEXVDI_FWDPROTO_TCP]

theorem associate_remote_replaces_witness :
    tbl_lookup (conn_forwarder_associate_remote flexdp conn_forwarder_new
        "0.0.0.0:5000:a:80".toList).1.remote_assocs 5000 =
      some { port := 80, address := "a".toList } ∧
    tokens "0.0.0.0:5000:b:81".toList =
      ["0.0.0.0".toList, "5000".toList, "b".toList, "81".toList] ∧
    to_guint16 (atoi "5000".toList) = 5000 ∧
    to_guint16 (atoi "81".toList) = 81 ∧
    tbl_lookup (conn_forwarder_associate_remote flexdp
        (conn_forwarder_associate_remote flexdp conn_forwarder_new
          "0.0.0.0:5000:a:80".toList).1 "0.0.0.0:5000:b:81".toList).1.remote_assocs 5000 =
      some { port := to_guint16 (atoi "81".toList), address := "b".toList } :=
  ⟨by decide, by decide, by decide, by decide,
   (associate_remote_replaces flexdp
      (conn_forwarder_associate_remote flexdp conn_forwarder_new "0.0.0.0:5000:a:80".toList).1
      "0.0.0.0:5000:b:81".toList (some "0.0.0.0".toList) "5000".toList "b".toList "81".toList
      5000 { port := 80, address := "a".toList } (by decide)
      (Or.inr ⟨_, rfl, by decide⟩) (by decide)).2.2.2.1⟩

/-- C7: for every rule string with fewer than three colon-delimited tokens
(fewer than three non-empty tokens, or fewer than three pieces between colons,
the empty string included), `conn_forwarder_associate_remote` returns false and
leaves the whole forwarder state as it was: no message is emitted and the
association map and the connections table are unchanged. -/
theorem associate_remote_too_few_tokens (K : Consts) (cf : ConnForwarder) (rule : List Char)
    (hfew : (tokens rule).length < 3 ∨ (pieces rule).length < 3) :
    conn_forwarder_associate_remote K cf rule = (cf, false) := by
  have h3 : (tokens rule).length < 3 := by
    rcases hfew with h | h
    · exact h
    · exact lt_of_le_of_lt (List.length_filter_le _ _) h
  unfold conn_forwarder_associate_remote
  rw [tokenize_few h3]

theorem associate_remote_too_few_tokens_witness :
    ((tokens "5000:host".toList).length < 3 ∨ (pieces "5000:host".toList).length < 3) ∧
    conn_forwarder_associate_remote flexdp conn_forwarder_new "5000:host".toList =
      (conn_forwarder_new, false) :=
  ⟨by decide,
   associate_remote_too_few_tokens flexdp conn_forwarder_new "5000:host".toList
     (Or.inl (by decide))⟩

/-- C8 (counterexample): `abc:host:80` and `5000:host:http` have three tokens
and a port token that is not a number; both calls return true, emit a LISTEN
and change the association map (guest port 0 in the first, host port 0 in the
second). -/
theorem associate_remote_accepts_nonnumeric_port :
    conn_forwarder_associate_remote flexdp conn_forwarder_new "abc:host:80".toList =
      ({ conn_forwarder_new with
          remote_assocs := [(0, { port := 80, address := "host".toList })],
          sent := [OutMsg.listen 0 0 1 9 "localhost".toList 19] }, true) ∧
    conn_forwarder_associate_remote flexdp conn_forwarder_new "5000:host:http".toList =
      ({ conn_forwarder_new with
          remote_assocs := [(5000, { port := 0, address := "host".toList })],
          sent := [OutMsg.listen 5000 5000 1 9 "localhost".toList 19] }, true) := by
  constructor <;> decide

/-- C8 (amended): for every rule string with three or four tokens the port
tokens are converted with `atoi` and not validated: the call returns true,
emits the LISTEN for guest port `atoi(guest token)` as `guint16` and stores
that port with host port `atoi(host-port token)`; a port token that begins with
a character that is neither white space, a sign nor a digit counts as port 0. -/
theorem associate_remote_ports_unchecked (K : Consts) (cf : ConnForwarder) (rule : List Char)
    (bind : Option (List Char)) (g h hp : List Char)
    (htok : (bind = none ∧ tokens rule = [g, h, hp]) ∨
      (∃ b, bind = some b ∧ tokens rule = [b, g, h, hp])) :
    (conn_forwarder_associate_remote K cf rule).2 = true ∧
    (∃ pre al len, (conn_forwarder_associate_remote K cf rule).1.sent = cf.sent ++ pre ++
        [OutMsg.listen (to_guint16 (atoi g)) (to_guint16 (atoi g)) 1 al
          (bind.getD "localhost".toList) len]) ∧
    (conn_forwarder_associate_remote K cf rule).1.remote_assocs =
      tbl_insert cf.remote_assocs (to_guint16 (atoi g))
        { port := to_guint16 (atoi hp), address := h } ∧
    (∀ c cs, g = c :: cs → isspace c = false → c ≠ '+' → c ≠ '-' →
      ¬ (48 ≤ c.toNat ∧ c.toNat ≤ 57) → to_guint16 (atoi g) = 0) ∧
    (∀ c cs, hp = c :: cs → isspace c = false → c ≠ '+' → c ≠ '-' →
      ¬ (48 ≤ c.toNat ∧ c.toNat ≤ 57) → to_guint16 (atoi hp) = 0) := by
  rw [associate_remote_of_tokenize K cf rule bind g h hp (tokenize_rule htok)]
  refine ⟨rfl, ⟨if (tbl_lookup cf.remote_assocs (to_guint16 (atoi g))).isSome
      then [OutMsg.shutdown (to_guint16 (atoi g))] else [],
    (bind.getD "localhost".toList).length % U16,
    K.listen_msg_size + (bind.getD "localhost".toList).length + 1, ?_⟩, rfl, ?_, ?_⟩
  · simp only [FLEXVDI_FWDPROTO_TCP, List.append_assoc]
  · intro c cs hg hs h1 h2 h3
    rw [hg]; exact atoi_no_number c cs hs h1 h2 h3
  · intro c cs hg hs h1 h2 h3
    rw [hg]; exact atoi_no_number c cs hs h1 h2 h3

theorem associate_remote_ports_unchecked_witness :
    tokens "abc:host:http".toList = ["abc".toList, "host".toList, "http".toList] ∧
    (conn_forwarder_associate_remote flexdp conn_forwarder_new "abc:host:http".toList).2 = true ∧
    to_guint16 (atoi "abc".toList) = 0 :=
  ⟨by decide,
   (associate_remote_ports_unchecked flexdp conn_forwarder_new "abc:host:http".toList none
      "abc".toList "host".toList "http".toList (Or.inl ⟨rfl, by decide⟩)).1,
   (associate_remote_ports_unchecked flexdp conn_forwarder_new "abc:host:http".toList none
      "abc".toList "host".toList "http".toList (Or.inl ⟨rfl, by decide⟩)).2.2.2.1
      'a' "bc".toList (by decide) (by decide) (by decide) (by decide) (by decide)⟩

/-- C9 (counterexample): `a:1:b:2:extra` has five tokens and the call returns
true. -/
theorem associate_remote_accepts_five_tokens :
    (tokens "a:1:b:2:extra".toList).length = 5 ∧
    (conn_forwarder_associate_remote flexdp conn_forwarder_new "a:1:b:2:extra".toList).2 =
      true := by
  constructor <;> decide

/-- C9 (amended): the tokenizer reads at most four tokens and never looks for a
fifth: a rule string with four or more tokens is accepted (the call returns
true) and is handled exactly as the rule made of its first four tokens. -/
theorem associate_remote_extra_tokens (K : Consts) (cf : ConnForwarder)
    (rule rule4 a b c d : List Char) (rest : List (List Char))
    (htok : tokens rule = a :: b :: c :: d :: rest) (h4 : tokens rule4 = [a, b, c, d]) :
    (conn_forwarder_associate_remote K cf rule).2 = true ∧
    conn_forwarder_associate_remote K cf rule = conn_forwarder_associate_remote K cf rule4 := by
  rw [associate_remote_of_tokenize K cf rule _ _ _ _ (tokenize_four htok),
    associate_remote_of_tokenize K cf rule4 _ _ _ _ (tokenize_four h4)]
  exact ⟨rfl, rfl⟩

theorem associate_remote_extra_tokens_witness :
    tokens "a:1:b:2:extra".toList =
      ["a".toList, "1".toList, "b".toList, "2".toList, "extra".toList] ∧
    tokens "a:1:b:2".toList = ["a".toList, "1".toList, "b".toList, "2".toList] ∧
    conn_forwarder_associate_remote flexdp conn_forwarder_new "a:1:b:2:extra".toList =
      conn_forwarder_associate_remote flexdp conn_forwarder_new "a:1:b:2".toList :=
  ⟨by decide, by decide,
   (associate_remote_extra_tokens flexdp conn_forwarder_new "a:1:b:2:extra".toList
      "a:1:b:2".toList "a".toList "1".toList "b".toList "2".toList ["extra".toList]
      (by decide) (by decide)).2⟩

/-! ## Properties kept by the handlers

A property of the state that is kept by the stores through a pointer, by
`send_command`, by `unref_connection` and by `close_connection` is kept by the
completion callbacks and by the DATA and ACK handlers when they return. -/

theorem connection_read_callback_inv {I : ConnForwarder → Prop}
    (hset : ∀ cf p c, I cf → I (set_conn cf p c))
    (hsend : ∀ cf m, I cf → I (send_command cf m))
    (hunref : ∀ cf p, I cf → I (unref_connection cf p))
    (hclose : ∀ cf p, I cf → I (close_connection cf p))
    {K : Consts} {cf cf1 : ConnForwarder} {p : Nat} {r : Option (List Nat)}
    (hi : I cf) (h : connection_read_callback K cf p r = Except.ok cf1) : I cf1 := by
  unfold connection_read_callback at h
  cases hc : cf.heap[p]? with
  | none =>
    rw [hc] at h
    injection h with h
    rw [← h]
    exact hi
  | some c =>
    rw [hc] at h
    dsimp only at h
    split at h
    · injection h with h
      rw [← h]
      exact hunref _ _ hi
    · cases r with
      | none =>
        injection h with h
        rw [← h]
        exact hunref _ _ (hclose _ _ hi)
      | some bytes =>
        dsimp only at h
        split at h
        · injection h with h
          rw [← h]
          exact hunref _ _ (hclose _ _ hi)
        · split at h
          · exact program_read_inv hset (hset _ _ _ (hsend _ _ hi)) h
          · injection h with h
            rw [← h]
            exact hunref _ _ (hset _ _ _ (hsend _ _ hi))

theorem connection_write_callback_inv {I : ConnForwarder → Prop}
    (hset : ∀ cf p c, I cf → I (set_conn cf p c))
    (hsend : ∀ cf m, I cf → I (send_command cf m))
    (hunref : ∀ cf p, I cf → I (unref_connection cf p))
    (hclose : ∀ cf p, I cf → I (close_connection cf p))
    {cf cf1 : ConnForwarder} {p : Nat} {r : Option Nat}
    (hi : I cf) (h : connection_write_callback cf p r = Except.ok cf1) : I cf1 := by
  cases hc : cf.heap[p]? with
  | none =>
    unfold connection_write_callback at h
    rw [hc] at h
    injection h with h
    rw [← h]
    exact hi
  | some c =>
    cases r with
    | none =>
      rw [connection_write_callback_none hc] at h
      injection h with h
      rw [← h]
      exact hunref _ _ (hclose _ _ hi)
    | some n =>
      rw [(connection_write_callback_ok n hc h).2]
      unfold write_acks
      split
      · exact hsend _ _ (hset cf p _ hi)
      · rw [List.append_nil]
        exact hset cf p _ hi

theorem connection_connect_callback_inv {I : ConnForwarder → Prop}
    (hset : ∀ cf p c, I cf → I (set_conn cf p c))
    (hsend : ∀ cf m, I cf → I (send_command cf m))
    (hunref : ∀ cf p, I cf → I (unref_connection cf p))
    (hclose : ∀ cf p, I cf → I (close_connection cf p))
    {cf cf1 : ConnForwarder} {p : Nat} {ok : Bool}
    (hi : I cf) (h : connection_connect_callback cf p ok = Except.ok cf1) : I cf1 := by
  unfold connection_connect_callback at h
  cases hc : cf.heap[p]? with
  | none =>
    rw [hc] at h
    injection h with h
    rw [← h]
    exact hi
  | some c =>
    rw [hc] at h
    dsimp only at h
    split at h
    · injection h with h
      rw [← h]
      exact hunref _ _ hi
    · split at h
      · injection h with h
        rw [← h]
        exact hunref _ _ (hclose _ _ (hset _ _ _ hi))
      · split at h
        · rename_i cf2 hpr
          injection h with h
          rw [← h]
          exact hsend _ _ (program_read_inv hset (hset _ _ _ hi) hpr)
        · cases h

theorem handle_data_inv {I : ConnForwarder → Prop}
    (hset : ∀ cf p c, I cf → I (set_conn cf p c))
    {cf cf1 : ConnForwarder} {id : Nat} {payload : List Nat}
    (hi : I cf) (h : handle_data cf id payload = Except.ok cf1) : I cf1 := by
  rcases handle_data_eq h with h1 | ⟨p, c, _, _, _, _, h1⟩
  · rw [h1]; exact hi
  · rw [h1]; exact hset _ _ _ hi

theorem handle_ack_inv {I : ConnForwarder → Prop}
    (hset : ∀ cf p c, I cf → I (set_conn cf p c))
    {cf cf1 : ConnForwarder} {id size winSize : Nat}
    (hi : I cf) (h : handle_ack cf id size winSize = Except.ok cf1) : I cf1 := by
  rcases handle_ack_eq h with h1 | ⟨p, c, _, _, _, h1⟩
  · rw [h1]; exact hi
  · rw [h1]; exact hset _ _ _ hi

/-! ## The connections table holds valid pointers -/

theorem TableValid.set_conn {cf : ConnForwarder} (htv : TableValid cf) (p : Nat)
    (c : Connection) : TableValid (set_conn cf p c) := by
  intro id q hq
  have := htv id q hq
  simpa [ConnForward.set_conn] using this

theorem TableValid.send_command {cf : ConnForwarder} (htv : TableValid cf) (m : OutMsg) :
    TableValid (send_command cf m) := htv

theorem TableValid.of_eq {cf cf1 : ConnForwarder} (htv : TableValid cf)
    (hlen : cf1.heap.length = cf.heap.length)
    (htab : ∀ id q, tbl_lookup cf1.connections id = some q →
      tbl_lookup cf.connections id = some q) : TableValid cf1 := by
  intro id q hq
  rw [hlen]
  exact htv id q (htab id q hq)

theorem TableValid.unref_connection {cf : ConnForwarder} (htv : TableValid cf) (p : Nat) :
    TableValid (unref_connection cf p) :=
  htv.of_eq (unref_connection_quiet cf p).1 (fun id q hq => by simpa using hq)

theorem TableValid.program_read {cf cf1 : ConnForwarder} (htv : TableValid cf) {p : Nat}
    (h : program_read cf p = Except.ok cf1) : TableValid cf1 :=
  program_read_inv (I := TableValid) (fun _ p c hi => hi.set_conn p c) htv h

theorem TableValid.connections_remove {cf : ConnForwarder} (htv : TableValid cf) (id : Nat) :
    TableValid (connections_remove cf id).1 :=
  htv.of_eq (connections_remove_quiet cf id).1
    (fun k q hq => tbl_lookup_erase_some _ (by simpa using hq))

theorem TableValid.close_connection_no_notify {cf : ConnForwarder} (htv : TableValid cf)
    (p : Nat) : TableValid (close_connection_no_notify cf p) := by
  unfold ConnForward.close_connection_no_notify
  cases cf.heap[p]? with
  | none => exact htv
  | some c => exact (htv.set_conn p _).connections_remove c.id

theorem TableValid.close_connection {cf : ConnForwarder} (htv : TableValid cf) (p : Nat) :
    TableValid (close_connection cf p) := by
  unfold ConnForward.close_connection
  cases cf.heap[p]? with
  | none => exact htv
  | some c => exact TableValid.close_connection_no_notify (htv.send_command _) p

theorem TableValid.insert_new {cf : ConnForwarder} (htv : TableValid cf) (id : Nat)
    (c : Connection) :
    TableValid (connections_insert (alloc cf c).1 id (alloc cf c).2) := by
  intro k q hq
  have hlen : (connections_insert (alloc cf c).1 id (alloc cf c).2).heap.length =
      cf.heap.length + 1 := by
    rw [(connections_insert_quiet _ _ _).1]
    simp [alloc]
  rw [hlen]
  simp only [connections_insert_connections, alloc] at hq
  by_cases hk : k = id
  · subst hk
    rw [tbl_lookup_insert_self] at hq
    injection hq with hq
    omega
  · rw [tbl_lookup_insert_ne _ _ hk] at hq
    have := htv k q hq
    omega

theorem TableValid.foldl_unref (ps : List Nat) :
    ∀ cf, TableValid cf → TableValid (ps.foldl ConnForward.unref_connection cf) := by
  induction ps with
  | nil => intro cf h; exact h
  | cons q ps ih => intro cf h; exact ih _ (h.unref_connection q)

theorem table_valid_init : TableValid conn_forwarder_new := by
  intro id q hq
  simp [conn_forwarder_new, tbl_lookup] at hq

theorem TableValid.connection_read_callback {K : Consts} {cf cf1 : ConnForwarder}
    (htv : TableValid cf) {p : Nat} {r : Option (List Nat)}
    (h : connection_read_callback K cf p r = Except.ok cf1) : TableValid cf1 :=
  connection_read_callback_inv (I := TableValid) (fun _ p c hi => hi.set_conn p c)
    (fun _ m hi => hi.send_command m) (fun _ p hi => hi.unref_connection p)
    (fun _ p hi => hi.close_connection p) htv h

theorem TableValid.connection_write_callback {cf cf1 : ConnForwarder}
    (htv : TableValid cf) {p : Nat} {r : Option Nat}
    (h : connection_write_callback cf p r = Except.ok cf1) : TableValid cf1 :=
  connection_write_callback_inv (I := TableValid) (fun _ p c hi => hi.set_conn p c)
    (fun _ m hi => hi.send_command m) (fun _ p hi => hi.unref_connection p)
    (fun _ p hi => hi.close_connection p) htv h

theorem TableValid.connection_connect_callback {cf cf1 : ConnForwarder}
    (htv : TableValid cf) {p : Nat} {ok : Bool}
    (h : connection_connect_callback cf p ok = Except.ok cf1) : TableValid cf1 :=
  connection_connect_callback_inv (I := TableValid) (fun _ p c hi => hi.set_conn p c)
    (fun _ m hi => hi.send_command m) (fun _ p hi => hi.unref_connection p)
    (fun _ p hi => hi.close_connection p) htv h

theorem TableValid.handle_data {cf cf1 : ConnForwarder} (htv : TableValid cf) {id : Nat}
    {payload : List Nat} (h : handle_data cf id payload = Except.ok cf1) : TableValid cf1 :=
  handle_data_inv (I := TableValid) (fun _ p c hi => hi.set_conn p c) htv h

theorem TableValid.handle_ack {cf cf1 : ConnForwarder} (htv : TableValid cf)
    {id size winSize : Nat} (h : handle_ack cf id size winSize = Except.ok cf1) :
    TableValid cf1 :=
  handle_ack_inv (I := TableValid) (fun _ p c hi => hi.set_conn p c) htv h

theorem TableValid.handle_close {cf : ConnForwarder} (htv : TableValid cf) (id : Nat) :
    TableValid (handle_close cf id) := by
  unfold ConnForward.handle_close
  split
  · exact htv.close_connection_no_notify _
  · exact htv

theorem TableValid.handle_accepted {cf cf1 : ConnForwarder} (htv : TableValid cf)
    {id listenId winSize : Nat}
    (h : handle_accepted cf id listenId winSize = Except.ok cf1) : TableValid cf1 := by
  unfold ConnForward.handle_accepted at h
  dsimp only at h
  have h0 : TableValid (match tbl_lookup cf.connections id with
      | some q => ConnForward.close_connection_no_notify cf q
      | none => cf) := by
    split
    · exact htv.close_connection_no_notify _
    · exact htv
  revert h
  generalize (match tbl_lookup cf.connections id with
      | some q => ConnForward.close_connection_no_notify cf q
      | none => cf) = cfa at h0 ⊢
  intro h
  split at h
  · cases h
  · have h1 := h0.insert_new id (new_connection_with_socket id (winSize / 2))
    split at h
    · simp only [Except.ok.injEq] at h
      subst h
      exact h1
    · simp only [Except.ok.injEq] at h
      subst h
      exact h1.set_conn _ _

theorem listener_accept_callback_connections (K : Consts) (cf : ConnForwarder)
    (host : AddressPort) :
    (listener_accept_callback K cf (some host)).connections =
      tbl_insert cf.connections ((cf.seq + U32 - 1) % U32) cf.heap.length := by
  unfold ConnForward.listener_accept_callback
  simp only [generate_connection_id, alloc, send_command, connections_insert_connections]

theorem TableValid.listener_accept_callback {K : Consts} {cf : ConnForwarder}
    (htv : TableValid cf) (r : Option AddressPort) :
    TableValid (listener_accept_callback K cf r) := by
  cases r with
  | none => exact htv
  | some host =>
    intro k q hq
    rw [(listener_accept_callback_quiet K cf host).1]
    rw [listener_accept_callback_connections] at hq
    simp only [List.length_append, List.length_singleton]
    by_cases hk : k = (cf.seq + U32 - 1) % U32
    · rw [hk, tbl_lookup_insert_self] at hq
      injection hq with hq
      exact hq ▸ Nat.lt_succ_self _
    · rw [tbl_lookup_insert_ne _ _ hk] at hq
      exact Nat.lt_succ_of_lt (htv k q hq)

theorem table_valid_step {K : Consts} (cf : ConnForwarder) (e : Event) (cf1 : ConnForwarder)
    (htv : TableValid cf) (h : step K cf e = Except.ok cf1) : TableValid cf1 := by
  cases e with
  | associate_remote rule =>
    simp only [ConnForward.step, Except.ok.injEq] at h
    subst h
    cases ht : tokenize_redirection rule with
    | none =>
      unfold conn_forwarder_associate_remote
      rw [ht]
      exact htv
    | some t =>
      obtain ⟨bind, g, hh, hp⟩ := t
      rw [associate_remote_of_tokenize K cf rule bind g hh hp ht]
      exact htv
  | associate_local rule res =>
    simp only [ConnForward.step, Except.ok.injEq] at h
    subst h
    unfold conn_forwarder_associate_local
    cases tokenize_redirection rule with
    | none => exact htv
    | some t =>
      obtain ⟨bind, g, hh, hp⟩ := t
      cases res <;> exact htv
  | agent_disconnected =>
    simp only [ConnForward.step, Except.ok.injEq] at h
    subst h
    apply TableValid.foldl_unref
    intro id q hq
    simp [tbl_lookup] at hq
  | message m =>
    simp only [ConnForward.step] at h
    split at h
    · cases m with
      | accepted id listenId winSize => exact htv.handle_accepted h
      | data id payload => exact htv.handle_data h
      | close id =>
        simp only [conn_forwarder_handle_message, Except.ok.injEq] at h
        subst h
        exact htv.handle_close _
      | ack id size winSize => exact htv.handle_ack h
      | other command =>
        simp only [conn_forwarder_handle_message, Except.ok.injEq] at h
        subst h
        exact htv
    · cases h
  | accept_done r =>
    simp only [ConnForward.step] at h
    split at h
    · simp only [Except.ok.injEq] at h
      subst h
      exact @TableValid.listener_accept_callback K { cf with accepts := cf.accepts - 1 } htv r
    · cases h
  | read_done p r =>
    simp only [ConnForward.step] at h
    repeat' split at h
    all_goals first
      | exact (htv.set_conn _ _).connection_read_callback h
      | cases h
  | write_done p r =>
    simp only [ConnForward.step] at h
    repeat' split at h
    all_goals first
      | exact (htv.set_conn _ _).connection_write_callback h
      | cases h
  | connect_done p ok =>
    simp only [ConnForward.step] at h
    repeat' split at h
    all_goals first
      | exact (htv.set_conn _ _).connection_connect_callback h
      | cases h

theorem reachable_table_valid {K : Consts} {cf : ConnForwarder} (h : Reachable K cf) :
    TableValid cf := by
  obtain ⟨evs, hrun⟩ := h
  exact run_invariant table_valid_step evs _ _ table_valid_init hrun

/-! ## The id counter -/

theorem connection_read_callback_seq {K : Consts} {cf cf1 : ConnForwarder} {p : Nat}
    {r : Option (List Nat)} (h : connection_read_callback K cf p r = Except.ok cf1) :
    cf1.seq = cf.seq :=
  connection_read_callback_inv (I := fun x => x.seq = cf.seq) (fun _ _ _ hi => hi)
    (fun _ _ hi => hi) (fun x q hi => (unref_connection_seq x q).trans hi)
    (fun x q hi => (close_connection_seq x q).trans hi) rfl h

theorem connection_write_callback_seq {cf cf1 : ConnForwarder} {p : Nat} {r : Option Nat}
    (h : connection_write_callback cf p r = Except.ok cf1) : cf1.seq = cf.seq :=
  connection_write_callback_inv (I := fun x => x.seq = cf.seq) (fun _ _ _ hi => hi)
    (fun _ _ hi => hi) (fun x q hi => (unref_connection_seq x q).trans hi)
    (fun x q hi => (close_connection_seq x q).trans hi) rfl h

theorem connection_connect_callback_seq {cf cf1 : ConnForwarder} {p : Nat} {ok : Bool}
    (h : connection_connect_callback cf p ok = Except.ok cf1) : cf1.seq = cf.seq :=
  connection_connect_callback_inv (I := fun x => x.seq = cf.seq) (fun _ _ _ hi => hi)
    (fun _ _ hi => hi) (fun x q hi => (unref_connection_seq x q).trans hi)
    (fun x q hi => (close_connection_seq x q).trans hi) rfl h

theorem handle_message_seq {cf cf1 : ConnForwarder} {m : InMsg}
    (h : conn_forwarder_handle_message cf m = Except.ok cf1) : cf1.seq = cf.seq := by
  cases m with
  | accepted id listenId winSize =>
    unfold conn_forwarder_handle_message handle_accepted at h
    dsimp only at h
    repeat' split at h
    all_goals first
      | (simp only [Except.ok.injEq] at h
         subst h
         simp [ConnForward.set_conn, alloc])
      | cases h
  | data id payload =>
    exact handle_data_inv (I := fun x => x.seq = cf.seq) (fun _ _ _ hi => hi) rfl h
  | close id =>
    simp only [conn_forwarder_handle_message, Except.ok.injEq] at h
    subst h
    unfold handle_close
    split <;> simp [ConnForward.close_agent_connection, ConnForward.send_command]
  | ack id size winSize =>
    exact handle_ack_inv (I := fun x => x.seq = cf.seq) (fun _ _ _ hi => hi) rfl h
  | other command =>
    simp only [conn_forwarder_handle_message, Except.ok.injEq] at h
    subst h
    rfl

theorem foldl_unref_seq (ps : List Nat) :
    ∀ cf, (ps.foldl unref_connection cf).seq = cf.seq := by
  induction ps with
  | nil => intro cf; rfl
  | cons q ps ih => intro cf; simp only [List.foldl_cons]; rw [ih]; simp

/-- Only an accepted local connection moves the id counter. -/
theorem step_seq {K : Consts} (cf : ConnForwarder) (e : Event) (cf1 : ConnForwarder)
    (h : step K cf e = Except.ok cf1) (he : ∀ host, e ≠ Event.accept_done (some host)) :
    cf1.seq = cf.seq := by
  cases e with
  | associate_remote rule =>
    simp only [ConnForward.step, Except.ok.injEq] at h
    subst h
    cases ht : tokenize_redirection rule with
    | none =>
      unfold conn_forwarder_associate_remote
      rw [ht]
    | some t =>
      obtain ⟨bind, g, hh, hp⟩ := t
      rw [associate_remote_of_tokenize K cf rule bind g hh hp ht]
  | associate_local rule res =>
    simp only [ConnForward.step, Except.ok.injEq] at h
    subst h
    unfold conn_forwarder_associate_local
    cases tokenize_redirection rule with
    | none => rfl
    | some t =>
      obtain ⟨bind, g, hh, hp⟩ := t
      cases res <;> rfl
  | agent_disconnected =>
    simp only [ConnForward.step, Except.ok.injEq] at h
    subst h
    unfold conn_forwarder_agent_disconnected
    rw [foldl_unref_seq]
  | message m =>
    simp only [ConnForward.step] at h
    split at h
    · exact handle_message_seq h
    · cases h
  | accept_done r =>
    cases r with
    | some host => exact absurd rfl (he host)
    | none =>
      simp only [ConnForward.step] at h
      split at h
      · simp only [Except.ok.injEq] at h
        subst h
        rfl
      · cases h
  | read_done p r =>
    simp only [ConnForward.step] at h
    repeat' split at h
    all_goals first
      | (rw [connection_read_callback_seq h]
         rfl)
      | cases h
  | write_done p r =>
    simp only [ConnForward.step] at h
    repeat' split at h
    all_goals first
      | (rw [connection_write_callback_seq h]
         rfl)
      | cases h
  | connect_done p ok =>
    simp only [ConnForward.step] at h
    repeat' split at h
    all_goals first
      | (rw [connection_connect_callback_seq h]
         rfl)
      | cases h

theorem run_seq {K : Consts} (evs : List Event) :
    ∀ cf cf1, run K cf evs = Except.ok cf1 →
      (∀ e ∈ evs, ∀ host, e ≠ Event.accept_done (some host)) → cf1.seq = cf.seq := by
  induction evs with
  | nil =>
    intro cf cf1 h _
    simp only [run, Except.ok.injEq] at h
    rw [h]
  | cons e es ih =>
    intro cf cf1 h he
    simp only [run] at h
    cases hs : step K cf e with
    | error x => rw [hs] at h; cases h
    | ok cf2 =>
      rw [hs] at h
      rw [ih cf2 cf1 h (fun x hx => he x (List.mem_cons_of_mem _ hx))]
      exact step_seq cf e cf2 hs (he e (List.mem_cons_self _ _))

theorem unref_connection_heap_ne (cf : ConnForwarder) {p q : Nat} (h : q ≠ p) :
    (unref_connection cf q).heap[p]? = cf.heap[p]? := by
  unfold unref_connection
  cases cf.heap[q]? with
  | none => rfl
  | some c => exact heap_set_ne _ h

/-- The state after the listener accepts a connection, when the table holds
valid pointers: the new connection is placed at the end of the heap as
`new_open_connection` left it. -/
theorem listener_accept_callback_new (K : Consts) (cf : ConnForwarder) (host : AddressPort)
    (htv : TableValid cf) :
    (listener_accept_callback K cf (some host)).heap[cf.heap.length]? =
      some (new_open_connection ((cf.seq + U32 - 1) % U32) (WINDOW_SIZE / 2)) ∧
    (listener_accept_callback K cf (some host)).sent = cf.sent ++
      [OutMsg.connect ((cf.seq + U32 - 1) % U32) ((WINDOW_SIZE / 2 * 2) % U32) host.port
        FLEXVDI_FWDPROTO_TCP (host.address.length % U16) host.address
        (K.connect_msg_size + host.address.length + 1)] := by
  unfold listener_accept_callback
  simp only [generate_connection_id, alloc, ConnForward.send_command]
  constructor
  · unfold connections_insert
    dsimp only
    split
    · simp
    · rename_i q hq
      rw [unref_connection_heap_ne _ (Nat.ne_of_lt (htv _ q hq))]
      simp
  · simp

theorem step_accept {K : Consts} {cf cf1 : ConnForwarder} {host : AddressPort}
    (h : step K cf (Event.accept_done (some host)) = Except.ok cf1) :
    cf1 = listener_accept_callback K { cf with accepts := cf.accepts - 1 } (some host) := by
  simp only [ConnForward.step] at h
  split at h
  · simp only [Except.ok.injEq] at h
    exact h.symm
  · cases h

/-- The run of scenario S1 up to the CONNECT, for a host name `a`. -/
theorem accept_after_associate_local (K : Consts) (a : List Char) (hne : a ≠ [])
    (hc : ∀ c ∈ a, c ≠ ':') :
    ∃ cf cf1, run K conn_forwarder_new [Event.associate_local (echo_rule a) true] =
        Except.ok cf ∧
      step K cf (Event.accept_done (some { port := 9000, address := a })) = Except.ok cf1 ∧
      cf1.sent = [OutMsg.connect 4294967295 10485760 9000 1 (a.length % 65536) a
        (K.connect_msg_size + a.length + 1)] := by
  have h1 : tokens "9000".toList = ["9000".toList] := by decide
  have h2 : tokens (echo_rule a) = ["127.0.0.1".toList, "7000".toList, a, "9000".toList] := by
    unfold echo_rule
    rw [tokens_append_colon _ _ (by decide) (by decide),
      tokens_append_colon _ _ (by decide) (by decide), tokens_append_colon a _ hne hc, h1]
  have h3 : to_guint16 (atoi "9000".toList) = 9000 := by decide
  have h4 : conn_forwarder_associate_local conn_forwarder_new (echo_rule a) true =
      ({ conn_forwarder_new with
          listener := [{ port := 9000, address := a }], accepts := 1 }, true) := by
    unfold conn_forwarder_associate_local
    rw [tokenize_four h2]
    dsimp only
    rw [h3]
    rfl
  refine ⟨{ conn_forwarder_new with
      listener := [{ port := 9000, address := a }], accepts := 1 },
    listener_accept_callback K { conn_forwarder_new with
      listener := [{ port := 9000, address := a }], accepts := 1 - 1 }
      (some { port := 9000, address := a }), ?_, ?_, ?_⟩
  · simp only [run, ConnForward.step, h4]
  · simp only [ConnForward.step]
    rw [if_pos]
    constructor
    · decide
    · intro host hh
      injection hh with hh
      rw [← hh]
      exact List.mem_singleton_self _
  · have htv : TableValid { conn_forwarder_new with
        listener := [{ port := 9000, address := a }], accepts := 1 - 1 } := by
      intro id q hq
      simp [conn_forwarder_new, tbl_lookup] at hq
    have := (listener_accept_callback_new K _ { port := 9000, address := a } htv).2
    rw [this]
    simp [conn_forwarder_new, U32, U16, WINDOW_SIZE, FLEXVDI_FWDPROTO_TCP]

/-! ## Runs -/

theorem run_append (K : Consts) (evs : List Event) (e : Event) :
    ∀ cf cf1 cf2, run K cf evs = Except.ok cf1 → step K cf1 e = Except.ok cf2 →
      run K cf (evs ++ [e]) = Except.ok cf2 := by
  induction evs with
  | nil =>
    intro cf cf1 cf2 h1 h2
    simp only [run, Except.ok.injEq] at h1
    subst h1
    simp only [List.nil_append, run, h2]
  | cons x xs ih =>
    intro cf cf1 cf2 h1 h2
    simp only [run] at h1
    simp only [List.cons_append, run]
    cases hs : step K cf x with
    | error y => rw [hs] at h1; cases h1
    | ok cf3 =>
      rw [hs] at h1
      exact ih cf3 cf1 cf2 h1 h2

theorem reachable_step {K : Consts} {cf cf1 : ConnForwarder} {e : Event}
    (h : Reachable K cf) (hs : step K cf e = Except.ok cf1) : Reachable K cf1 := by
  obtain ⟨evs, hr⟩ := h
  exact ⟨evs ++ [e], run_append K evs e _ _ _ hr hs⟩

/-- The DATA handler on a connection of the table that is not connecting and
has its socket connection (or a write in the queue): the payload is queued. -/
theorem handle_data_ok {cf : ConnForwarder} {id p : Nat} {c : Connection}
    (payload : List Nat) (hl : tbl_lookup cf.connections id = some p)
    (hc : cf.heap[p]? = some c) (hcon : c.connecting = false)
    (hconn : c.write_buffer = [] → c.conn = true) :
    handle_data cf id payload = Except.ok (set_conn cf p (data_cell c payload)) := by
  unfold handle_data
  rw [hl]
  dsimp only
  rw [hc]
  dsimp only
  rw [if_neg (by rw [hcon]; exact Bool.false_ne_true)]
  cases hq : c.write_buffer with
  | nil =>
    rw [hq] at hconn
    simp only [List.nil_append, List.length_singleton, if_true]
    rw [if_pos (hconn rfl)]
    simp [data_cell, hq]
  | cons b q =>
    simp only [List.cons_append, List.length_cons, List.length_append, List.length_singleton]
    rw [if_neg (by omega)]
    simp [data_cell, hq]

theorem handle_data_open {cf cf1 : ConnForwarder} {id p : Nat} {c : Connection}
    {payload : List Nat} (h : handle_data cf id payload = Except.ok cf1)
    (hl : tbl_lookup cf.connections id = some p)
    (hc : cf.heap[p]? = some c) (hcon : c.connecting = false) :
    cf1 = set_conn cf p (data_cell c payload) := by
  by_cases hconn : c.write_buffer = [] → c.conn = true
  · rw [handle_data_ok payload hl hc hcon hconn] at h
    injection h with h
    exact h.symm
  · exfalso
    have hq : c.write_buffer = [] := by
      by_contra hne
      exact hconn (fun hx => absurd hx hne)
    have hcn : ¬ c.conn = true := fun hx => hconn (fun _ => hx)
    unfold handle_data at h
    rw [hl] at h
    dsimp only at h
    rw [hc] at h
    dsimp only at h
    rw [if_neg (by rw [hcon]; exact Bool.false_ne_true), hq] at h
    simp only [List.nil_append, List.length_singleton, if_true, hcn, if_false] at h
    cases h

theorem pop_written_flatten (buf : List Nat) (t : List (List Nat)) (n : Nat) :
    buf.take n ++ (pop_written (buf :: t) n).flatten = (buf :: t).flatten := by
  unfold pop_written g_bytes_new_from_bytes
  simp only [List.headD_cons, List.tail_cons, List.flatten_cons]
  split
  · have h1 : (buf.drop n).take (buf.length - n) = buf.drop n :=
      List.take_of_length_le (by rw [List.length_drop])
    rw [h1, List.flatten_cons, ← List.append_assoc, List.take_append_drop]
  · rename_i h0
    have : buf.length ≤ n := by omega
    rw [List.take_of_length_le this]

theorem step_stream_data {K : Consts} {cf cf1 : ConnForwarder} {id : Nat} {payload : List Nat}
    (h : step K cf (Event.message (InMsg.data id payload)) = Except.ok cf1) :
    handle_data cf id payload = Except.ok cf1 := by
  simp only [step] at h
  split at h
  · exact h
  · cases h

/-- The inbound stream of a connection that is in the table and not
connecting: what the socket reported written, followed by the queue, is what
it was before followed by the payloads received since. -/
theorem stream_run (K : Consts) (evs : List StreamEvent) :
    ∀ (cf cf1 : ConnForwarder) (p : Nat) (c : Connection), Reachable K cf →
      cf.heap[p]? = some c → tbl_lookup cf.connections c.id = some p →
      c.connecting = false →
      run K cf (evs.map (StreamEvent.event c.id p)) = Except.ok cf1 →
      ∃ c1, cf1.heap[p]? = some c1 ∧
        c1.written ++ c1.write_buffer.flatten =
          c.written ++ c.write_buffer.flatten ++ payloads evs := by
  induction evs with
  | nil =>
    intro cf cf1 p c _ hc _ _ hrun
    simp only [List.map_nil, run, Except.ok.injEq] at hrun
    subst hrun
    exact ⟨c, hc, by simp [payloads]⟩
  | cons e es ih =>
    intro cf cf1 p c hreach hc htab hopen hrun
    simp only [List.map_cons, run] at hrun
    cases hs : step K cf (StreamEvent.event c.id p e) with
    | error x => rw [hs] at hrun; cases hrun
    | ok cf2 =>
      rw [hs] at hrun
      dsimp only at hrun
      have hreach2 := reachable_step hreach hs
      cases e with
      | data payload =>
        have h2 := handle_data_open (step_stream_data hs) htab hc hopen
        subst h2
        have hc2 : (set_conn cf p (data_cell c payload)).heap[p]? =
            some (data_cell c payload) := heap_set_self _ hc
        obtain ⟨c1, hc1, heq⟩ := ih _ cf1 p (data_cell c payload) hreach2 hc2 htab hopen hrun
        refine ⟨c1, hc1, ?_⟩
        rw [heq]
        simp [data_cell, payloads]
      | written n =>
        obtain ⟨c0, buf, hc0, hw, hn, h2⟩ := step_write_ok hs
        rw [hc] at hc0
        injection hc0 with hc0
        subst hc0
        subst h2
        have hhead := (reachable_sizes hreach p c hc).2.2.2.2 buf hw
        obtain ⟨t, ht⟩ : ∃ t, c.write_buffer = buf :: t := by
          cases hq : c.write_buffer with
          | nil => rw [hq] at hhead; cases hhead
          | cons x t =>
            rw [hq] at hhead
            simp only [List.head?_cons, Option.some.injEq] at hhead
            exact ⟨t, by rw [hhead]⟩
        obtain ⟨c1, hc1, heq⟩ := ih _ cf1 p
          (write_cell { c with writing := none, written := c.written ++ buf.take n } n)
          hreach2 (heap_set_self _ hc) htab hopen hrun
        refine ⟨c1, hc1, ?_⟩
        rw [heq]
        have hf := pop_written_flatten buf t n
        simp only [write_cell, payloads, ht, List.append_assoc, hf]

/-- In a reachable state the write that is armed is shorter than `2^31` bytes,
and neither `data_received + n` nor `2 * ack_interval` leaves the `guint32`
range. -/
theorem write_no_wrap {c : Connection} {buf : List Nat} {n : Nat} (hs : Sizes c)
    (hw : c.writing = some buf) (hn : n ≤ buf.length) :
    (c.data_received + n) % U32 = c.data_received + n ∧
    (c.ack_interval * 2) % U32 = 2 * c.ack_interval := by
  obtain ⟨h1, h2, _, h4, h5⟩ := hs
  have hmem : buf ∈ c.write_buffer := List.mem_of_mem_head? (h5 buf hw)
  have hlen := h4 buf hmem
  unfold U32
  constructor
  · apply Nat.mod_eq_of_lt
    omega
  · rw [Nat.mod_eq_of_lt (by omega)]
    omega

theorem handle_data_cell {cf cf1 : ConnForwarder} {id : Nat} {payload : List Nat} {p : Nat}
    {c : Connection} (h : handle_data cf id payload = Except.ok cf1)
    (hc : cf.heap[p]? = some c) :
    cf1.sent = cf.sent ∧
    ∃ c2, cf1.heap[p]? = some c2 ∧ c2.id = c.id ∧
      c2.ack_interval = c.ack_interval ∧ c2.data_received = c.data_received ∧
      c2.written = c.written := by
  rcases handle_data_eq h with h1 | ⟨p1, c1, _, hc1, _, _, h1⟩
  · rw [h1]; exact ⟨rfl, c, hc, rfl, rfl, rfl, rfl⟩
  · rw [h1]
    refine ⟨rfl, ?_⟩
    by_cases hp : p1 = p
    · subst hp
      rw [hc] at hc1
      injection hc1 with hc1
      subst hc1
      exact ⟨data_cell c payload, heap_set_self _ hc, rfl, rfl, rfl, rfl⟩
    · refine ⟨c, ?_, rfl, rfl, rfl, rfl⟩
      show (cf.heap.set p1 _)[p]? = some c
      rw [heap_set_ne _ hp]
      exact hc

theorem ack_sizes_append (a b : List OutMsg) : ack_sizes (a ++ b) = ack_sizes a ++ ack_sizes b := by
  induction a with
  | nil => rfl
  | cons m ms ih => cases m <;> simp [ack_sizes, ih]

/-- The ACK accounting of a connection over DATA messages and successful write
completions. -/
theorem ack_run (K : Consts) (evs : List StreamEvent) :
    ∀ (cf cf1 : ConnForwarder) (p : Nat) (c : Connection), Reachable K cf →
      cf.heap[p]? = some c →
      run K cf (evs.map (StreamEvent.event c.id p)) = Except.ok cf1 →
      ∃ c1 acks, cf1.heap[p]? = some c1 ∧ cf1.sent = cf.sent ++ acks ∧
        (∀ m ∈ acks, ∃ size, m = OutMsg.ack c.id size (2 * c.ack_interval)) ∧
        (ack_sizes acks).sum + c1.data_received = c.data_received + written_total evs ∧
        c1.written.length = c.written.length + written_total evs ∧
        (0 < c.ack_interval →
          (c.data_received < c.ack_interval ∨ ∃ n, StreamEvent.written n ∈ evs) →
          c1.data_received < c.ack_interval) := by
  induction evs with
  | nil =>
    intro cf cf1 p c _ hc hrun
    simp only [List.map_nil, run, Except.ok.injEq] at hrun
    subst hrun
    refine ⟨c, [], hc, by simp, by simp, by simp [ack_sizes, written_total],
      by simp [written_total], ?_⟩
    intro _ h
    rcases h with h | ⟨n, hn⟩
    · exact h
    · cases hn
  | cons e es ih =>
    intro cf cf1 p c hreach hc hrun
    simp only [List.map_cons, run] at hrun
    cases hs : step K cf (StreamEvent.event c.id p e) with
    | error x => rw [hs] at hrun; cases hrun
    | ok cf2 =>
      rw [hs] at hrun
      dsimp only at hrun
      have hreach2 := reachable_step hreach hs
      cases e with
      | data payload =>
        have h2 := step_stream_data hs
        obtain ⟨hsent, c2, hc2, hid, hack, hdr, hwr⟩ := handle_data_cell h2 hc
        have hrun2 : run K cf2
            (List.map (StreamEvent.event c2.id p) es) = Except.ok cf1 := by
          rw [hid]; exact hrun
        obtain ⟨c1, acks, hc1, hs1, hm1, hsum, hlen, hlt⟩ := ih _ cf1 p c2 hreach2 hc2 hrun2
        rw [hid, hack] at hm1
        rw [hack, hdr] at hlt
        refine ⟨c1, acks, hc1, by rw [hs1, hsent], hm1, ?_, ?_, ?_⟩
        · rw [hsum, hdr]; rfl
        · rw [hlen, hwr]; rfl
        · intro h0 h
          apply hlt h0
          rcases h with h | ⟨n, hn⟩
          · exact Or.inl h
          · right
            rcases List.mem_cons.1 hn with h3 | h3
            · cases h3
            · exact ⟨n, h3⟩
      | written n =>
        obtain ⟨c0, buf, hc0, hw, hn, h2⟩ := step_write_ok hs
        rw [hc] at hc0
        injection hc0 with hc0
        subst hc0
        subst h2
        obtain ⟨hm1, hm2⟩ := write_no_wrap (reachable_sizes hreach p c hc) hw hn
        obtain ⟨c1, acks, hc1, hs1, hmem, hsum, hlen, hlt⟩ := ih _ cf1 p
          (write_cell { c with writing := none, written := c.written ++ buf.take n } n)
          hreach2 (heap_set_self _ hc) hrun
        refine ⟨c1, write_acks c n ++ acks, hc1, ?_, ?_, ?_, ?_, ?_⟩
        · rw [hs1, List.append_assoc]
        · intro m hm
          rcases List.mem_append.1 hm with h3 | h3
          · unfold write_acks at h3
            split at h3
            · rw [List.mem_singleton.1 h3, hm2]
              exact ⟨_, rfl⟩
            · cases h3
          · exact hmem m h3
        · rw [ack_sizes_append, List.sum_append, Nat.add_assoc, hsum]
          simp only [write_acks, write_cell, written_total, hm1]
          split
          · simp [ack_sizes]; omega
          · simp [ack_sizes]; omega
        · rw [hlen]
          simp only [write_cell, written_total, List.length_append, List.length_take]
          omega
        · intro h0 _
          apply hlt h0
          left
          simp only [write_cell, hm1]
          split
          · exact h0
          · omega

/-! ## Claims on the listener -/

/-- C10 (amended): whenever, in a reachable state, the listener accepts a local
connection whose listening socket carries the target `host`, exactly one
message is emitted, a CONNECT with `id` the newly allocated id (the counter
minus one, modulo `2^32`), `winSize = 2 * ack_interval = WINDOW_SIZE`,
`proto = 1`, the port and address of the target and `addressLength` the length
of the address modulo `2^16` (the length itself below 65536); under that id the
table holds a new connection in Connecting state with `refs = 1`,
`data_sent = data_received = 0` and `ack_interval = WINDOW_SIZE / 2`; and when no
connection was accepted before, the id is `0xFFFFFFFF`. -/
theorem accept_emits_connect (K : Consts) (cf cf1 : ConnForwarder) (host : AddressPort)
    (hreach : Reachable K cf)
    (hstep : step K cf (Event.accept_done (some host)) = Except.ok cf1) :
    ∃ id c, id = (cf.seq + 2 ^ 32 - 1) % 2 ^ 32 ∧
      cf1.sent = cf.sent ++
        [OutMsg.connect id WINDOW_SIZE host.port 1 (host.address.length % 65536) host.address
          (K.connect_msg_size + host.address.length + 1)] ∧
      (host.address.length < 65536 → host.address.length % 65536 = host.address.length) ∧
      tbl_lookup cf1.connections id = some cf.heap.length ∧
      cf.heap[cf.heap.length]? = none ∧
      cf1.heap[cf.heap.length]? = some c ∧
      c.id = id ∧ c.connecting = true ∧ c.conn = true ∧ c.refs = 1 ∧ c.data_sent = 0 ∧
      c.data_received = 0 ∧ c.ack_interval = WINDOW_SIZE / 2 ∧
      2 * c.ack_interval = WINDOW_SIZE ∧ c.write_buffer = [] ∧
      (∀ evs, run K conn_forwarder_new evs = Except.ok cf →
        (∀ e ∈ evs, ∀ h, e ≠ Event.accept_done (some h)) → id = 4294967295) := by
  have h1 := step_accept hstep
  have htv : TableValid { cf with accepts := cf.accepts - 1 } :=
    fun id q hq => reachable_table_valid hreach id q hq
  obtain ⟨hheap, hsent⟩ := listener_accept_callback_new K _ host htv
  have hconn := listener_accept_callback_connections K { cf with accepts := cf.accepts - 1 } host
  rw [← h1] at hheap hsent hconn
  have hw : 2 * (WINDOW_SIZE / 2) = WINDOW_SIZE := by decide
  refine ⟨(cf.seq + 2 ^ 32 - 1) % 2 ^ 32,
    new_open_connection ((cf.seq + U32 - 1) % U32) (WINDOW_SIZE / 2), rfl, ?_,
    fun hlt => Nat.mod_eq_of_lt hlt, ?_, List.getElem?_eq_none (le_refl _), hheap, rfl, rfl,
    rfl, rfl, rfl, rfl, rfl, hw, rfl, ?_⟩
  · rw [hsent]
    rfl
  · rw [hconn]
    exact tbl_lookup_insert_self _ _ _
  · intro evs hrun hev
    have hseq := run_seq evs _ _ hrun hev
    rw [hseq]
    rfl

theorem accept_emits_connect_witness :
    Reachable flexdp (run_state flexdp echo_listen) ∧
    step flexdp (run_state flexdp echo_listen)
        (Event.accept_done (some { port := 9000, address := "echo.host".toList })) =
      Except.ok (run_state flexdp (echo_listen ++
        [Event.accept_done (some { port := 9000, address := "echo.host".toList })])) ∧
    (run_state flexdp (echo_listen ++
        [Event.accept_done (some { port := 9000, address := "echo.host".toList })])).sent =
      [OutMsg.connect 4294967295 10485760 9000 1 9 "echo.host".toList 23] ∧
    ∃ (id : Nat) (c : Connection),
      id = ((run_state flexdp echo_listen).seq + 2 ^ 32 - 1) % 2 ^ 32 ∧
      c.id = id ∧ c.connecting = true ∧ c.refs = 1 :=
  ⟨⟨echo_listen, by rfl⟩, by rfl, by decide,
   (accept_emits_connect flexdp (run_state flexdp echo_listen)
      (run_state flexdp (echo_listen ++
        [Event.accept_done (some { port := 9000, address := "echo.host".toList })]))
      { port := 9000, address := "echo.host".toList } ⟨echo_listen, by rfl⟩ (by rfl)).elim
    (fun id h => h.elim (fun c hc =>
      ⟨id, c, hc.1, hc.2.2.2.2.2.2.1, hc.2.2.2.2.2.2.2.1, hc.2.2.2.2.2.2.2.2.2.1⟩))⟩

/-- C10 (counterexample): for a target whose host name has 65536 characters
(registered by `associate_local` with the rule
`127.0.0.1:7000:<host>:9000`), the CONNECT that is emitted when a connection is
accepted carries `addressLength = 0`, not the length of the host name. -/
theorem accept_address_length_wraps :
    ∃ cf cf1,
      run flexdp conn_forwarder_new
        [Event.associate_local (echo_rule (List.replicate 65536 'a')) true] = Except.ok cf ∧
      step flexdp cf
        (Event.accept_done (some { port := 9000, address := List.replicate 65536 'a' })) =
        Except.ok cf1 ∧
      cf1.sent = [OutMsg.connect 4294967295 10485760 9000 1 0 (List.replicate 65536 'a') 65550] ∧
      (List.replicate 65536 'a').length = 65536 := by
  have hne : List.replicate 65536 'a' ≠ [] := by
    intro h
    have h2 : (List.replicate 65536 'a').length = 0 := by rw [h]; rfl
    rw [List.length_replicate] at h2
    exact absurd h2 (by decide)
  have hc : ∀ c ∈ List.replicate 65536 'a', c ≠ ':' := by
    intro c hmem
    rw [List.eq_of_mem_replicate hmem]
    decide
  obtain ⟨cf, cf1, h1, h2, h3⟩ := accept_after_associate_local flexdp _ hne hc
  refine ⟨cf, cf1, h1, h2, ?_, List.length_replicate _ _⟩
  rw [h3, List.length_replicate]
  rfl

/-! ## Claims on the outbound window -/

theorem data_sizes_append (a b : List OutMsg) :
    data_sizes (a ++ b) = data_sizes a ++ data_sizes b := by
  induction a with
  | nil => rfl
  | cons m ms ih => cases m <;> simp [data_sizes, ih]

/-- A read completion that delivers bytes on a connection that is not
cancelled is enabled when a read is in flight and the bytes fit the buffer. -/
theorem step_read_data_ok {K : Consts} {cf : ConnForwarder} {p : Nat} {bytes : List Nat}
    {c : Connection} (hc : cf.heap[p]? = some c) (hcan : c.cancelled = false)
    (hne : bytes.length ≠ 0) (hr : 0 < c.reads) (hb : bytes.length ≤ BUFFER_SIZE K)
    (hconn : c.conn = true) :
    step K cf (Event.read_done p (some bytes)) = Except.ok
      { cf with
        heap := cf.heap.set p (read_cell { c with reads := c.reads - 1 } bytes),
        sent := cf.sent ++
          [OutMsg.data c.id (bytes.length % U32) bytes (DATA_HEAD_SIZE K + bytes.length % U32)] } := by
  have hg : 0 < c.reads ∧ ∀ b, some bytes = some b → b.length ≤ BUFFER_SIZE K := by
    refine ⟨hr, fun b hb2 => ?_⟩
    injection hb2 with hb2
    rw [← hb2]; exact hb
  have hc0 : (set_conn cf p { c with reads := c.reads - 1 }).heap[p]? =
      some { c with reads := c.reads - 1 } := heap_set_self _ hc
  simp only [ConnForward.step, hc]
  rw [if_pos hg, connection_read_callback_data bytes hc0 hcan hne (fun _ => hconn)]
  simp only [ConnForward.set_conn, heap_set_set]

/-- A run of `k` reads of the same bytes that all stay below the window. -/
theorem reads_run (K : Consts) (p : Nat) (bytes : List Nat) (hne : bytes.length ≠ 0)
    (hb : bytes.length ≤ BUFFER_SIZE K) (k : Nat) :
    ∀ (cf : ConnForwarder) (c : Connection), cf.heap[p]? = some c → c.cancelled = false →
      c.conn = true → c.reads = 1 → c.data_sent + k * bytes.length < WINDOW_SIZE →
      ∃ cf1 c1, run K cf (List.replicate k (Event.read_done p (some bytes))) = Except.ok cf1 ∧
        cf1.heap[p]? = some c1 ∧ c1.cancelled = false ∧ c1.conn = true ∧ c1.reads = 1 ∧
        c1.data_sent = c.data_sent + k * bytes.length ∧
        (data_sizes cf1.sent).sum = (data_sizes cf.sent).sum + k * bytes.length := by
  induction k with
  | zero =>
    intro cf c hc hcan hconn hr _
    exact ⟨cf, c, rfl, hc, hcan, hconn, hr, by simp, by simp⟩
  | succ k ih =>
    intro cf c hc hcan hconn hr hlt
    have hw : WINDOW_SIZE < U32 := by decide
    have hlen : bytes.length < WINDOW_SIZE := by
      have : bytes.length ≤ (k + 1) * bytes.length := Nat.le_mul_of_pos_left _ (Nat.succ_pos k)
      omega
    have hmul : (k + 1) * bytes.length = k * bytes.length + bytes.length := Nat.succ_mul _ _
    have hm1 : bytes.length % U32 = bytes.length := Nat.mod_eq_of_lt (by omega)
    have hm2 : (c.data_sent + bytes.length) % U32 = c.data_sent + bytes.length :=
      Nat.mod_eq_of_lt (by omega)
    have hds : c.data_sent + bytes.length < WINDOW_SIZE := by omega
    have hstep := step_read_data_ok (K := K) hc hcan hne (by omega : 0 < c.reads) hb hconn
    have hcell : read_cell { c with reads := c.reads - 1 } bytes =
        { c with data_sent := c.data_sent + bytes.length } := by
      simp [read_cell, hm1, hm2, hds, hconn, hr]
    rw [hcell] at hstep
    obtain ⟨cf1, c1, hrun, hc1, hcan1, hconn1, hr1, hds1, hsum1⟩ :=
      ih { cf with
          heap := cf.heap.set p { c with data_sent := c.data_sent + bytes.length },
          sent := cf.sent ++ [OutMsg.data c.id (bytes.length % U32) bytes
            (DATA_HEAD_SIZE K + bytes.length % U32)] }
        { c with data_sent := c.data_sent + bytes.length } (heap_set_self _ hc) hcan hconn hr
        (by show c.data_sent + bytes.length + k * bytes.length < WINDOW_SIZE; omega)
    refine ⟨cf1, c1, ?_, hc1, hcan1, hconn1, hr1, ?_, ?_⟩
    · simp only [List.replicate_succ, run, hstep]
      exact hrun
    · rw [hds1]
      show c.data_sent + bytes.length + k * bytes.length = c.data_sent + (k + 1) * bytes.length
      omega
    · rw [hsum1]
      simp only [data_sizes_append, data_sizes, List.sum_append, List.sum_cons, List.sum_nil, hm1]
      omega

theorem run_append_list (K : Consts) (a b : List Event) :
    ∀ cf cf1, run K cf a = Except.ok cf1 → run K cf (a ++ b) = run K cf1 b := by
  induction a with
  | nil =>
    intro cf cf1 h
    simp only [run, Except.ok.injEq] at h
    subst h
    rfl
  | cons x xs ih =>
    intro cf cf1 h
    simp only [run] at h
    simp only [List.cons_append, run]
    cases hs : step K cf x with
    | error y => rw [hs] at h; cases h
    | ok cf2 =>
      rw [hs] at h
      exact ih cf2 cf1 h

theorem acks_within_append (K : Consts) (a b : List Event) :
    ∀ cf cf1, run K cf a = Except.ok cf1 → acks_within K cf a = true →
      acks_within K cf1 b = true → acks_within K cf (a ++ b) = true := by
  induction a with
  | nil =>
    intro cf cf1 h _ hb
    simp only [run, Except.ok.injEq] at h
    subst h
    exact hb
  | cons x xs ih =>
    intro cf cf1 h ha hb
    simp only [run] at h
    simp only [acks_within, Bool.and_eq_true] at ha
    simp only [List.cons_append, acks_within, Bool.and_eq_true]
    cases hs : step K cf x with
    | error y => rw [hs] at h; cases h
    | ok cf2 =>
      rw [hs] at h ha
      exact ⟨ha.1, ih cf2 cf1 h ha.2 hb⟩

theorem acks_within_reads (K : Consts) (p : Nat) (r : Option (List Nat)) (k : Nat) :
    ∀ cf, acks_within K cf (List.replicate k (Event.read_done p r)) = true := by
  induction k with
  | zero => intro cf; rfl
  | succ k ih =>
    intro cf
    simp only [List.replicate_succ, acks_within, ack_within, Bool.true_and]
    cases step K cf (Event.read_done p r) with
    | error y => rfl
    | ok cf1 => exact ih cf1

/-- C2 (counterexample): scenario S2 on the code. After the handshake the
application writes `WINDOW_SIZE + 1` bytes and the peer sends no ACK; the 160
reads of `BUFFER_SIZE` bytes leave `data_sent` below the window, so a read is
armed again, and it delivers the 2561 bytes that are left: all
`WINDOW_SIZE + 1` bytes are emitted as DATA and `data_sent` is
`WINDOW_SIZE + 1`. Moreover an ACK of size 1 right after the handshake, when
`data_sent` is 0, leaves `data_sent = 2^32 - 1`. -/
theorem window_overshoot :
    (∃ cf c, run flexdp conn_forwarder_new stall_events = Except.ok cf ∧
      acks_within flexdp conn_forwarder_new stall_events = true ∧
      cf.heap[0]? = some c ∧ c.data_sent = WINDOW_SIZE + 1 ∧
      (data_sizes cf.sent).sum = WINDOW_SIZE + 1) ∧
    (run_state flexdp
      (stall_open ++ [Event.message (InMsg.ack 4294967295 1 20971520)])).heap[0]? =
      some { stall_conn with data_sent := 4294967295 } := by
  refine ⟨?_, by rfl⟩
  have hl1 : (List.replicate 65520 0).length = 65520 := List.length_replicate _ _
  have hl2 : (List.replicate 2561 0).length = 2561 := List.length_replicate _ _
  have h0 : run flexdp conn_forwarder_new stall_open =
      Except.ok (run_state flexdp stall_open) := by rfl
  have hc0 : (run_state flexdp stall_open).heap[0]? = some stall_conn := by rfl
  have hs0 : (data_sizes (run_state flexdp stall_open).sent).sum = 0 := by decide
  have ha0 : acks_within flexdp conn_forwarder_new stall_open = true := by rfl
  have hbuf : BUFFER_SIZE flexdp = 65520 := by decide
  obtain ⟨cf1, c1, hrun1, hc1, hcan1, hconn1, hr1, hds1, hsum1⟩ :=
    reads_run flexdp 0 (List.replicate 65520 0) (by rw [hl1]; decide)
      (by rw [hl1, hbuf]) 160 (run_state flexdp stall_open) stall_conn hc0 rfl rfl rfl
      (by rw [hl1]; decide)
  rw [hl1] at hds1 hsum1
  rw [hs0] at hsum1
  have hds1n : c1.data_sent = 10483200 := by rw [hds1]; rfl
  have hstep := @step_read_data_ok flexdp cf1 0 (List.replicate 2561 0) c1 hc1 hcan1
    (by rw [hl2]; decide) (by rw [hr1]; decide) (by rw [hl2, hbuf]; decide) hconn1
  have hrunA : run flexdp conn_forwarder_new
      (stall_open ++ List.replicate 160 (Event.read_done 0 (some (List.replicate 65520 0)))) =
      Except.ok cf1 := by
    rw [run_append_list flexdp _ _ _ _ h0]
    exact hrun1
  refine ⟨{ cf1 with
      heap := cf1.heap.set 0
        (read_cell { c1 with reads := c1.reads - 1 } (List.replicate 2561 0)),
      sent := cf1.sent ++
        [OutMsg.data c1.id ((List.replicate 2561 0).length % U32) (List.replicate 2561 0)
          (DATA_HEAD_SIZE flexdp + (List.replicate 2561 0).length % U32)] },
    read_cell { c1 with reads := c1.reads - 1 } (List.replicate 2561 0),
    ?_, ?_, heap_set_self _ hc1, ?_, ?_⟩
  · unfold stall_events
    rw [run_append_list flexdp _ _ _ _ hrunA]
    simp only [run, hstep]
  · unfold stall_events
    refine acks_within_append flexdp _ _ _ _ hrunA ?_ ?_
    · exact acks_within_append flexdp _ _ _ _ h0 ha0 (acks_within_reads flexdp _ _ _ _)
    · exact acks_within_reads flexdp 0 _ 1 cf1
  · show (c1.data_sent + (List.replicate 2561 0).length % U32) % U32 = WINDOW_SIZE + 1
    rw [hl2, hds1n]
    decide
  · simp only [data_sizes_append, data_sizes, List.sum_append, List.sum_cons, List.sum_nil,
      hsum1, hl2]
    decide

theorem window_quiet {K : Consts} (c c1 : Connection) (h : Window K c) (hq : Quiet c c1) :
    Window K c1 := by
  unfold Quiet at hq
  rw [hq]
  exact h

theorem window_new {K : Consts} (c : Connection) (h : CellNew c) : Window K c := by
  have hpos : 0 < WINDOW_SIZE + BUFFER_SIZE K := by unfold WINDOW_SIZE; omega
  rcases h with ⟨id, rfl⟩ | ⟨id, w, _, rfl⟩
  · exact ⟨hpos, Nat.zero_le _, fun h => absurd h (Nat.lt_irrefl 0), fun _ => ⟨rfl, rfl⟩,
      fun h => (by cases h), fun h => (by cases h)⟩
  · exact ⟨hpos, Nat.zero_le _, fun h => absurd h (Nat.lt_irrefl 0), fun _ => ⟨rfl, rfl⟩,
      fun _ => ⟨rfl, rfl⟩, fun _ => rfl⟩

theorem window_cell_step {K : Consts} {cf : ConnForwarder} {e : Event} {j : Nat}
    {c c0 : Connection} (hK : WINDOW_SIZE + BUFFER_SIZE K ≤ 2 ^ 32)
    (hack : ack_within cf e = true) (hc : cf.heap[j]? = some c) (h : Window K c)
    (hs : CellStep K cf e j c c0) : Window K c0 := by
  obtain ⟨w1, w2, w3, w4, w5, w6⟩ := h
  cases hs with
  | quiet => exact ⟨w1, w2, w3, w4, w5, w6⟩
  | data id _ payload _ hl hwf hcon hconn => exact ⟨w1, w2, w3, w4, w5, w6⟩
  | ack id size winSize _ _ hl hsz hw hconn =>
    simp only [ack_within, hl, hc, Bool.or_eq_true, decide_eq_true_eq] at hack
    unfold ack_cell
    by_cases hcon : c.connecting = true
    · rw [if_pos hcon]
      obtain ⟨h41, h42⟩ := w4 hcon
      refine ⟨w1, ?_, fun _ => ?_, fun hx => absurd hx Bool.false_ne_true, fun hx => ?_, w6⟩
      · show c.reads + 1 ≤ 1
        omega
      · show c.data_sent < WINDOW_SIZE
        rw [h42]; decide
      · have hx2 : c.conn = false := hx
        rw [hconn (Or.inl hcon)] at hx2
        cases hx2
    · rw [if_neg hcon]
      have hle : size ≤ c.data_sent := by
        rcases hack with hh | hh
        · exact absurd hh hcon
        · exact hh
      have hds : (c.data_sent + U32 - size % U32) % U32 = c.data_sent - size := by
        unfold U32 at hsz ⊢
        unfold WINDOW_SIZE at w1 hK
        omega
      rw [hds]
      split
      · rename_i hw2
        have hr0 : c.reads = 0 := by
          rcases Nat.eq_zero_or_pos c.reads with h0 | h0
          · exact h0
          · have := w3 h0
            omega
        refine ⟨?_, ?_, fun _ => hw2.1, ?_, fun hx => ?_, w6⟩
        · show c.data_sent - size < WINDOW_SIZE + BUFFER_SIZE K
          omega
        · show c.reads + 1 ≤ 1
          omega
        · intro hx
          exact absurd (show c.connecting = true from hx) hcon
        · have hx2 : c.conn = false := hx
          have := (w5 hx2).2
          omega
      · refine ⟨?_, w2, fun hx => ?_, ?_, fun hx => ?_, w6⟩
        · show c.data_sent - size < WINDOW_SIZE + BUFFER_SIZE K
          omega
        · show c.data_sent - size < WINDOW_SIZE
          have := w3 hx
          omega
        · intro hx
          exact absurd (show c.connecting = true from hx) hcon
        · have hx2 : c.conn = false := hx
          obtain ⟨h51, h52⟩ := w5 hx2
          refine ⟨h51, ?_⟩
          show c.data_sent - size = 0
          omega
  | read_quiet _ r _ hr =>
    refine ⟨w1, ?_, fun hx => ?_, fun hx => ?_, fun hx => ?_, w6⟩
    · show c.reads - 1 ≤ 1
      omega
    · exact w3 hr
    · have := (w4 hx).1
      omega
    · have := (w5 hx).1
      omega
  | read_data _ bytes _ hr hb hne hcan hconn0 =>
    have hlt := w3 hr
    have hr1 : c.reads = 1 := by omega
    have hcon : ¬ c.connecting = true := by
      intro hx
      have := (w4 hx).1
      omega
    have hconn : ¬ c.conn = false := by
      intro hx
      have := (w5 hx).1
      omega
    have hds : (c.data_sent + bytes.length % U32) % U32 = c.data_sent + bytes.length := by
      unfold U32
      unfold WINDOW_SIZE at hlt hK
      omega
    simp only [read_cell, hds]
    refine ⟨?_, ?_, fun hx => ?_, fun hx => absurd hx hcon, fun hx => absurd hx hconn, w6⟩
    · show c.data_sent + bytes.length < WINDOW_SIZE + BUFFER_SIZE K
      omega
    · show (if c.data_sent + bytes.length < WINDOW_SIZE then c.reads - 1 + 1
        else c.reads - 1) ≤ 1
      split <;> omega
    · have hx2 : 0 < (if c.data_sent + bytes.length < WINDOW_SIZE
          then c.reads - 1 + 1 else c.reads - 1) := hx
      show c.data_sent + bytes.length < WINDOW_SIZE
      split at hx2
      · rename_i hh
        exact hh
      · omega
  | write_err => exact ⟨w1, w2, w3, w4, w5, w6⟩
  | write_ok _ n _ buf hw hn => exact ⟨w1, w2, w3, w4, w5, w6⟩
  | connect _ ok _ hp =>
    obtain ⟨h51, h52⟩ := w5 (w6 hp)
    unfold connect_cell
    split
    · exact ⟨w1, w2, w3, w4, w5, fun hx => (by cases hx)⟩
    · split
      · refine ⟨w1, ?_, fun _ => ?_, fun hx => (by cases hx), fun hx => (by cases hx),
          fun hx => (by cases hx)⟩
        · show c.reads + 1 ≤ 1
          omega
        · show c.data_sent < WINDOW_SIZE
          rw [h52]; decide
      · exact ⟨w1, w2, w3, w4, fun _ => ⟨h51, h52⟩, fun hx => (by cases hx)⟩

theorem run_window {K : Consts} (hK : WINDOW_SIZE + BUFFER_SIZE K ≤ 2 ^ 32) (evs : List Event) :
    ∀ cf cf1, HeapAll (Window K) cf → acks_within K cf evs = true →
      run K cf evs = Except.ok cf1 → HeapAll (Window K) cf1 := by
  induction evs with
  | nil =>
    intro cf cf1 hall _ h
    simp only [run, Except.ok.injEq] at h
    subst h
    exact hall
  | cons e es ih =>
    intro cf cf1 hall hacks h
    simp only [run] at h
    simp only [acks_within, Bool.and_eq_true] at hacks
    cases hs : step K cf e with
    | error x => rw [hs] at h; cases h
    | ok cf2 =>
      rw [hs] at h hacks
      refine ih cf2 cf1 ?_ hacks.2 h
      exact heap_all_step window_quiet window_new
        (fun j c c0 hc hw hcs => window_cell_step hK hacks.1 hc hw hcs) hall hs

/-- C2 (amended): in every state reached while the peer never acknowledges more
than was sent (every ACK for a connection that is not connecting has
`size <= data_sent`), and for every connection, `data_sent` stays below
`WINDOW_SIZE + BUFFER_SIZE` (the window can be exceeded by less than one read
chunk), at most one read is in flight, and a read is in flight only while
`data_sent < WINDOW_SIZE`: no read is scheduled while `data_sent >= WINDOW_SIZE`. -/
theorem window_bound (K : Consts) (hK : WINDOW_SIZE + BUFFER_SIZE K ≤ 2 ^ 32)
    (evs : List Event) (cf : ConnForwarder)
    (hrun : run K conn_forwarder_new evs = Except.ok cf)
    (hacks : acks_within K conn_forwarder_new evs = true)
    (p : Nat) (c : Connection) (hc : cf.heap[p]? = some c) :
    c.data_sent < WINDOW_SIZE + BUFFER_SIZE K ∧ c.reads ≤ 1 ∧
    (0 < c.reads → c.data_sent < WINDOW_SIZE) ∧
    (WINDOW_SIZE ≤ c.data_sent → c.reads = 0) := by
  obtain ⟨w1, w2, w3, _⟩ := run_window hK evs _ _ (heap_all_init _) hacks hrun p c hc
  refine ⟨w1, w2, w3, fun hge => ?_⟩
  rcases Nat.eq_zero_or_pos c.reads with h0 | h0
  · exact h0
  · have := w3 h0
    omega

theorem window_bound_witness :
    WINDOW_SIZE + BUFFER_SIZE flexdp ≤ 2 ^ 32 ∧
    run flexdp conn_forwarder_new (stall_open ++ [Event.read_done 0 (some [104, 105])]) =
      Except.ok (run_state flexdp (stall_open ++ [Event.read_done 0 (some [104, 105])])) ∧
    acks_within flexdp conn_forwarder_new
      (stall_open ++ [Event.read_done 0 (some [104, 105])]) = true ∧
    (run_state flexdp (stall_open ++ [Event.read_done 0 (some [104, 105])])).heap[0]? =
      some { stall_conn with data_sent := 2 } ∧
    (2 < WINDOW_SIZE + BUFFER_SIZE flexdp ∧ 1 ≤ 1 ∧ (0 < 1 → 2 < WINDOW_SIZE) ∧
      (WINDOW_SIZE ≤ 2 → 1 = 0)) :=
  ⟨by decide, by rfl, by rfl, by rfl,
   window_bound flexdp (by decide) (stall_open ++ [Event.read_done 0 (some [104, 105])])
     (run_state flexdp (stall_open ++ [Event.read_done 0 (some [104, 105])])) (by rfl) (by rfl)
     0 { stall_conn with data_sent := 2 } (by rfl)⟩

/-! ## Connection ids -/

theorem generate_connection_ids_succ (cf : ConnForwarder) (n : Nat) :
    (generate_connection_ids cf (n + 1)).2 =
      (cf.seq + U32 - 1) % U32 ::
        (generate_connection_ids { cf with seq := (cf.seq + U32 - 1) % U32 } n).2 := rfl

theorem generate_connection_ids_get (n : Nat) :
    ∀ (cf : ConnForwarder) (i : Nat), i < n →
      (generate_connection_ids cf n).2[i]? = some ((cf.seq + (i + 1) * (U32 - 1)) % U32) := by
  induction n with
  | zero => intro cf i hi; omega
  | succ n ih =>
    intro cf i hi
    rw [generate_connection_ids_succ]
    cases i with
    | zero =>
      refine List.getElem?_cons_zero.trans (congrArg some ?_)
      unfold U32
      omega
    | succ i =>
      refine List.getElem?_cons_succ.trans ((ih _ i (by omega)).trans (congrArg some ?_))
      show ((cf.seq + U32 - 1) % U32 + (i + 1) * (U32 - 1)) % U32 = _
      unfold U32
      omega

/-- C11: the `k`-th call of `generate_connection_id` (for `k ≥ 1`, counted from the
start of the process) returns `(2^32 - k) mod 2^32`: the first id is
`0xFFFFFFFF`, each later id is the previous one minus 1 modulo `2^32`, and it is
smaller than the previous one as long as the counter has not wrapped
(`k ≤ 2^32`). -/
theorem generate_connection_id_sequence (n k : Nat) (hk : 1 ≤ k) (hkn : k ≤ n) :
    ∃ id : Nat, (generate_connection_ids conn_forwarder_new n).2[k - 1]? = some id ∧
      (id : Int) = ((2 : Int) ^ 32 - k) % 2 ^ 32 ∧
      (k = 1 → id = 0xFFFFFFFF) ∧
      ∀ prev : Nat, (generate_connection_ids conn_forwarder_new n).2[k - 2]? = some prev → 2 ≤ k →
        (id : Int) = ((prev : Int) - 1) % 2 ^ 32 ∧ (k ≤ 2 ^ 32 → id < prev) := by
  refine ⟨_, generate_connection_ids_get n conn_forwarder_new (k - 1) (by omega), ?_, ?_, ?_⟩
  · have e1 : k - 1 + 1 = k := by omega
    rw [e1]
    show (((0 + k * (U32 - 1)) % U32 : Nat) : Int) = _
    unfold U32
    push_cast
    omega
  · intro h1
    subst h1
    show (0 + (1 - 1 + 1) * (U32 - 1)) % U32 = 4294967295
    unfold U32
    omega
  · intro prev hp h2
    rw [generate_connection_ids_get n conn_forwarder_new (k - 2) (by omega)] at hp
    have hp1 : prev = (0 + (k - 2 + 1) * (U32 - 1)) % U32 := (Option.some.inj hp).symm
    have e1 : k - 1 + 1 = k := by omega
    have e2 : k - 2 + 1 = k - 1 := by omega
    rw [e2] at hp1
    rw [e1]
    show (((0 + k * (U32 - 1)) % U32 : Nat) : Int) = _ ∧
      (k ≤ 2 ^ 32 → (0 + k * (U32 - 1)) % U32 < prev)
    unfold U32 at hp1 ⊢
    refine ⟨?_, ?_⟩
    · push_cast
      omega
    · intro hle
      omega

/-- The second of three calls returns `0xFFFFFFFE`, one less than the first. -/
theorem generate_connection_id_sequence_witness :
    ∃ id : Nat, (generate_connection_ids conn_forwarder_new 3).2[2 - 1]? = some id ∧
      (id : Int) = ((2 : Int) ^ 32 - (2 : Nat)) % 2 ^ 32 ∧
      ((2 : Nat) = 1 → id = 0xFFFFFFFF) ∧
      ∀ prev : Nat, (generate_connection_ids conn_forwarder_new 3).2[2 - 2]? = some prev → 2 ≤ 2 →
        (id : Int) = ((prev : Int) - 1) % 2 ^ 32 ∧ (2 ≤ 2 ^ 32 → id < prev) :=
  generate_connection_id_sequence 3 2 (by decide) (by decide)

/-! ## The entries of the connections table -/

theorem table_sub_refl (cf : ConnForwarder) : TableSub cf cf := fun _ _ h => h

theorem table_sub_of_eq {cf0 cf cf1 : ConnForwarder} (h : TableSub cf0 cf)
    (he : cf1.connections = cf.connections) : TableSub cf0 cf1 := by
  intro k q hq
  rw [he] at hq
  exact h k q hq

theorem table_sub_set_conn {cf0 cf : ConnForwarder} (h : TableSub cf0 cf) (p : Nat)
    (c : Connection) : TableSub cf0 (set_conn cf p c) := table_sub_of_eq h rfl

theorem table_sub_send_command {cf0 cf : ConnForwarder} (h : TableSub cf0 cf) (m : OutMsg) :
    TableSub cf0 (send_command cf m) := table_sub_of_eq h rfl

theorem table_sub_unref_connection {cf0 cf : ConnForwarder} (h : TableSub cf0 cf) (p : Nat) :
    TableSub cf0 (unref_connection cf p) := table_sub_of_eq h (unref_connection_connections cf p)

theorem table_sub_connections_remove {cf0 cf : ConnForwarder} (h : TableSub cf0 cf) (id : Nat) :
    TableSub cf0 (connections_remove cf id).1 := by
  intro k q hq
  rw [connections_remove_connections] at hq
  exact h k q (tbl_lookup_erase_some _ hq)

theorem table_sub_close_connection_no_notify {cf0 cf : ConnForwarder} (h : TableSub cf0 cf)
    (p : Nat) : TableSub cf0 (close_connection_no_notify cf p) := by
  unfold ConnForward.close_connection_no_notify
  cases cf.heap[p]? with
  | none => exact h
  | some c => exact table_sub_connections_remove (table_sub_set_conn h p _) c.id

theorem table_sub_close_connection {cf0 cf : ConnForwarder} (h : TableSub cf0 cf) (p : Nat) :
    TableSub cf0 (close_connection cf p) := by
  unfold ConnForward.close_connection
  cases cf.heap[p]? with
  | none => exact h
  | some c => exact table_sub_close_connection_no_notify (table_sub_send_command h _) p

theorem table_sub_foldl_unref (ps : List Nat) {cf0 : ConnForwarder} :
    ∀ cf, TableSub cf0 cf → TableSub cf0 (ps.foldl ConnForward.unref_connection cf) := by
  induction ps with
  | nil => intro cf h; exact h
  | cons q ps ih => intro cf h; exact ih _ (table_sub_unref_connection h q)

theorem table_sub_connection_read_callback {K : Consts} {cf0 cf cf1 : ConnForwarder}
    (h : TableSub cf0 cf) {p : Nat} {r : Option (List Nat)}
    (hr : connection_read_callback K cf p r = Except.ok cf1) : TableSub cf0 cf1 :=
  connection_read_callback_inv (I := TableSub cf0) (fun _ p c hi => table_sub_set_conn hi p c)
    (fun _ m hi => table_sub_send_command hi m) (fun _ p hi => table_sub_unref_connection hi p)
    (fun _ p hi => table_sub_close_connection hi p) h hr

theorem table_sub_connection_write_callback {cf0 cf cf1 : ConnForwarder}
    (h : TableSub cf0 cf) {p : Nat} {r : Option Nat}
    (hr : connection_write_callback cf p r = Except.ok cf1) : TableSub cf0 cf1 :=
  connection_write_callback_inv (I := TableSub cf0) (fun _ p c hi => table_sub_set_conn hi p c)
    (fun _ m hi => table_sub_send_command hi m) (fun _ p hi => table_sub_unref_connection hi p)
    (fun _ p hi => table_sub_close_connection hi p) h hr

theorem table_sub_connection_connect_callback {cf0 cf cf1 : ConnForwarder}
    (h : TableSub cf0 cf) {p : Nat} {ok : Bool}
    (hr : connection_connect_callback cf p ok = Except.ok cf1) : TableSub cf0 cf1 :=
  connection_connect_callback_inv (I := TableSub cf0)
    (fun _ p c hi => table_sub_set_conn hi p c)
    (fun _ m hi => table_sub_send_command hi m) (fun _ p hi => table_sub_unref_connection hi p)
    (fun _ p hi => table_sub_close_connection hi p) h hr

theorem table_sub_handle_data {cf0 cf cf1 : ConnForwarder} (h : TableSub cf0 cf) {id : Nat}
    {payload : List Nat} (hr : handle_data cf id payload = Except.ok cf1) : TableSub cf0 cf1 :=
  handle_data_inv (I := TableSub cf0) (fun _ p c hi => table_sub_set_conn hi p c) h hr

theorem table_sub_handle_ack {cf0 cf cf1 : ConnForwarder} (h : TableSub cf0 cf)
    {id size winSize : Nat} (hr : handle_ack cf id size winSize = Except.ok cf1) :
    TableSub cf0 cf1 :=
  handle_ack_inv (I := TableSub cf0) (fun _ p c hi => table_sub_set_conn hi p c) h hr

theorem table_sub_handle_close {cf0 cf : ConnForwarder} (h : TableSub cf0 cf) (id : Nat) :
    TableSub cf0 (handle_close cf id) := by
  unfold ConnForward.handle_close
  split
  · exact table_sub_close_connection_no_notify h _
  · exact h

theorem handle_accepted_eq (cf : ConnForwarder) (id listenId winSize : Nat) :
    handle_accepted cf id listenId winSize =
      accepted_connect (accepted_prior cf id) id listenId winSize := rfl

theorem accepted_prior_sub (cf : ConnForwarder) (id : Nat) : TableSub cf (accepted_prior cf id) := by
  unfold accepted_prior
  split
  · exact table_sub_close_connection_no_notify (table_sub_refl cf) _
  · exact table_sub_refl cf

theorem accepted_prior_quiet (cf : ConnForwarder) (id : Nat) :
    HeapQuiet cf.heap (accepted_prior cf id).heap := by
  unfold accepted_prior
  split
  · exact close_connection_no_notify_quiet _ _
  · exact heap_quiet_refl _

theorem accepted_connect_connections {cfa cf1 : ConnForwarder} {id listenId winSize : Nat}
    (h : accepted_connect cfa id listenId winSize = Except.ok cf1) :
    cf1.connections = tbl_insert cfa.connections id cfa.heap.length := by
  unfold accepted_connect at h
  split at h
  · cases h
  · simp only [alloc] at h
    split at h
    · simp only [Except.ok.injEq] at h
      subst h
      rw [connections_insert_connections]
    · simp only [Except.ok.injEq] at h
      subst h
      show (connections_insert _ id cfa.heap.length).connections = _
      rw [connections_insert_connections]

theorem handle_accepted_connections {cf cf1 : ConnForwarder} {id listenId winSize : Nat}
    (h : handle_accepted cf id listenId winSize = Except.ok cf1) :
    ∃ cfa, TableSub cf cfa ∧ cf1.connections = tbl_insert cfa.connections id cf.heap.length := by
  rw [handle_accepted_eq] at h
  refine ⟨accepted_prior cf id, accepted_prior_sub cf id, ?_⟩
  rw [accepted_connect_connections h, (accepted_prior_quiet cf id).1]

/-- The entries of the connections table after a turn of the main loop: an
entry is an entry of the table before it, or the entry of the object the turn
created (by an accept, under the new id of `generate_connection_id`, or by an
ACCEPTED message, under the id of the message). -/
theorem step_connections {K : Consts} {cf cf1 : ConnForwarder} {e : Event}
    (h : step K cf e = Except.ok cf1) (k q : Nat) (hq : tbl_lookup cf1.connections k = some q) :
    tbl_lookup cf.connections k = some q ∨
    (q = cf.heap.length ∧
      ((∃ host, e = Event.accept_done (some host) ∧ k = (cf.seq + U32 - 1) % U32) ∨
       (∃ listenId winSize, e = Event.message (InMsg.accepted k listenId winSize)))) := by
  cases e with
  | associate_remote rule =>
    simp only [ConnForward.step, Except.ok.injEq] at h
    subst h
    left
    cases ht : tokenize_redirection rule with
    | none =>
      unfold conn_forwarder_associate_remote at hq
      rw [ht] at hq
      exact hq
    | some t =>
      obtain ⟨bind, g, hh, hp⟩ := t
      rw [associate_remote_of_tokenize K cf rule bind g hh hp ht] at hq
      exact hq
  | associate_local rule res =>
    simp only [ConnForward.step, Except.ok.injEq] at h
    subst h
    left
    unfold conn_forwarder_associate_local at hq
    cases ht : tokenize_redirection rule with
    | none => rw [ht] at hq; exact hq
    | some t =>
      obtain ⟨bind, g, hh, hp⟩ := t
      rw [ht] at hq
      cases res <;> exact hq
  | agent_disconnected =>
    simp only [ConnForward.step, Except.ok.injEq] at h
    subst h
    have hs : TableSub { cf with remote_assocs := [], connections := [] }
        (conn_forwarder_agent_disconnected cf) :=
      table_sub_foldl_unref _ _ (table_sub_refl _)
    have := hs k q hq
    simp [tbl_lookup] at this
  | message m =>
    simp only [ConnForward.step] at h
    split at h
    · cases m with
      | accepted id listenId winSize =>
        obtain ⟨cfa, hsub, hcon⟩ := handle_accepted_connections h
        rw [hcon] at hq
        by_cases hk : k = id
        · subst hk
          rw [tbl_lookup_insert_self] at hq
          injection hq with hq
          exact Or.inr ⟨hq.symm, Or.inr ⟨listenId, winSize, rfl⟩⟩
        · rw [tbl_lookup_insert_ne _ _ hk] at hq
          exact Or.inl (hsub k q hq)
      | data id payload =>
        exact Or.inl (table_sub_handle_data (table_sub_refl cf) h k q hq)
      | close id =>
        simp only [conn_forwarder_handle_message, Except.ok.injEq] at h
        subst h
        exact Or.inl (table_sub_handle_close (table_sub_refl cf) _ k q hq)
      | ack id size winSize =>
        exact Or.inl (table_sub_handle_ack (table_sub_refl cf) h k q hq)
      | other command =>
        simp only [conn_forwarder_handle_message, Except.ok.injEq] at h
        subst h
        exact Or.inl hq
    · cases h
  | accept_done r =>
    simp only [ConnForward.step] at h
    split at h
    · simp only [Except.ok.injEq] at h
      subst h
      cases r with
      | none => exact Or.inl hq
      | some host =>
        rw [listener_accept_callback_connections] at hq
        by_cases hk : k = (cf.seq + U32 - 1) % U32
        · rw [hk] at hq
          erw [tbl_lookup_insert_self] at hq
          injection hq with hq
          exact Or.inr ⟨hq.symm, Or.inl ⟨host, rfl, hk⟩⟩
        · erw [tbl_lookup_insert_ne _ _ hk] at hq
          exact Or.inl hq
    · cases h
  | read_done p r =>
    simp only [ConnForward.step] at h
    repeat' split at h
    all_goals first
      | exact Or.inl (table_sub_connection_read_callback
           (table_sub_set_conn (table_sub_refl cf) _ _) h k q hq)
      | cases h
  | write_done p r =>
    simp only [ConnForward.step] at h
    repeat' split at h
    all_goals first
      | exact Or.inl (table_sub_connection_write_callback
           (table_sub_set_conn (table_sub_refl cf) _ _) h k q hq)
      | cases h
  | connect_done p ok =>
    simp only [ConnForward.step] at h
    repeat' split at h
    all_goals first
      | exact Or.inl (table_sub_connection_connect_callback
           (table_sub_set_conn (table_sub_refl cf) _ _) h k q hq)
      | cases h

theorem quiet_id {c c1 : Connection} (h : Quiet c c1) : c1.id = c.id := by
  unfold Quiet at h
  rw [h]

theorem cell_step_id {K : Consts} {cf : ConnForwarder} {e : Event} {j : Nat}
    {c c0 : Connection} (h : CellStep K cf e j c c0) : c0.id = c.id := by
  cases h with
  | quiet => rfl
  | data id _ payload _ hl hwf hcon hconn => rfl
  | ack id size winSize _ _ hl hs hw hconn =>
    unfold ack_cell
    split
    · rfl
    · split <;> rfl
  | read_quiet _ r _ hr => rfl
  | read_data _ bytes _ hr hb hne hcan hconn => rfl
  | write_err => rfl
  | write_ok _ n _ buf hw hn => rfl
  | connect _ ok _ hp =>
    unfold connect_cell
    split
    · rfl
    · split <;> rfl

theorem table_ids_init : TableIds conn_forwarder_new := by
  intro k q hq
  simp [conn_forwarder_new, tbl_lookup] at hq

theorem table_ids_step {K : Consts} (cf : ConnForwarder) (e : Event) (cf1 : ConnForwarder)
    (hi : TableValid cf ∧ TableIds cf) (h : step K cf e = Except.ok cf1) :
    TableValid cf1 ∧ TableIds cf1 := by
  obtain ⟨htv, hids⟩ := hi
  have htv1 := table_valid_step cf e cf1 htv h
  refine ⟨htv1, ?_⟩
  intro k q hq
  have hlt := htv1 k q hq
  obtain ⟨c1, hc1⟩ : ∃ c1, cf1.heap[q]? = some c1 := ⟨_, List.getElem?_eq_getElem hlt⟩
  refine ⟨c1, hc1, ?_⟩
  rcases step_connections h k q hq with hold | ⟨hq0, hnew⟩
  · obtain ⟨c, hc, hid⟩ := hids k q hold
    rcases step_cells h q c1 hc1 with ⟨c2, c0, hc2, hs, hqu⟩ | ⟨hnone, _⟩
    · rw [hc] at hc2
      injection hc2 with hc2
      subst hc2
      rw [quiet_id hqu, cell_step_id hs, hid]
    · rw [hc] at hnone
      cases hnone
  · subst hq0
    rcases hnew with ⟨host, he, hk⟩ | ⟨listenId, winSize, he⟩
    · subst he
      have h1 := step_accept h
      have h2 := (listener_accept_callback_new K { cf with accepts := cf.accepts - 1 } host htv).1
      rw [← h1] at h2
      have h3 : cf1.heap[cf.heap.length]? = _ := h2
      rw [hc1] at h3
      injection h3 with h3
      rw [h3, hk]
      rfl
    · subst he
      simp only [ConnForward.step] at h
      split at h
      · have hq2 := handle_accepted_quiet h
        obtain ⟨c2, hc2, hqu⟩ := hq2.2 cf.heap.length (accepted_cell k winSize) (by simp)
        rw [hc1] at hc2
        injection hc2 with hc2
        subst hc2
        rw [quiet_id hqu]
        rfl
      · cases h

theorem reachable_table_ids {K : Consts} {cf : ConnForwarder} (h : Reachable K cf) :
    TableIds cf := by
  obtain ⟨evs, hrun⟩ := h
  exact (@run_invariant K (fun cf => TableValid cf ∧ TableIds cf) table_ids_step evs _ _
    ⟨table_valid_init, table_ids_init⟩ hrun).2

/-! ## Local ids and the ids of the agent -/

theorem accept_count_append (a b : List Event) :
    accept_count (a ++ b) = accept_count a + accept_count b := by
  induction a with
  | nil => simp [accept_count]
  | cons e es ih =>
    cases e with
    | accept_done r =>
      cases r with
      | none => simpa [accept_count] using ih
      | some host =>
        show accept_count (es ++ b) + 1 = accept_count es + 1 + accept_count b
        rw [ih]
        omega
    | _ => simpa [accept_count] using ih

theorem listener_accept_callback_seq (K : Consts) (cf : ConnForwarder) (host : AddressPort) :
    (listener_accept_callback K cf (some host)).seq = (cf.seq + U32 - 1) % U32 := by
  unfold listener_accept_callback
  simp only [generate_connection_id, alloc, send_command, connections_insert_seq]

/-- One turn of the main loop keeps the ids apart, as long as an ACCEPTED
message carries an id below `B` and the local ids stay at or above `B`. -/
theorem ids_apart_step {K : Consts} {B n : Nat} {cf cf1 : ConnForwarder} {e : Event}
    (hi : IdsApart B n cf) (h : step K cf e = Except.ok cf1)
    (hB : accepted_below B [e] = true) (hn : n + accept_count [e] + B ≤ U32) :
    IdsApart B (n + accept_count [e]) cf1 := by
  obtain ⟨hseq, hkeys⟩ := hi
  by_cases he : ∃ host, e = Event.accept_done (some host)
  · obtain ⟨host, he⟩ := he
    subst he
    have hc : accept_count [Event.accept_done (some host)] = 1 := rfl
    rw [hc] at hn ⊢
    have h1 := step_accept h
    have hseq1 : cf1.seq = (cf.seq + U32 - 1) % U32 := by
      rw [h1, listener_accept_callback_seq]
    have hid : (cf.seq + U32 - 1) % U32 = U32 - (n + 1) := by
      rw [hseq]
      unfold U32 at hn ⊢
      omega
    refine ⟨?_, ?_⟩
    · rw [hseq1, hid]
      unfold U32 at hn ⊢
      omega
    · intro k q hq
      rcases step_connections h k q hq with hold | ⟨_, hnew⟩
      · rcases hkeys k q hold with hk | hk
        · exact Or.inl hk
        · exact Or.inr ⟨by omega, hk.2⟩
      · rcases hnew with ⟨_, _, hk⟩ | ⟨l, w, he⟩
        · right
          rw [hk, hid]
          unfold U32 at hn ⊢
          omega
        · cases he
  · have hc : accept_count [e] = 0 := by
      cases e with
      | accept_done r =>
        cases r with
        | none => rfl
        | some host => exact absurd ⟨host, rfl⟩ he
      | _ => rfl
    rw [hc] at hn ⊢
    refine ⟨?_, ?_⟩
    · rw [step_seq cf e cf1 h (fun host hx => he ⟨host, hx⟩)]
      exact hseq
    · intro k q hq
      rcases step_connections h k q hq with hold | ⟨_, hnew⟩
      · exact hkeys k q hold
      · rcases hnew with ⟨host, hx, _⟩ | ⟨l, w, hx⟩
        · exact absurd ⟨host, hx⟩ he
        · subst hx
          simp only [accepted_below, Bool.and_true, decide_eq_true_eq] at hB
          exact Or.inl hB

theorem accepted_below_cons (B : Nat) (e : Event) (es : List Event) :
    accepted_below B (e :: es) = (accepted_below B [e] && accepted_below B es) := by
  cases e with
  | message m =>
    cases m <;> simp [accepted_below]
  | _ => simp [accepted_below]

theorem accept_count_cons (e : Event) (es : List Event) :
    accept_count (e :: es) = accept_count [e] + accept_count es :=
  accept_count_append [e] es

theorem run_ids_apart {K : Consts} {B : Nat} (evs : List Event) :
    ∀ (n : Nat) (cf cf1 : ConnForwarder), IdsApart B n cf → run K cf evs = Except.ok cf1 →
      accepted_below B evs = true → n + accept_count evs + B ≤ U32 →
      IdsApart B (n + accept_count evs) cf1 := by
  induction evs with
  | nil =>
    intro n cf cf1 hi h _ _
    simp only [run, Except.ok.injEq] at h
    subst h
    exact hi
  | cons e es ih =>
    intro n cf cf1 hi h hB hn
    simp only [run] at h
    rw [accepted_below_cons, Bool.and_eq_true] at hB
    rw [accept_count_cons] at hn ⊢
    cases hs : step K cf e with
    | error x => rw [hs] at h; cases h
    | ok cf2 =>
      rw [hs] at h
      have h2 := ids_apart_step hi hs hB.1 (by omega)
      have h3 := ih _ cf2 cf1 h2 h hB.2 (by omega)
      rw [Nat.add_assoc] at h3
      exact h3

theorem ids_apart_init (B : Nat) : IdsApart B 0 conn_forwarder_new := by
  refine ⟨?_, ?_⟩
  · show 0 = (U32 - 0) % U32
    unfold U32
    omega
  · intro k q hq
    simp [conn_forwarder_new, tbl_lookup] at hq

/-- In a reachable state an ACCEPTED message changes no entry of the
connections table but the one of its own id. -/
theorem handle_accepted_other {cf cf1 : ConnForwarder} {id listenId winSize : Nat}
    (hids : TableIds cf) (h : handle_accepted cf id listenId winSize = Except.ok cf1)
    {k : Nat} (hk : k ≠ id) : tbl_lookup cf1.connections k = tbl_lookup cf.connections k := by
  rw [handle_accepted_eq] at h
  rw [accepted_connect_connections h, tbl_lookup_insert_ne _ _ hk]
  unfold accepted_prior
  cases hl : tbl_lookup cf.connections id with
  | none => rfl
  | some q =>
    obtain ⟨c, hc, hid⟩ := hids id q hl
    show tbl_lookup (close_connection_no_notify cf q).connections k = _
    rw [close_connection_no_notify_connections hc, hid, tbl_lookup_erase_ne _ hk]


/-- C12, as stated, fails: nothing keeps the ids of the agent away from the
local ids. After `ACCEPTED{id = 0xFFFFFFFF}` the table holds the connection of
the agent (pointer 0) under the id that `generate_connection_id` hands out
next, and the accept replaces it by the local connection (pointer 1); with the
accept first, the table holds the local connection (pointer 0) under
`0xFFFFFFFF` and the ACCEPTED message displaces it: it is cancelled, released,
and the entry points to the connection of the agent (pointer 1). -/
theorem local_id_collides :
    (run flexdp conn_forwarder_new (clash_rules ++ [clash_accepted]) =
        Except.ok (run_state flexdp (clash_rules ++ [clash_accepted])) ∧
      (generate_connection_id (run_state flexdp (clash_rules ++ [clash_accepted]))).2 =
        4294967295 ∧
      tbl_lookup (run_state flexdp (clash_rules ++ [clash_accepted])).connections 4294967295 =
        some 0 ∧
      step flexdp (run_state flexdp (clash_rules ++ [clash_accepted])) clash_accept =
        Except.ok (run_state flexdp (clash_rules ++ [clash_accepted, clash_accept])) ∧
      (run_state flexdp (clash_rules ++ [clash_accepted, clash_accept])).connections =
        [(4294967295, 1)]) ∧
    (run flexdp conn_forwarder_new (clash_rules ++ [clash_accept]) =
        Except.ok (run_state flexdp (clash_rules ++ [clash_accept])) ∧
      (run_state flexdp (clash_rules ++ [clash_accept])).connections = [(4294967295, 0)] ∧
      (run_state flexdp (clash_rules ++ [clash_accept])).heap =
        [new_open_connection 4294967295 (WINDOW_SIZE / 2)] ∧
      step flexdp (run_state flexdp (clash_rules ++ [clash_accept])) clash_accepted =
        Except.ok (run_state flexdp (clash_rules ++ [clash_accept, clash_accepted])) ∧
      (run_state flexdp (clash_rules ++ [clash_accept, clash_accepted])).connections =
        [(4294967295, 1)] ∧
      (run_state flexdp (clash_rules ++ [clash_accept, clash_accepted])).heap =
        [{ new_open_connection 4294967295 (WINDOW_SIZE / 2) with
            cancelled := true, refs := 0, freed := true },
         accepted_cell 4294967295 8]) :=
  ⟨⟨by rfl, by rfl, by rfl, by rfl, by rfl⟩, ⟨by rfl, by rfl, by rfl, by rfl, by rfl, by rfl⟩⟩

/-- C12, amended: in a state reached by a run in which every ACCEPTED message
carries an id below `B` and fewer than `2^32 - B` local connections were
accepted, the id the next accepted local connection gets is
`2^32 - (n + 1)` after `n` accepts, it is at least `B` and not in the
connections table, the accept adds its entry and replaces none, and an
ACCEPTED message with an id below `B` leaves the entry of every id from `B`
upwards, so of every local id, as it is. -/
theorem local_ids_fresh (K : Consts) (B : Nat) (evs : List Event) (cf : ConnForwarder)
    (hrun : run K conn_forwarder_new evs = Except.ok cf)
    (hB : accepted_below B evs = true) (hn : accept_count evs + B < U32) :
    (generate_connection_id cf).2 = U32 - (accept_count evs + 1) ∧
    B ≤ (generate_connection_id cf).2 ∧
    tbl_lookup cf.connections (generate_connection_id cf).2 = none ∧
    (∀ host cf1, step K cf (Event.accept_done (some host)) = Except.ok cf1 →
      cf1.connections = ((generate_connection_id cf).2, cf.heap.length) :: cf.connections) ∧
    (∀ id listenId winSize cf1, id < B →
      step K cf (Event.message (InMsg.accepted id listenId winSize)) = Except.ok cf1 →
      ∀ k, B ≤ k → tbl_lookup cf1.connections k = tbl_lookup cf.connections k) := by
  have hi := run_ids_apart evs 0 conn_forwarder_new cf (ids_apart_init B) hrun hB
    (by omega)
  rw [Nat.zero_add] at hi
  obtain ⟨hseq, hkeys⟩ := hi
  have hid : (generate_connection_id cf).2 = U32 - (accept_count evs + 1) := by
    show (cf.seq + U32 - 1) % U32 = _
    rw [hseq]
    unfold U32 at hn ⊢
    omega
  have hfresh : tbl_lookup cf.connections (generate_connection_id cf).2 = none := by
    cases hl : tbl_lookup cf.connections (generate_connection_id cf).2 with
    | none => rfl
    | some q =>
      rcases hkeys _ q hl with hk | hk
      · rw [hid] at hk
        omega
      · rw [hid] at hk
        unfold U32 at hn hk
        omega
  refine ⟨hid, by rw [hid]; omega, hfresh, ?_, ?_⟩
  · intro host cf1 h
    rw [step_accept h, listener_accept_callback_connections]
    show tbl_insert cf.connections (generate_connection_id cf).2 cf.heap.length = _
    unfold tbl_insert
    rw [tbl_erase_absent _ _ hfresh]
  · intro id listenId winSize cf1 hlt h k hk
    simp only [ConnForward.step] at h
    split at h
    · exact handle_accepted_other (reachable_table_ids ⟨evs, hrun⟩) h (by omega)
    · cases h

/-- The amended claim on a run with an ACCEPTED message of id 5 and one local
accept, with the bound `B = 100`. -/
theorem local_ids_fresh_witness :
    (run flexdp conn_forwarder_new apart_events = Except.ok (run_state flexdp apart_events) ∧
     accepted_below 100 apart_events = true ∧ accept_count apart_events + 100 < U32) ∧
    (generate_connection_id (run_state flexdp apart_events)).2 =
      U32 - (accept_count apart_events + 1) ∧
    100 ≤ (generate_connection_id (run_state flexdp apart_events)).2 ∧
    tbl_lookup (run_state flexdp apart_events).connections
      (generate_connection_id (run_state flexdp apart_events)).2 = none ∧
    (∀ host cf1,
      step flexdp (run_state flexdp apart_events) (Event.accept_done (some host)) =
        Except.ok cf1 →
      cf1.connections =
        ((generate_connection_id (run_state flexdp apart_events)).2,
          (run_state flexdp apart_events).heap.length) ::
          (run_state flexdp apart_events).connections) ∧
    (∀ id listenId winSize cf1, id < 100 →
      step flexdp (run_state flexdp apart_events)
        (Event.message (InMsg.accepted id listenId winSize)) = Except.ok cf1 →
      ∀ k, 100 ≤ k → tbl_lookup cf1.connections k =
        tbl_lookup (run_state flexdp apart_events).connections k) :=
  ⟨⟨by rfl, by decide, by decide⟩,
   local_ids_fresh flexdp 100 apart_events (run_state flexdp apart_events)
    (by rfl) (by decide) (by decide)⟩

/-! ## Claims on the inbound messages -/

theorem accepted_prior_absent {cf : ConnForwarder} {id : Nat}
    (hid : tbl_lookup cf.connections id = none) : accepted_prior cf id = cf := by
  unfold accepted_prior
  rw [hid]

/-- The state after `handle_accepted` when no connection is stored under the id
and the port is associated: the new object is appended to the heap and entered
in the table. -/
theorem accepted_connect_fresh {cf : ConnForwarder} {id listenId winSize : Nat} {a : AddressPort}
    (ha : tbl_lookup cf.remote_assocs listenId = some a)
    (hid : tbl_lookup cf.connections id = none) :
    accepted_connect cf id listenId winSize =
      Except.ok { cf with heap := cf.heap ++ [accepted_cell id winSize],
                          connections := (id, cf.heap.length) :: cf.connections } := by
  unfold accepted_connect
  rw [ha]
  simp only [alloc]
  unfold connections_insert
  simp only [hid]
  have hget : (cf.heap ++ [new_connection_with_socket id (winSize / 2)])[cf.heap.length]? =
      some (new_connection_with_socket id (winSize / 2)) := by simp
  simp only [hget, set_conn]
  congr 1
  have hset : (cf.heap ++ [new_connection_with_socket id (winSize / 2)]).set cf.heap.length
      (accepted_cell id winSize) = cf.heap ++ [accepted_cell id winSize] := by simp
  simp only [tbl_insert, tbl_erase_absent _ _ hid]
  congr 1

/-- C13: for an ACCEPTED message whose `listenId` is associated and whose `id`
is not in the connections table, `handle_accepted` sends no command and enters
under `id` a new connection that is connecting, with
`ack_interval = winSize / 2`, `data_sent = data_received = 0`, an empty write
queue and two references (the table and the connect in flight); every other
entry of the table and every other object are unchanged. -/
theorem accepted_creates_connecting (cf : ConnForwarder) (id listenId winSize : Nat)
    (a : AddressPort) (ha : tbl_lookup cf.remote_assocs listenId = some a)
    (hid : tbl_lookup cf.connections id = none) :
    ∃ cf1 c, handle_accepted cf id listenId winSize = Except.ok cf1 ∧
      cf1.sent = cf.sent ∧
      tbl_lookup cf1.connections id = some cf.heap.length ∧
      cf1.heap[cf.heap.length]? = some c ∧
      c.id = id ∧ c.connecting = true ∧ c.connect_pending = true ∧
      c.ack_interval = winSize / 2 ∧ c.data_sent = 0 ∧ c.data_received = 0 ∧
      c.write_buffer = [] ∧ c.refs = 2 ∧
      (∀ k, k ≠ id → tbl_lookup cf1.connections k = tbl_lookup cf.connections k) ∧
      (∀ (j : Nat) (c0 : Connection), cf.heap[j]? = some c0 → cf1.heap[j]? = some c0) ∧
      cf1.remote_assocs = cf.remote_assocs := by
  refine ⟨{ cf with heap := cf.heap ++ [accepted_cell id winSize],
                     connections := (id, cf.heap.length) :: cf.connections },
    accepted_cell id winSize, ?_, ?_⟩
  · rw [handle_accepted_eq, accepted_prior_absent hid]
    exact accepted_connect_fresh ha hid
  · refine ⟨rfl, ?_, ?_, rfl, rfl, rfl, rfl, rfl, rfl, rfl, rfl, ?_, ?_, rfl⟩
    · simp [tbl_lookup]
    · simp
    · intro k hk
      have hk2 : id ≠ k := fun h => hk h.symm
      simp [tbl_lookup, hk2]
    · intro j c0 hc0
      show (cf.heap ++ [accepted_cell id winSize])[j]? = some c0
      rw [List.getElem?_append_left (heap_lt_of_get hc0)]
      exact hc0

theorem accepted_creates_connecting_witness :
    (tbl_lookup remote_rule_state.remote_assocs 7000 = some { port := 80, address := "host".toList } ∧
     tbl_lookup remote_rule_state.connections 1 = none) ∧
    ∃ cf1 c, handle_accepted remote_rule_state 1 7000 8 = Except.ok cf1 ∧
      cf1.sent = remote_rule_state.sent ∧
      tbl_lookup cf1.connections 1 = some remote_rule_state.heap.length ∧
      cf1.heap[remote_rule_state.heap.length]? = some c ∧
      c.id = 1 ∧ c.connecting = true ∧ c.connect_pending = true ∧
      c.ack_interval = 8 / 2 ∧ c.data_sent = 0 ∧ c.data_received = 0 ∧
      c.write_buffer = [] ∧ c.refs = 2 ∧
      (∀ k, k ≠ 1 → tbl_lookup cf1.connections k = tbl_lookup remote_rule_state.connections k) ∧
      (∀ (j : Nat) (c0 : Connection), remote_rule_state.heap[j]? = some c0 → cf1.heap[j]? = some c0) ∧
      cf1.remote_assocs = remote_rule_state.remote_assocs :=
  ⟨⟨by decide, by decide⟩,
   accepted_creates_connecting remote_rule_state 1 7000 8 { port := 80, address := "host".toList }
    (by decide) (by decide)⟩

theorem accepted_prior_remote_assocs (cf : ConnForwarder) (id : Nat) :
    (accepted_prior cf id).remote_assocs = cf.remote_assocs := by
  unfold accepted_prior
  split
  · exact close_connection_no_notify_remote_assocs _ _
  · rfl

theorem accepted_prior_sent (cf : ConnForwarder) (id : Nat) :
    (accepted_prior cf id).sent = cf.sent := by
  unfold accepted_prior
  split
  · exact close_connection_no_notify_sent _ _
  · rfl

/-- An ACCEPTED message whose `listenId` has no association stops the handler
at the read of `local->address`, whatever the state: no command is sent. -/
theorem handle_accepted_unassociated (cf : ConnForwarder) (id listenId winSize : Nat)
    (ha : tbl_lookup cf.remote_assocs listenId = none) :
    handle_accepted cf id listenId winSize = Except.error Stop.fault := by
  rw [handle_accepted_eq]
  unfold accepted_connect
  rw [accepted_prior_remote_assocs, ha]

/-- C14, on the code: the message `ACCEPTED{id = 42, listenId = 9999}` arrives in
the state with the one rule `7000:host:80`, so port 9999 has no association.
`handle_accepted` reads `local->address` for its debug line before it tests
`local`, and the handler stops there: the turn yields no next state, and the
CLOSE of the `else` branch is never sent. -/
theorem accepted_unassociated_faults :
    Reachable flexdp remote_rule_state ∧
    tbl_lookup remote_rule_state.remote_assocs 9999 = none ∧
    (InMsg.accepted 42 9999 8).wf = true ∧
    step flexdp remote_rule_state (Event.message (InMsg.accepted 42 9999 8)) =
      Except.error Stop.fault ∧
    ∀ cf1, step flexdp remote_rule_state (Event.message (InMsg.accepted 42 9999 8)) ≠
      Except.ok cf1 :=
  ⟨⟨[Event.associate_remote "7000:host:80".toList], by rfl⟩, by decide, by decide, by rfl,
   fun cf1 h => by
    have h2 : step flexdp remote_rule_state (Event.message (InMsg.accepted 42 9999 8)) =
      Except.error Stop.fault := by rfl
    rw [h2] at h
    cases h⟩

/-- The state after `close_connection_no_notify` on a connection that the table
holds under its id. -/
theorem close_connection_no_notify_eq {cf : ConnForwarder} {q : Nat} {c : Connection}
    (hc : cf.heap[q]? = some c) (hl : tbl_lookup cf.connections c.id = some q) :
    close_connection_no_notify cf q =
      { cf with connections := tbl_erase cf.connections c.id,
                heap := cf.heap.set q (closed_cell c) } := by
  unfold close_connection_no_notify
  rw [hc]
  dsimp only
  unfold connections_remove
  have h1 : tbl_lookup (set_conn cf q { c with cancelled := true }).connections c.id = some q := hl
  rw [h1]
  dsimp only
  unfold unref_connection
  have h2 : ({ set_conn cf q { c with cancelled := true } with
      connections := tbl_erase (set_conn cf q { c with cancelled := true }).connections c.id }
      : ConnForwarder).heap[q]? = some { c with cancelled := true } := heap_set_self _ hc
  rw [h2]
  simp only [set_conn, heap_set_set, closed_cell]

/-- C15: in a reachable state, an ACCEPTED message whose `id` is in the
connections table and whose `listenId` is associated closes the connection
stored under the id without notification (its token is fired, the reference of
the table is released, its entry is removed, and no command is sent) and goes
on: afterwards the table holds under the id a new object, a connection that is
connecting, with `ack_interval = winSize / 2` and its connect armed; the
entries of the other ids are unchanged. -/
theorem accepted_duplicate_id (K : Consts) (cf : ConnForwarder) (id listenId winSize q : Nat)
    (a : AddressPort) (hr : Reachable K cf)
    (ha : tbl_lookup cf.remote_assocs listenId = some a)
    (hid : tbl_lookup cf.connections id = some q) :
    ∃ cf1 c, handle_accepted cf id listenId winSize = Except.ok cf1 ∧
      cf1.sent = cf.sent ∧
      cf.heap[q]? = some c ∧ cf1.heap[q]? = some (closed_cell c) ∧
      (closed_cell c).cancelled = true ∧
      q ≠ cf.heap.length ∧
      tbl_lookup cf1.connections id = some cf.heap.length ∧
      cf1.heap[cf.heap.length]? = some (accepted_cell id winSize) ∧
      (accepted_cell id winSize).connecting = true ∧
      (accepted_cell id winSize).ack_interval = winSize / 2 ∧
      (∀ k, k ≠ id → tbl_lookup cf1.connections k = tbl_lookup cf.connections k) := by
  obtain ⟨c, hc, hcid⟩ := reachable_table_ids hr id q hid
  have hlt : q < cf.heap.length := heap_lt_of_get hc
  have hprior : accepted_prior cf id =
      { cf with connections := tbl_erase cf.connections id,
                heap := cf.heap.set q (closed_cell c) } := by
    unfold accepted_prior
    rw [hid]
    dsimp only
    rw [close_connection_no_notify_eq hc (by rw [hcid]; exact hid), hcid]
  have hfresh := @accepted_connect_fresh
    { cf with connections := tbl_erase cf.connections id,
              heap := cf.heap.set q (closed_cell c) } id listenId winSize a ha
    (tbl_lookup_erase_self _ _)
  refine ⟨{ cf with connections := (id, (cf.heap.set q (closed_cell c)).length) ::
                       tbl_erase cf.connections id,
                     heap := cf.heap.set q (closed_cell c) ++ [accepted_cell id winSize] },
    c, ?_, ?_⟩
  · rw [handle_accepted_eq, hprior]
    exact hfresh
  · refine ⟨rfl, hc, ?_, rfl, by omega, ?_, ?_, rfl, rfl, ?_⟩
    · show (cf.heap.set q (closed_cell c) ++ [accepted_cell id winSize])[q]? = _
      rw [List.getElem?_append_left (by simpa using hlt)]
      exact heap_set_self _ hc
    · simp [tbl_lookup]
    · show (cf.heap.set q (closed_cell c) ++ [accepted_cell id winSize])[cf.heap.length]? = _
      simp
    · intro k hk
      have hk2 : id ≠ k := fun h => hk h.symm
      show tbl_lookup ((id, (cf.heap.set q (closed_cell c)).length) ::
        tbl_erase cf.connections id) k = _
      simp only [tbl_lookup, hk2, if_false]
      exact tbl_lookup_erase_ne _ hk

theorem accepted_duplicate_id_witness :
    (Reachable flexdp accepted_state ∧
     tbl_lookup accepted_state.remote_assocs 7000 =
       some { port := 80, address := "host".toList } ∧
     tbl_lookup accepted_state.connections 1 = some 0) ∧
    ∃ cf1 c, handle_accepted accepted_state 1 7000 6 = Except.ok cf1 ∧
      cf1.sent = accepted_state.sent ∧
      accepted_state.heap[0]? = some c ∧ cf1.heap[0]? = some (closed_cell c) ∧
      (closed_cell c).cancelled = true ∧
      0 ≠ accepted_state.heap.length ∧
      tbl_lookup cf1.connections 1 = some accepted_state.heap.length ∧
      cf1.heap[accepted_state.heap.length]? = some (accepted_cell 1 6) ∧
      (accepted_cell 1 6).connecting = true ∧
      (accepted_cell 1 6).ack_interval = 6 / 2 ∧
      (∀ k, k ≠ 1 → tbl_lookup cf1.connections k = tbl_lookup accepted_state.connections k) :=
  ⟨⟨⟨[Event.associate_remote "7000:host:80".toList, Event.message (InMsg.accepted 1 7000 8)],
      by rfl⟩, by decide, by decide⟩,
   accepted_duplicate_id flexdp accepted_state 1 7000 6 0 { port := 80, address := "host".toList }
    ⟨[Event.associate_remote "7000:host:80".toList, Event.message (InMsg.accepted 1 7000 8)],
      by rfl⟩ (by decide) (by decide)⟩

/-- C16: a DATA message for an id that is not in the connections table, a DATA
message for a connection that is still connecting, and an ACK message for an id
that is not in the table leave the forwarder as it is: the table, every
connection (write queue, `data_sent`, `data_received`, `ack_interval`, state,
reference count, armed reads and writes) and the list of commands sent are
unchanged. -/
theorem dropped_messages (cf : ConnForwarder) (id : Nat) :
    (tbl_lookup cf.connections id = none →
      ∀ payload, conn_forwarder_handle_message cf (InMsg.data id payload) = Except.ok cf) ∧
    (∀ p c, tbl_lookup cf.connections id = some p → cf.heap[p]? = some c →
      c.connecting = true →
      ∀ payload, conn_forwarder_handle_message cf (InMsg.data id payload) = Except.ok cf) ∧
    (tbl_lookup cf.connections id = none →
      ∀ size winSize,
        conn_forwarder_handle_message cf (InMsg.ack id size winSize) = Except.ok cf) := by
  refine ⟨?_, ?_, ?_⟩
  · intro hl payload
    show handle_data cf id payload = Except.ok cf
    unfold handle_data
    rw [hl]
  · intro p c hl hc hcon payload
    show handle_data cf id payload = Except.ok cf
    unfold handle_data
    rw [hl]
    dsimp only
    rw [hc]
    dsimp only
    rw [if_pos hcon]
  · intro hl size winSize
    show handle_ack cf id size winSize = Except.ok cf
    unfold handle_ack
    rw [hl]

theorem dropped_messages_witness :
    (tbl_lookup accepted_state.connections 2 = none ∧
      conn_forwarder_handle_message accepted_state (InMsg.data 2 [104, 105]) =
        Except.ok accepted_state) ∧
    (tbl_lookup accepted_state.connections 1 = some 0 ∧
      accepted_state.heap[0]? = some (accepted_cell 1 8) ∧
      (accepted_cell 1 8).connecting = true ∧
      conn_forwarder_handle_message accepted_state (InMsg.data 1 [104, 105]) =
        Except.ok accepted_state) ∧
    conn_forwarder_handle_message accepted_state (InMsg.ack 2 3 8) = Except.ok accepted_state :=
  ⟨⟨by decide, (dropped_messages accepted_state 2).1 (by decide) [104, 105]⟩,
   ⟨by decide, by decide, by decide,
    (dropped_messages accepted_state 1).2.1 0 (accepted_cell 1 8) (by decide) (by decide)
      (by decide) [104, 105]⟩,
   (dropped_messages accepted_state 2).2.2 (by decide) 3 8⟩

/-- The state after `handle_close` for an id of the table, in a state whose
table keys are the ids of the objects. -/
theorem handle_close_eq {cf : ConnForwarder} {id q : Nat} (hids : TableIds cf)
    (hid : tbl_lookup cf.connections id = some q) :
    ∃ c, cf.heap[q]? = some c ∧ c.id = id ∧
      handle_close cf id =
        { cf with connections := tbl_erase cf.connections id,
                  heap := cf.heap.set q (closed_cell c) } := by
  obtain ⟨c, hc, hcid⟩ := hids id q hid
  refine ⟨c, hc, hcid, ?_⟩
  unfold handle_close
  rw [hid]
  dsimp only
  rw [close_connection_no_notify_eq hc (by rw [hcid]; exact hid), hcid]

/-- C17: in a reachable state, a CLOSE message for an id of the connections
table fires the token of the connection, removes its entry and releases the
reference of the table; the entries of the other ids and the other objects are
unchanged, and no command is sent. -/
theorem close_removes_connection (K : Consts) (cf : ConnForwarder) (id q : Nat)
    (hr : Reachable K cf) (hid : tbl_lookup cf.connections id = some q) :
    ∃ c, cf.heap[q]? = some c ∧
      conn_forwarder_handle_message cf (InMsg.close id) = Except.ok (handle_close cf id) ∧
      (handle_close cf id).heap[q]? =
        some { c with cancelled := true, refs := c.refs - 1,
                      freed := if c.refs - 1 = 0 then true else c.freed } ∧
      tbl_lookup (handle_close cf id).connections id = none ∧
      (∀ k, k ≠ id →
        tbl_lookup (handle_close cf id).connections k = tbl_lookup cf.connections k) ∧
      (∀ j, j ≠ q → (handle_close cf id).heap[j]? = cf.heap[j]?) ∧
      (handle_close cf id).sent = cf.sent ∧
      (handle_close cf id).remote_assocs = cf.remote_assocs := by
  obtain ⟨c, hc, _, heq⟩ := handle_close_eq (reachable_table_ids hr) hid
  refine ⟨c, hc, rfl, ?_, ?_, ?_, ?_, ?_, ?_⟩
  · rw [heq]
    exact heap_set_self _ hc
  · rw [heq]
    exact tbl_lookup_erase_self _ _
  · intro k hk
    rw [heq]
    exact tbl_lookup_erase_ne _ hk
  · intro j hj
    rw [heq]
    exact heap_set_ne _ (fun h => hj h.symm)
  · rw [heq]
  · rw [heq]

theorem close_removes_connection_witness :
    (Reachable flexdp accepted_state ∧ tbl_lookup accepted_state.connections 1 = some 0) ∧
    ∃ c, accepted_state.heap[0]? = some c ∧
      conn_forwarder_handle_message accepted_state (InMsg.close 1) =
        Except.ok (handle_close accepted_state 1) ∧
      (handle_close accepted_state 1).heap[0]? =
        some { c with cancelled := true, refs := c.refs - 1,
                      freed := if c.refs - 1 = 0 then true else c.freed } ∧
      tbl_lookup (handle_close accepted_state 1).connections 1 = none ∧
      (∀ k, k ≠ 1 →
        tbl_lookup (handle_close accepted_state 1).connections k =
          tbl_lookup accepted_state.connections k) ∧
      (∀ j, j ≠ 0 → (handle_close accepted_state 1).heap[j]? = accepted_state.heap[j]?) ∧
      (handle_close accepted_state 1).sent = accepted_state.sent ∧
      (handle_close accepted_state 1).remote_assocs = accepted_state.remote_assocs :=
  ⟨⟨⟨[Event.associate_remote "7000:host:80".toList, Event.message (InMsg.accepted 1 7000 8)],
      by rfl⟩, by decide⟩,
   close_removes_connection flexdp accepted_state 1 0
    ⟨[Event.associate_remote "7000:host:80".toList, Event.message (InMsg.accepted 1 7000 8)],
      by rfl⟩ (by decide)⟩

/-- C18, as stated, fails: in the state with connection 1 in the table, the
first `CLOSE{id = 1}` removes the connection and sends nothing, the second one
finds no connection and sends a CLOSE command for id 1, so twice is not the
same as once; and a `CLOSE{id = 2}` for an id that was never in the table is
answered with a CLOSE command for id 2. -/
theorem close_twice_differs :
    tbl_lookup accepted_state.connections 1 = some 0 ∧
    (handle_close accepted_state 1).sent = accepted_state.sent ∧
    (handle_close (handle_close accepted_state 1) 1).sent =
      accepted_state.sent ++ [OutMsg.close 1] ∧
    conn_forwarder_handle_message (handle_close accepted_state 1) (InMsg.close 1) ≠
      Except.ok (handle_close accepted_state 1) ∧
    tbl_lookup accepted_state.connections 2 = none ∧
    conn_forwarder_handle_message accepted_state (InMsg.close 2) =
      Except.ok { accepted_state with sent := accepted_state.sent ++ [OutMsg.close 2] } := by
  refine ⟨by decide, by decide, by decide, ?_, by decide, by rfl⟩
  intro h
  have h2 : (handle_close (handle_close accepted_state 1) 1).sent =
      (handle_close accepted_state 1).sent := by
    have h3 : handle_close (handle_close accepted_state 1) 1 = handle_close accepted_state 1 :=
      Except.ok.inj h
    rw [h3]
  revert h2
  decide

/-- C18, amended: a CLOSE message for an id that is not in the connections
table is answered with one CLOSE command for that id and changes nothing else;
so, in a reachable state, handling the same `CLOSE{id}` a second time is
handling it once and then sending one CLOSE command for the id. -/
theorem close_twice (K : Consts) (cf : ConnForwarder) (id : Nat) (hr : Reachable K cf) :
    (tbl_lookup cf.connections id = none →
      conn_forwarder_handle_message cf (InMsg.close id) =
        Except.ok (send_command cf (OutMsg.close id))) ∧
    tbl_lookup (handle_close cf id).connections id = none ∧
    conn_forwarder_handle_message (handle_close cf id) (InMsg.close id) =
      Except.ok (send_command (handle_close cf id) (OutMsg.close id)) := by
  have hnone : ∀ cf0 : ConnForwarder, tbl_lookup cf0.connections id = none →
      handle_close cf0 id = send_command cf0 (OutMsg.close id) := by
    intro cf0 h0
    unfold handle_close
    rw [h0]
    rfl
  have hgone : tbl_lookup (handle_close cf id).connections id = none := by
    cases hl : tbl_lookup cf.connections id with
    | none =>
      rw [hnone cf hl]
      exact hl
    | some q =>
      obtain ⟨c, _, _, heq⟩ := handle_close_eq (reachable_table_ids hr) hl
      rw [heq]
      exact tbl_lookup_erase_self _ _
  refine ⟨fun hl => ?_, hgone, ?_⟩
  · show Except.ok (handle_close cf id) = _
    rw [hnone cf hl]
  · show Except.ok (handle_close (handle_close cf id) id) = _
    rw [hnone _ hgone]

theorem close_twice_witness :
    Reachable flexdp accepted_state ∧
    ((tbl_lookup accepted_state.connections 1 = none →
      conn_forwarder_handle_message accepted_state (InMsg.close 1) =
        Except.ok (send_command accepted_state (OutMsg.close 1))) ∧
    tbl_lookup (handle_close accepted_state 1).connections 1 = none ∧
    conn_forwarder_handle_message (handle_close accepted_state 1) (InMsg.close 1) =
      Except.ok (send_command (handle_close accepted_state 1) (OutMsg.close 1))) :=
  ⟨⟨[Event.associate_remote "7000:host:80".toList, Event.message (InMsg.accepted 1 7000 8)],
      by rfl⟩,
   close_twice flexdp accepted_state 1
    ⟨[Event.associate_remote "7000:host:80".toList, Event.message (InMsg.accepted 1 7000 8)],
      by rfl⟩⟩

/-- C19, on the code: in scenario S1 the connection has a read and a write in
flight when the peer goes away. The read completes with end of stream:
`connection_read_callback` sends `CLOSE{id}`, fires the token and removes the
entry. Then the write fails: `connection_write_callback` does not look at the
token and calls `close_connection` again, so `CLOSE{id}` is sent a second
time. With the two completions in the other order the read callback finds the
token fired and one CLOSE is sent. -/
theorem close_emitted_twice :
    run flexdp conn_forwarder_new reset_events = Except.ok (run_state flexdp reset_events) ∧
    (run_state flexdp echo_events).connections = [(4294967295, 0)] ∧
    (run_state flexdp (echo_events ++ [Event.read_done 0 (some [])])).connections = [] ∧
    (run_state flexdp (echo_events ++ [Event.read_done 0 (some [])])).sent =
      (run_state flexdp echo_events).sent ++ [OutMsg.close 4294967295] ∧
    (run_state flexdp reset_events).sent =
      (run_state flexdp echo_events).sent ++
        [OutMsg.close 4294967295, OutMsg.close 4294967295] ∧
    (run_state flexdp reset_events).sent.count (OutMsg.close 4294967295) = 2 ∧
    (run_state flexdp
      (echo_events ++ [Event.write_done 0 none, Event.read_done 0 (some [])])).sent.count
        (OutMsg.close 4294967295) = 1 :=
  ⟨by rfl, by decide, by decide, by decide, by decide, by decide, by decide⟩

/-- The state after `handle_ack` for a connection of the table that has its
socket connection when a read is armed. -/
theorem handle_ack_at {cf : ConnForwarder} {id p : Nat} {c : Connection} (size winSize : Nat)
    (hl : tbl_lookup cf.connections id = some p) (hc : cf.heap[p]? = some c)
    (hconn : c.connecting = true ∨
      ((c.data_sent + U32 - size % U32) % U32 < WINDOW_SIZE ∧ c.data_sent ≥ WINDOW_SIZE) →
        c.conn = true) :
    handle_ack cf id size winSize = Except.ok (set_conn cf p (ack_cell c size winSize)) := by
  unfold handle_ack
  rw [hl]
  dsimp only
  rw [hc]
  dsimp only
  unfold ack_cell
  by_cases hcon : c.connecting = true
  · rw [if_pos hcon, if_pos hcon]
    have hc2 : (set_conn cf p
        { c with connecting := false, ack_interval := winSize / 2,
                 refs := c.refs + 1 }).heap[p]? =
        some { c with connecting := false, ack_interval := winSize / 2,
                      refs := c.refs + 1 } := heap_set_self _ hc
    rw [program_read_ok hc2 (hconn (Or.inl hcon))]
    simp only [set_conn, heap_set_set]
  · rw [if_neg hcon, if_neg hcon]
    by_cases hw : (c.data_sent + U32 - size % U32) % U32 < WINDOW_SIZE ∧
        c.data_sent ≥ WINDOW_SIZE
    · rw [if_pos hw, if_pos hw]
      have hc2 : (set_conn cf p
          { c with data_sent := (c.data_sent + U32 - size % U32) % U32,
                   refs := c.refs + 1 }).heap[p]? =
          some { c with data_sent := (c.data_sent + U32 - size % U32) % U32,
                        refs := c.refs + 1 } := heap_set_self _ hc
      rw [program_read_ok hc2 (hconn (Or.inr hw))]
      simp only [set_conn, heap_set_set]
    · rw [if_neg hw, if_neg hw]

/-- An ACK that arms a read on a connection of the table without socket
connection is a NULL dereference in `program_read`. -/
theorem handle_ack_fault {cf : ConnForwarder} {id p : Nat} {c : Connection} (size winSize : Nat)
    (hl : tbl_lookup cf.connections id = some p) (hc : cf.heap[p]? = some c)
    (harm : c.connecting = true ∨
      ((c.data_sent + U32 - size % U32) % U32 < WINDOW_SIZE ∧ c.data_sent ≥ WINDOW_SIZE))
    (hconn : c.conn = false) :
    handle_ack cf id size winSize = Except.error Stop.fault := by
  unfold handle_ack
  rw [hl]
  dsimp only
  rw [hc]
  dsimp only
  by_cases hcon : c.connecting = true
  · rw [if_pos hcon]
    have hc2 : (set_conn cf p
        { c with connecting := false, ack_interval := winSize / 2,
                 refs := c.refs + 1 }).heap[p]? =
        some { c with connecting := false, ack_interval := winSize / 2,
                      refs := c.refs + 1 } := heap_set_self _ hc
    exact program_read_fault hc2 hconn
  · rw [if_neg hcon]
    have hw : (c.data_sent + U32 - size % U32) % U32 < WINDOW_SIZE ∧
        c.data_sent ≥ WINDOW_SIZE := by
      rcases harm with h | h
      · exact absurd h hcon
      · exact h
    rw [if_pos hw]
    have hc2 : (set_conn cf p
        { c with data_sent := (c.data_sent + U32 - size % U32) % U32,
                 refs := c.refs + 1 }).heap[p]? =
        some { c with data_sent := (c.data_sent + U32 - size % U32) % U32,
                      refs := c.refs + 1 } := heap_set_self _ hc
    exact program_read_fault hc2 hconn

/-- C20, as stated, fails: the connection of scenario S2 is open with
`data_sent = 0`; the message `ACK{size = 1}` leaves it in the table, not
cancelled, sends nothing, and sets `data_sent` to `2^32 - 1`. -/
theorem ack_beyond_sent_wraps :
    run flexdp conn_forwarder_new
      (stall_open ++ [Event.message (InMsg.ack 4294967295 1 20971520)]) =
      Except.ok (run_state flexdp
        (stall_open ++ [Event.message (InMsg.ack 4294967295 1 20971520)])) ∧
    tbl_lookup (run_state flexdp stall_open).connections 4294967295 = some 0 ∧
    (run_state flexdp stall_open).heap[0]? = some stall_conn ∧
    stall_conn.connecting = false ∧ stall_conn.data_sent = 0 ∧
    (run_state flexdp
      (stall_open ++ [Event.message (InMsg.ack 4294967295 1 20971520)])).connections =
      (run_state flexdp stall_open).connections ∧
    (run_state flexdp
      (stall_open ++ [Event.message (InMsg.ack 4294967295 1 20971520)])).sent =
      (run_state flexdp stall_open).sent ∧
    (run_state flexdp
      (stall_open ++ [Event.message (InMsg.ack 4294967295 1 20971520)])).heap[0]? =
      some { stall_conn with data_sent := 4294967295 } :=
  ⟨by rfl, by decide, by decide, by decide, by decide, by decide, by decide, by rfl⟩

/-- C20, amended: for a connection of the table that is open, an ACK message
whose `size` exceeds `data_sent` is not checked. The connection stays in the
table, its token is not fired and no command is sent; `data_sent` wraps around
to `data_sent + 2^32 - size`, which is above the old value, and a read is armed
when the old value was at or above the window and the new one is below it. -/
theorem ack_beyond_sent (cf : ConnForwarder) (id size winSize p : Nat) (c : Connection)
    (hl : tbl_lookup cf.connections id = some p) (hc : cf.heap[p]? = some c)
    (hopen : c.connecting = false) (hds : c.data_sent < U32) (hsz : size < U32)
    (hgt : c.data_sent < size) :
    ∃ c1, conn_forwarder_handle_message cf (InMsg.ack id size winSize) =
        Except.ok { cf with heap := cf.heap.set p c1 } ∧
      c1.data_sent = c.data_sent + U32 - size ∧ c.data_sent < c1.data_sent ∧
      c1.cancelled = c.cancelled ∧ c1.connecting = false ∧
      c1.reads =
        (if c1.data_sent < WINDOW_SIZE ∧ WINDOW_SIZE ≤ c.data_sent ∧ c.conn = true
          then c.reads + 1 else c.reads) := by
  have hmod : (c.data_sent + U32 - size % U32) % U32 = c.data_sent + U32 - size := by
    unfold U32 at hds hsz ⊢
    omega
  have hnw : ¬ ((c.data_sent + U32 - size % U32) % U32 < WINDOW_SIZE ∧
      c.data_sent ≥ WINDOW_SIZE) := by
    rw [hmod]
    intro hw
    omega
  have hncon : ¬ c.connecting = true := by rw [hopen]; decide
  refine ⟨ack_cell c size winSize, ?_, ?_⟩
  · show handle_ack cf id size winSize = _
    rw [handle_ack_at size winSize hl hc (fun hx => by
      rcases hx with hx | hx
      · exact absurd hx hncon
      · exact absurd hx hnw)]
    rfl
  · unfold ack_cell
    rw [if_neg hncon, hmod]
    by_cases hw : c.data_sent + U32 - size < WINDOW_SIZE ∧ c.data_sent ≥ WINDOW_SIZE
    · exfalso
      omega
    · rw [if_neg hw]
      refine ⟨rfl, by show c.data_sent < c.data_sent + U32 - size; omega, rfl, hopen, ?_⟩
      show c.reads = _
      rw [if_neg (fun h => hw ⟨h.1, h.2.1⟩)]

theorem ack_beyond_sent_witness :
    (tbl_lookup (run_state flexdp stall_open).connections 4294967295 = some 0 ∧
     (run_state flexdp stall_open).heap[0]? = some stall_conn ∧
     stall_conn.connecting = false ∧ stall_conn.data_sent < U32 ∧ 1 < U32 ∧
     stall_conn.data_sent < 1) ∧
    ∃ c1, conn_forwarder_handle_message (run_state flexdp stall_open)
        (InMsg.ack 4294967295 1 20971520) =
        Except.ok { run_state flexdp stall_open with
          heap := (run_state flexdp stall_open).heap.set 0 c1 } ∧
      c1.data_sent = stall_conn.data_sent + U32 - 1 ∧ stall_conn.data_sent < c1.data_sent ∧
      c1.cancelled = stall_conn.cancelled ∧ c1.connecting = false ∧
      c1.reads =
        (if c1.data_sent < WINDOW_SIZE ∧ WINDOW_SIZE ≤ stall_conn.data_sent ∧
            stall_conn.conn = true
          then stall_conn.reads + 1 else stall_conn.reads) :=
  ⟨⟨by decide, by decide, by decide, by decide, by decide, by decide⟩,
   ack_beyond_sent (run_state flexdp stall_open) 4294967295 1 20971520 0 stall_conn
    (by decide) (by decide) (by decide) (by decide) (by decide) (by decide)⟩

/-! ## Claims on the disconnection of the agent -/

/-- C22, on the code: `conn_forwarder_agent_disconnected` empties the table, which
releases one reference of each connection, and fires no token: the connection
of scenario S1 stays with `cancelled = false` and its read and write in
flight. The read that completes afterwards with three bytes sends a DATA
message for the id, the write that completes sends an ACK for it, and for an
announced connection the connect that completes sends `ACK{id, 0, WINDOW_SIZE}`. -/
theorem disconnect_fires_no_token :
    run flexdp conn_forwarder_new (disconnect_events ++ [Event.read_done 0 (some [1, 2, 3])]) =
      Except.ok (run_state flexdp (disconnect_events ++ [Event.read_done 0 (some [1, 2, 3])])) ∧
    (run_state flexdp disconnect_events).connections = [] ∧
    (run_state flexdp disconnect_events).heap =
      [{ echo_conn with write_buffer := [[104, 101, 108]], writing := some [104, 101, 108] }] ∧
    echo_conn.cancelled = false ∧
    (run_state flexdp (disconnect_events ++ [Event.read_done 0 (some [1, 2, 3])])).sent =
      (run_state flexdp disconnect_events).sent ++ [OutMsg.data 4294967295 3 [1, 2, 3] 11] ∧
    (run_state flexdp (disconnect_events ++ [Event.write_done 0 (some 3)])).sent =
      (run_state flexdp disconnect_events).sent ++ [OutMsg.ack 4294967295 3 4] ∧
    (run_state flexdp disconnect_connecting).connections = [] ∧
    (run_state flexdp disconnect_connecting).heap =
      [{ accepted_cell 1 8 with refs := 1 }] ∧
    (run_state flexdp (disconnect_connecting ++ [Event.connect_done 0 true])).sent =
      (run_state flexdp disconnect_connecting).sent ++ [OutMsg.ack 1 0 WINDOW_SIZE] :=
  ⟨by rfl, by decide, by decide, by decide, by decide, by decide, by decide, by decide,
   by decide⟩

/-- C24, on the code: the handler of inbound messages faults on peer input. In a
new forwarder, which has no association, every ACCEPTED message stops
`handle_accepted` at the read of `local->address`; so does
`ACCEPTED{id = 42, listenId = 9999}` in the reachable state with the one rule
`7000:host:80`. And `ACK{id = 1}` for the connection announced by
`ACCEPTED{id = 1}`, whose connect has not completed (`conn` is NULL), makes
`handle_ack` call `program_read` on it, which stops at the read of the input
stream of the NULL `conn`. -/
theorem handle_message_faults :
    (∀ id listenId winSize,
      conn_forwarder_handle_message conn_forwarder_new (InMsg.accepted id listenId winSize) =
        Except.error Stop.fault) ∧
    Reachable flexdp remote_rule_state ∧
    conn_forwarder_handle_message remote_rule_state (InMsg.accepted 42 9999 8) =
      Except.error Stop.fault ∧
    Reachable flexdp accepted_state ∧
    accepted_state.heap = [accepted_cell 1 8] ∧
    (accepted_cell 1 8).conn = false ∧
    (accepted_cell 1 8).connecting = true ∧
    tbl_lookup accepted_state.connections 1 = some 0 ∧
    (InMsg.ack 1 0 8).wf = true ∧
    conn_forwarder_handle_message accepted_state (InMsg.ack 1 0 8) =
      Except.error Stop.fault :=
  ⟨fun id listenId winSize => handle_accepted_unassociated conn_forwarder_new id listenId winSize rfl,
   ⟨[Event.associate_remote "7000:host:80".toList], by rfl⟩, by rfl,
   ⟨[Event.associate_remote "7000:host:80".toList, Event.message (InMsg.accepted 1 7000 8)],
     by rfl⟩,
   by decide, by decide, by decide, by decide, by decide, by rfl⟩

/-! ## Claims on the ACK message and on the completions -/

/-- C25, as stated, fails: for the open connection of scenario S2, with
`data_sent = 0`, `ACK{size = 1}` sets `data_sent` to `2^32 - 1`. And the
connection announced by `ACCEPTED{id = 1}` is in the table and connecting, and
its connect has not completed (`conn` is NULL): `ACK{id = 1}` arms no read,
the call of `program_read` stops at the NULL `conn`. -/
theorem ack_connecting_arms_no_read :
    tbl_lookup (run_state flexdp stall_open).connections 4294967295 = some 0 ∧
    (run_state flexdp stall_open).heap[0]? = some stall_conn ∧
    stall_conn.connecting = false ∧ stall_conn.data_sent = 0 ∧
    handle_ack (run_state flexdp stall_open) 4294967295 1 20971520 =
      Except.ok { run_state flexdp stall_open with
        heap := [{ stall_conn with data_sent := 4294967295 }] } ∧
    tbl_lookup accepted_state.connections 1 = some 0 ∧
    accepted_state.heap[0]? = some (accepted_cell 1 8) ∧
    (accepted_cell 1 8).connecting = true ∧ (accepted_cell 1 8).conn = false ∧
    handle_ack accepted_state 1 0 8 = Except.error Stop.fault :=
  ⟨by decide, by decide, by decide, by decide, by rfl, by decide, by decide, by decide,
   by decide, by rfl⟩

/-- C25, amended: for an ACK message whose id is in the connections table and
whose connection has its socket connection, no command is sent, the table and
the other objects are unchanged, and: a connection that is connecting becomes
open, `ack_interval` becomes `winSize / 2`, a reference is taken, one read is
armed and `data_sent` is unchanged; for an open connection `data_sent` becomes
`data_sent - size` modulo `2^32` (`data_sent - size` when `size <= data_sent`),
and a read is armed, with a reference taken, exactly when `data_sent` was at
least `WINDOW_SIZE` before and is below it afterwards. -/
theorem ack_updates_connection (cf : ConnForwarder) (id size winSize p : Nat) (c : Connection)
    (hl : tbl_lookup cf.connections id = some p) (hc : cf.heap[p]? = some c)
    (hconn : c.conn = true) (hsz : size < U32) (hds : c.data_sent < U32) :
    ∃ c1, conn_forwarder_handle_message cf (InMsg.ack id size winSize) =
        Except.ok { cf with heap := cf.heap.set p c1 } ∧
      (c.connecting = true →
        c1 = { c with connecting := false, ack_interval := winSize / 2, refs := c.refs + 1,
                      reads := c.reads + 1 }) ∧
      (c.connecting = false →
        (size ≤ c.data_sent → c1.data_sent = c.data_sent - size) ∧
        (c.data_sent < size → c1.data_sent = c.data_sent + U32 - size) ∧
        (WINDOW_SIZE ≤ c.data_sent ∧ c1.data_sent < WINDOW_SIZE →
          c1 = { c with data_sent := c1.data_sent, refs := c.refs + 1, reads := c.reads + 1 }) ∧
        (¬ (WINDOW_SIZE ≤ c.data_sent ∧ c1.data_sent < WINDOW_SIZE) →
          c1 = { c with data_sent := c1.data_sent })) := by
  refine ⟨ack_cell c size winSize, ?_, ?_, ?_⟩
  · show handle_ack cf id size winSize = _
    rw [handle_ack_at size winSize hl hc (fun _ => hconn)]
    rfl
  · intro hcon
    unfold ack_cell
    rw [if_pos hcon]
  · intro hcon
    have hmod1 : size ≤ c.data_sent →
        (c.data_sent + U32 - size % U32) % U32 = c.data_sent - size := by
      intro hle
      unfold U32 at hds hsz ⊢
      omega
    have hmod2 : c.data_sent < size →
        (c.data_sent + U32 - size % U32) % U32 = c.data_sent + U32 - size := by
      intro hlt
      unfold U32 at hds hsz ⊢
      omega
    unfold ack_cell
    rw [if_neg (by rw [hcon]; decide)]
    by_cases hw : (c.data_sent + U32 - size % U32) % U32 < WINDOW_SIZE ∧
        c.data_sent ≥ WINDOW_SIZE
    · rw [if_pos hw]
      refine ⟨hmod1, hmod2, fun _ => rfl, fun hn => absurd ⟨hw.2, hw.1⟩ hn⟩
    · rw [if_neg hw]
      refine ⟨hmod1, hmod2, fun hx => absurd ⟨hx.2, hx.1⟩ hw, fun _ => rfl⟩

/-- The amended claim on the ACK of the handshake of scenario S1. -/
theorem ack_updates_connection_witness :
    (tbl_lookup (run_state flexdp echo_accepted).connections 4294967295 = some 0 ∧
     (run_state flexdp echo_accepted).heap[0]? = some echo_new ∧
     echo_new.conn = true ∧ 0 < U32 ∧ echo_new.data_sent < U32) ∧
    ∃ c1, conn_forwarder_handle_message (run_state flexdp echo_accepted)
        (InMsg.ack 4294967295 0 4) =
        Except.ok { run_state flexdp echo_accepted with
          heap := (run_state flexdp echo_accepted).heap.set 0 c1 } ∧
      (echo_new.connecting = true →
        c1 = { echo_new with connecting := false, ack_interval := 4 / 2,
                             refs := echo_new.refs + 1, reads := echo_new.reads + 1 }) ∧
      (echo_new.connecting = false →
        (0 ≤ echo_new.data_sent → c1.data_sent = echo_new.data_sent - 0) ∧
        (echo_new.data_sent < 0 → c1.data_sent = echo_new.data_sent + U32 - 0) ∧
        (WINDOW_SIZE ≤ echo_new.data_sent ∧ c1.data_sent < WINDOW_SIZE →
          c1 = { echo_new with data_sent := c1.data_sent, refs := echo_new.refs + 1,
                               reads := echo_new.reads + 1 }) ∧
        (¬ (WINDOW_SIZE ≤ echo_new.data_sent ∧ c1.data_sent < WINDOW_SIZE) →
          c1 = { echo_new with data_sent := c1.data_sent })) :=
  ⟨⟨by decide, by decide, by decide, by decide, by decide⟩,
   ack_updates_connection (run_state flexdp echo_accepted) 4294967295 0 4 0 echo_new
    (by decide) (by decide) (by decide) (by decide) (by decide)⟩

/-! ## Reads are armed on socket connections -/

theorem armed_quiet (c c1 : Connection) (h : Armed c) (hq : Quiet c c1) : Armed c1 := by
  unfold Quiet at hq
  rw [hq]
  exact h

theorem armed_new (c : Connection) (h : CellNew c) : Armed c := by
  rcases h with ⟨id, rfl⟩ | ⟨id, w, hw, rfl⟩
  · exact ⟨fun _ => rfl, fun hx => (by cases hx), by show 0 < U32; unfold U32; omega⟩
  · exact ⟨fun hx => absurd hx (Nat.lt_irrefl 0), fun _ => rfl, by show 0 < U32; unfold U32; omega⟩

theorem armed_cell_step {K : Consts} {cf : ConnForwarder} {e : Event} {j : Nat}
    {c c0 : Connection} (h : Armed c) (hs : CellStep K cf e j c c0) : Armed c0 := by
  obtain ⟨a1, a2, a3⟩ := h
  have hmod : ∀ x : Nat, x % U32 < U32 := fun x => Nat.mod_lt _ (by unfold U32; omega)
  cases hs with
  | quiet => exact ⟨a1, a2, a3⟩
  | data id _ payload _ hl hwf hcon hconn => exact ⟨a1, a2, a3⟩
  | ack id size winSize _ _ hl hsz hw hconn =>
    unfold ack_cell
    split
    · rename_i hcon
      exact ⟨fun _ => hconn (Or.inl hcon), a2, a3⟩
    · split
      · rename_i hw2
        exact ⟨fun _ => hconn (Or.inr hw2), a2, hmod _⟩
      · exact ⟨a1, a2, hmod _⟩
  | read_quiet _ r _ hr =>
    exact ⟨fun _ => a1 hr, a2, a3⟩
  | read_data _ bytes _ hr hb hne hcan hconn =>
    exact ⟨fun _ => a1 hr, a2, hmod _⟩
  | write_err => exact ⟨a1, a2, a3⟩
  | write_ok _ n _ buf hw hn => exact ⟨a1, a2, a3⟩
  | connect _ ok _ hp =>
    have hconn := a2 hp
    have hr0 : c.reads = 0 := by
      rcases Nat.eq_zero_or_pos c.reads with h0 | h0
      · exact h0
      · rw [a1 h0] at hconn
        cases hconn
    unfold connect_cell
    split
    · exact ⟨a1, fun hx => (by cases hx), a3⟩
    · split
      · exact ⟨fun _ => rfl, fun hx => (by cases hx), a3⟩
      · refine ⟨fun hx => ?_, fun hx => (by cases hx), a3⟩
        have hx2 : 0 < c.reads := hx
        omega

theorem step_armed {K : Consts} (cf : ConnForwarder) (e : Event) (cf1 : ConnForwarder)
    (hall : HeapAll Armed cf) (h : step K cf e = Except.ok cf1) : HeapAll Armed cf1 :=
  heap_all_step armed_quiet armed_new (fun _ _ _ _ hp hs => armed_cell_step hp hs) hall h

theorem reachable_armed {K : Consts} {cf : ConnForwarder} (h : Reachable K cf) :
    HeapAll Armed cf := by
  obtain ⟨evs, hrun⟩ := h
  exact run_invariant step_armed evs _ _ (heap_all_init _) hrun

/-- C26: in a reachable state, a read in flight on a connection whose token is
not fired has a socket connection to read from, so its completion with `n > 0`
bytes (`n <= BUFFER_SIZE`, and `BUFFER_SIZE` fits a `guint32`) returns; and
when it returns, one DATA command is sent, with the id of the connection,
`size = n`, length `DATA_HEAD_SIZE + n` and the `n` bytes as payload; the table
and the other objects are unchanged; `data_sent` grows by `n` (modulo `2^32`,
the width of the field); and the read is armed again exactly when the new
`data_sent` is below `WINDOW_SIZE`: then one read is in flight again and the
reference count is unchanged, otherwise no read is armed and the reference of
the completed read is released. -/
theorem read_completion_data (K : Consts) (cf : ConnForwarder) (p : Nat) (c : Connection)
    (bytes : List Nat) (hr : Reachable K cf) (hK : BUFFER_SIZE K < U32)
    (hc : cf.heap[p]? = some c) (hcan : c.cancelled = false) (hne : bytes.length ≠ 0) :
    (0 < c.reads → bytes.length ≤ BUFFER_SIZE K →
      ∃ cf1, step K cf (Event.read_done p (some bytes)) = Except.ok cf1) ∧
    ∀ cf1, step K cf (Event.read_done p (some bytes)) = Except.ok cf1 →
      bytes.length ≤ BUFFER_SIZE K ∧
      cf1.sent = cf.sent ++
        [OutMsg.data c.id bytes.length bytes (DATA_HEAD_SIZE K + bytes.length)] ∧
      cf1.connections = cf.connections ∧
      (∀ j, j ≠ p → cf1.heap[j]? = cf.heap[j]?) ∧
      ∃ c1, cf1.heap[p]? = some c1 ∧
        c1.data_sent = (c.data_sent + bytes.length) % U32 ∧
        (c.data_sent + bytes.length < U32 → c1.data_sent = c.data_sent + bytes.length) ∧
        (c1.data_sent < WINDOW_SIZE → c1.reads = c.reads ∧ c1.refs = c.refs) ∧
        (¬ c1.data_sent < WINDOW_SIZE → c1.reads = c.reads - 1 ∧ c1.refs = c.refs - 1) ∧
        c1.cancelled = false ∧ c1.write_buffer = c.write_buffer ∧
        c1.data_received = c.data_received := by
  refine ⟨fun hreads hb =>
    ⟨_, step_read_data_ok hc hcan hne hreads hb ((reachable_armed hr p c hc).1 hreads)⟩, ?_⟩
  intro cf1 h
  obtain ⟨hreads, hb, heq⟩ := step_read_data h hc hcan hne
  have hmod : bytes.length % U32 = bytes.length := Nat.mod_eq_of_lt (by omega)
  rw [hmod] at heq
  refine ⟨hb, ?_, ?_, ?_, ?_⟩
  · rw [heq]
  · rw [heq]
  · intro j hj
    rw [heq]
    exact heap_set_ne _ (fun hx => hj hx.symm)
  · refine ⟨read_cell { c with reads := c.reads - 1 } bytes, ?_, ?_, ?_, ?_, ?_, hcan, rfl, rfl⟩
    · rw [heq]
      exact heap_set_self _ hc
    · show (c.data_sent + bytes.length % U32) % U32 = _
      rw [hmod]
    · intro hlt
      show (c.data_sent + bytes.length % U32) % U32 = _
      rw [hmod]
      exact Nat.mod_eq_of_lt hlt
    · intro hlt
      have hlt2 : (c.data_sent + bytes.length % U32) % U32 < WINDOW_SIZE := hlt
      constructor
      · show (if (c.data_sent + bytes.length % U32) % U32 < WINDOW_SIZE
          then c.reads - 1 + 1 else c.reads - 1) = c.reads
        rw [if_pos hlt2]
        omega
      · show (if (c.data_sent + bytes.length % U32) % U32 < WINDOW_SIZE then c.refs
          else c.refs - 1) = c.refs
        rw [if_pos hlt2]
    · intro hge
      have hge2 : ¬ (c.data_sent + bytes.length % U32) % U32 < WINDOW_SIZE := hge
      constructor
      · show (if (c.data_sent + bytes.length % U32) % U32 < WINDOW_SIZE
          then c.reads - 1 + 1 else c.reads - 1) = c.reads - 1
        rw [if_neg hge2]
      · show (if (c.data_sent + bytes.length % U32) % U32 < WINDOW_SIZE then c.refs
          else c.refs - 1) = c.refs - 1
        rw [if_neg hge2]

/-- The claim on the first read of scenario S1 after the handshake, with three
bytes. -/
theorem read_completion_data_witness :
    (Reachable flexdp (run_state flexdp echo_open) ∧ BUFFER_SIZE flexdp < U32 ∧
     (run_state flexdp echo_open).heap[0]? = some echo_conn ∧ echo_conn.cancelled = false ∧
     [104, 105, 33].length ≠ 0 ∧ 0 < echo_conn.reads ∧
     [104, 105, 33].length ≤ BUFFER_SIZE flexdp ∧
     step flexdp (run_state flexdp echo_open) (Event.read_done 0 (some [104, 105, 33])) =
       Except.ok (run_state flexdp (echo_open ++ [Event.read_done 0 (some [104, 105, 33])]))) ∧
    (∃ cf1, step flexdp (run_state flexdp echo_open)
      (Event.read_done 0 (some [104, 105, 33])) = Except.ok cf1) ∧
    ([104, 105, 33].length ≤ BUFFER_SIZE flexdp ∧
    (run_state flexdp (echo_open ++ [Event.read_done 0 (some [104, 105, 33])])).sent =
      (run_state flexdp echo_open).sent ++
        [OutMsg.data echo_conn.id [104, 105, 33].length [104, 105, 33]
          (DATA_HEAD_SIZE flexdp + [104, 105, 33].length)] ∧
    (run_state flexdp (echo_open ++ [Event.read_done 0 (some [104, 105, 33])])).connections =
      (run_state flexdp echo_open).connections ∧
    (∀ j, j ≠ 0 →
      (run_state flexdp (echo_open ++ [Event.read_done 0 (some [104, 105, 33])])).heap[j]? =
        (run_state flexdp echo_open).heap[j]?) ∧
    ∃ c1, (run_state flexdp (echo_open ++ [Event.read_done 0 (some [104, 105, 33])])).heap[0]? =
        some c1 ∧
      c1.data_sent = (echo_conn.data_sent + [104, 105, 33].length) % U32 ∧
      (echo_conn.data_sent + [104, 105, 33].length < U32 →
        c1.data_sent = echo_conn.data_sent + [104, 105, 33].length) ∧
      (c1.data_sent < WINDOW_SIZE → c1.reads = echo_conn.reads ∧ c1.refs = echo_conn.refs) ∧
      (¬ c1.data_sent < WINDOW_SIZE →
        c1.reads = echo_conn.reads - 1 ∧ c1.refs = echo_conn.refs - 1) ∧
      c1.cancelled = false ∧ c1.write_buffer = echo_conn.write_buffer ∧
      c1.data_received = echo_conn.data_received) :=
  ⟨⟨⟨echo_open, by rfl⟩, by decide, by decide, by decide, by decide, by decide, by decide,
    by rfl⟩,
   (read_completion_data flexdp (run_state flexdp echo_open) 0 echo_conn
    [104, 105, 33] ⟨echo_open, by rfl⟩ (by decide) (by decide) (by decide) (by decide)).1
    (by decide) (by decide),
   (read_completion_data flexdp (run_state flexdp echo_open) 0 echo_conn
    [104, 105, 33] ⟨echo_open, by rfl⟩ (by decide) (by decide) (by decide) (by decide)).2
    (run_state flexdp (echo_open ++ [Event.read_done 0 (some [104, 105, 33])])) (by rfl)⟩

theorem unref_connection_eq {cf : ConnForwarder} {p : Nat} {c : Connection}
    (hc : cf.heap[p]? = some c) :
    unref_connection cf p = { cf with heap := cf.heap.set p (unref_cell c) } := by
  unfold unref_connection
  rw [hc]
  rfl

theorem quiet_data_sent {c c1 : Connection} (h : Quiet c c1) :
    c1.data_sent = c.data_sent ∧ c1.reads = c.reads := by
  unfold Quiet at h
  rw [h]
  exact ⟨rfl, rfl⟩

/-- C30: in every state reached by a run in which every ACK message for a
connection that is not connecting has a `size` of at most its `data_sent` at
that moment (and with `WINDOW_SIZE + BUFFER_SIZE` within the `guint32` range),
`data_sent < WINDOW_SIZE + BUFFER_SIZE` for every connection, a read is in
flight only while `data_sent < WINDOW_SIZE`, and none is in flight once
`data_sent` is at or above the window. A turn of such a run that takes
`data_sent` from below the window to it or above is the completion of the one
read in flight, with its bytes added, and it arms no read. -/
theorem overshoot_one_chunk (K : Consts) (hK : WINDOW_SIZE + BUFFER_SIZE K ≤ 2 ^ 32)
    (evs : List Event) (cf : ConnForwarder)
    (hrun : run K conn_forwarder_new evs = Except.ok cf)
    (hacks : acks_within K conn_forwarder_new evs = true)
    (p : Nat) (c : Connection) (hc : cf.heap[p]? = some c) :
    c.data_sent < WINDOW_SIZE + BUFFER_SIZE K ∧
    (0 < c.reads → c.data_sent < WINDOW_SIZE) ∧
    (WINDOW_SIZE ≤ c.data_sent → c.reads = 0) ∧
    ∀ e cf1 c1, ack_within cf e = true → step K cf e = Except.ok cf1 →
      cf1.heap[p]? = some c1 → c.data_sent < WINDOW_SIZE → WINDOW_SIZE ≤ c1.data_sent →
      ∃ bytes, e = Event.read_done p (some bytes) ∧ bytes.length ≤ BUFFER_SIZE K ∧
        c.reads = 1 ∧ c1.reads = 0 ∧ c1.data_sent = c.data_sent + bytes.length := by
  obtain ⟨w1, w2, w3, _⟩ := run_window hK evs _ _ (heap_all_init _) hacks hrun p c hc
  have hzero : WINDOW_SIZE ≤ c.data_sent → c.reads = 0 := by
    intro hge
    rcases Nat.eq_zero_or_pos c.reads with h0 | h0
    · exact h0
    · have := w3 h0
      omega
  refine ⟨w1, w3, hzero, ?_⟩
  intro e cf1 c1 hack hs hc1 hlt hge
  rcases step_cells hs p c1 hc1 with ⟨c2, c0, hc2, hcs, hq⟩ | ⟨hnone, _⟩
  · rw [hc] at hc2
    injection hc2 with hc2
    subst hc2
    obtain ⟨hds, hrd⟩ := quiet_data_sent hq
    rw [hds] at hge
    rw [hds, hrd]
    cases hcs with
    | quiet => exact absurd hge (by show ¬ WINDOW_SIZE ≤ c.data_sent; omega)
    | data id _ payload _ hl hwf hcon hconn =>
      exact absurd hge (by show ¬ WINDOW_SIZE ≤ c.data_sent; omega)
    | ack id size winSize _ _ hl hsz hw hconn =>
      exfalso
      simp only [ack_within, hl, hc, Bool.or_eq_true, decide_eq_true_eq] at hack
      unfold ack_cell at hge
      by_cases hcon : c.connecting = true
      · rw [if_pos hcon] at hge
        have hge2 : WINDOW_SIZE ≤ c.data_sent := hge
        omega
      · rw [if_neg hcon] at hge
        have hle : size ≤ c.data_sent := by
          rcases hack with hh | hh
          · exact absurd hh hcon
          · exact hh
        have hmod : (c.data_sent + U32 - size % U32) % U32 = c.data_sent - size := by
          unfold U32 at hsz ⊢
          unfold WINDOW_SIZE at hlt
          omega
        rw [hmod] at hge
        split at hge
        · have hge2 : WINDOW_SIZE ≤ c.data_sent - size := hge
          omega
        · have hge2 : WINDOW_SIZE ≤ c.data_sent - size := hge
          omega
    | read_quiet _ r _ hr =>
      exact absurd hge (by show ¬ WINDOW_SIZE ≤ c.data_sent; omega)
    | read_data _ bytes _ hr hb hne hcan hconn =>
      have hmod : (c.data_sent + bytes.length % U32) % U32 = c.data_sent + bytes.length := by
        unfold U32
        unfold WINDOW_SIZE at hlt hK
        omega
      have hge2 : WINDOW_SIZE ≤ (c.data_sent + bytes.length % U32) % U32 := hge
      refine ⟨bytes, rfl, hb, by omega, ?_, hmod⟩
      show (if (c.data_sent + bytes.length % U32) % U32 < WINDOW_SIZE
        then c.reads - 1 + 1 else c.reads - 1) = 0
      rw [if_neg (fun hx => by omega)]
      omega
    | write_err => exact absurd hge (by show ¬ WINDOW_SIZE ≤ c.data_sent; omega)
    | write_ok _ n _ buf hw hn =>
      exact absurd hge (by show ¬ WINDOW_SIZE ≤ c.data_sent; omega)
    | connect _ ok _ hp =>
      exfalso
      unfold connect_cell at hge
      split at hge
      · have hge2 : WINDOW_SIZE ≤ c.data_sent := hge
        omega
      · split at hge
        · have hge2 : WINDOW_SIZE ≤ c.data_sent := hge
          omega
        · have hge2 : WINDOW_SIZE ≤ c.data_sent := hge
          omega
  · rw [hc] at hnone
    cases hnone

/-- The claim after the handshake of scenario S2. -/
theorem overshoot_one_chunk_witness :
    (WINDOW_SIZE + BUFFER_SIZE flexdp ≤ 2 ^ 32 ∧
     run flexdp conn_forwarder_new stall_open = Except.ok (run_state flexdp stall_open) ∧
     acks_within flexdp conn_forwarder_new stall_open = true ∧
     (run_state flexdp stall_open).heap[0]? = some stall_conn) ∧
    (stall_conn.data_sent < WINDOW_SIZE + BUFFER_SIZE flexdp ∧
    (0 < stall_conn.reads → stall_conn.data_sent < WINDOW_SIZE) ∧
    (WINDOW_SIZE ≤ stall_conn.data_sent → stall_conn.reads = 0) ∧
    ∀ e cf1 c1, ack_within (run_state flexdp stall_open) e = true →
      step flexdp (run_state flexdp stall_open) e = Except.ok cf1 →
      cf1.heap[0]? = some c1 → stall_conn.data_sent < WINDOW_SIZE →
      WINDOW_SIZE ≤ c1.data_sent →
      ∃ bytes, e = Event.read_done 0 (some bytes) ∧ bytes.length ≤ BUFFER_SIZE flexdp ∧
        stall_conn.reads = 1 ∧ c1.reads = 0 ∧
        c1.data_sent = stall_conn.data_sent + bytes.length) :=
  ⟨⟨by decide, by rfl, by rfl, by rfl⟩,
   overshoot_one_chunk flexdp (by decide) stall_open (run_state flexdp stall_open) (by rfl)
    (by rfl) 0 stall_conn (by rfl)⟩

/-! ## The connections table has no duplicates -/

theorem tbl_lookup_of_mem {α : Type} (t : List (Nat × α)) {k : Nat} {v : α}
    (hnd : (t.map Prod.fst).Nodup) (hm : (k, v) ∈ t) : tbl_lookup t k = some v := by
  induction t with
  | nil => cases hm
  | cons e t ih =>
    obtain ⟨k1, v1⟩ := e
    simp only [List.map_cons, List.nodup_cons] at hnd
    rcases List.mem_cons.mp hm with heq | hmem
    · injection heq with h1 h2
      subst h1 h2
      simp [tbl_lookup]
    · have hne : k1 ≠ k := by
        intro hk
        subst hk
        exact hnd.1 (List.mem_map.mpr ⟨(k1, v), hmem, rfl⟩)
      simp only [tbl_lookup, hne, if_false]
      exact ih hnd.2 hmem

theorem tbl_mem_of_lookup {α : Type} (t : List (Nat × α)) {k : Nat} {v : α}
    (h : tbl_lookup t k = some v) : (k, v) ∈ t := by
  induction t with
  | nil => cases h
  | cons e t ih =>
    obtain ⟨k1, v1⟩ := e
    by_cases hk : k1 = k
    · simp only [tbl_lookup, hk, if_true] at h
      injection h with h
      subst h hk
      exact List.mem_cons_self _ _
    · simp only [tbl_lookup, hk, if_false] at h
      exact List.mem_cons_of_mem _ (ih h)

theorem tbl_erase_keys {α : Type} (t : List (Nat × α)) (k : Nat) :
    k ∉ (tbl_erase t k).map Prod.fst := by
  intro hm
  obtain ⟨e, he, hk⟩ := List.mem_map.mp hm
  unfold tbl_erase at he
  have := (List.mem_filter.mp he).2
  simp only [decide_eq_true_eq] at this
  exact this hk

theorem table_nodup_of_eq {cf cf1 : ConnForwarder} (h : TableNodup cf)
    (he : cf1.connections = cf.connections) : TableNodup cf1 := by
  unfold TableNodup
  rw [he]
  exact h

theorem table_nodup_erase {cf cf1 : ConnForwarder} (h : TableNodup cf) (k : Nat)
    (he : cf1.connections = tbl_erase cf.connections k) : TableNodup cf1 := by
  unfold TableNodup
  rw [he]
  unfold tbl_erase
  exact ⟨h.1.sublist (List.Sublist.map _ (List.filter_sublist _)),
    h.2.sublist (List.Sublist.map _ (List.filter_sublist _))⟩

theorem table_nodup_set_conn {cf : ConnForwarder} (h : TableNodup cf) (p : Nat)
    (c : Connection) : TableNodup (set_conn cf p c) := table_nodup_of_eq h rfl

theorem table_nodup_send_command {cf : ConnForwarder} (h : TableNodup cf) (m : OutMsg) :
    TableNodup (send_command cf m) := table_nodup_of_eq h rfl

theorem table_nodup_unref_connection {cf : ConnForwarder} (h : TableNodup cf) (p : Nat) :
    TableNodup (unref_connection cf p) := table_nodup_of_eq h (unref_connection_connections cf p)

theorem table_nodup_connections_remove {cf : ConnForwarder} (h : TableNodup cf) (id : Nat) :
    TableNodup (connections_remove cf id).1 :=
  table_nodup_erase h id (connections_remove_connections cf id)

theorem table_nodup_close_connection_no_notify {cf : ConnForwarder} (h : TableNodup cf)
    (p : Nat) : TableNodup (close_connection_no_notify cf p) := by
  unfold ConnForward.close_connection_no_notify
  cases cf.heap[p]? with
  | none => exact h
  | some c => exact table_nodup_connections_remove (table_nodup_set_conn h p _) c.id

theorem table_nodup_close_connection {cf : ConnForwarder} (h : TableNodup cf) (p : Nat) :
    TableNodup (close_connection cf p) := by
  unfold ConnForward.close_connection
  cases cf.heap[p]? with
  | none => exact h
  | some c => exact table_nodup_close_connection_no_notify (table_nodup_send_command h _) p

theorem table_nodup_foldl_unref (ps : List Nat) :
    ∀ cf, TableNodup cf → TableNodup (ps.foldl ConnForward.unref_connection cf) := by
  induction ps with
  | nil => intro cf h; exact h
  | cons q ps ih => intro cf h; exact ih _ (table_nodup_unref_connection h q)

theorem table_nodup_connection_read_callback {K : Consts} {cf cf1 : ConnForwarder}
    (h : TableNodup cf) {p : Nat} {r : Option (List Nat)}
    (hr : connection_read_callback K cf p r = Except.ok cf1) : TableNodup cf1 :=
  connection_read_callback_inv (I := TableNodup) (fun _ p c hi => table_nodup_set_conn hi p c)
    (fun _ m hi => table_nodup_send_command hi m)
    (fun _ p hi => table_nodup_unref_connection hi p)
    (fun _ p hi => table_nodup_close_connection hi p) h hr

theorem table_nodup_connection_write_callback {cf cf1 : ConnForwarder}
    (h : TableNodup cf) {p : Nat} {r : Option Nat}
    (hr : connection_write_callback cf p r = Except.ok cf1) : TableNodup cf1 :=
  connection_write_callback_inv (I := TableNodup) (fun _ p c hi => table_nodup_set_conn hi p c)
    (fun _ m hi => table_nodup_send_command hi m)
    (fun _ p hi => table_nodup_unref_connection hi p)
    (fun _ p hi => table_nodup_close_connection hi p) h hr

theorem table_nodup_connection_connect_callback {cf cf1 : ConnForwarder}
    (h : TableNodup cf) {p : Nat} {ok : Bool}
    (hr : connection_connect_callback cf p ok = Except.ok cf1) : TableNodup cf1 :=
  connection_connect_callback_inv (I := TableNodup)
    (fun _ p c hi => table_nodup_set_conn hi p c)
    (fun _ m hi => table_nodup_send_command hi m)
    (fun _ p hi => table_nodup_unref_connection hi p)
    (fun _ p hi => table_nodup_close_connection hi p) h hr

theorem table_nodup_handle_data {cf cf1 : ConnForwarder} (h : TableNodup cf) {id : Nat}
    {payload : List Nat} (hr : handle_data cf id payload = Except.ok cf1) : TableNodup cf1 :=
  handle_data_inv (I := TableNodup) (fun _ p c hi => table_nodup_set_conn hi p c) h hr

theorem table_nodup_handle_ack {cf cf1 : ConnForwarder} (h : TableNodup cf)
    {id size winSize : Nat} (hr : handle_ack cf id size winSize = Except.ok cf1) :
    TableNodup cf1 :=
  handle_ack_inv (I := TableNodup) (fun _ p c hi => table_nodup_set_conn hi p c) h hr

theorem table_nodup_handle_close {cf : ConnForwarder} (h : TableNodup cf) (id : Nat) :
    TableNodup (handle_close cf id) := by
  unfold ConnForward.handle_close
  split
  · exact table_nodup_close_connection_no_notify h _
  · exact h

/-- Entering a new object, whose pointer is the length of the heap, keeps the
table without duplicates. -/
theorem table_nodup_insert {cf cf1 : ConnForwarder} (h : TableNodup cf) (htv : TableValid cf)
    (id : Nat) (he : cf1.connections = tbl_insert cf.connections id cf.heap.length) :
    TableNodup cf1 := by
  have he2 : TableNodup { cf with connections := tbl_erase cf.connections id } :=
    table_nodup_erase h id rfl
  unfold TableNodup
  rw [he]
  unfold tbl_insert
  simp only [List.map_cons, List.nodup_cons]
  refine ⟨⟨tbl_erase_keys _ _, he2.1⟩, ⟨?_, he2.2⟩⟩
  intro hm
  obtain ⟨e, hmem, hv⟩ := List.mem_map.mp hm
  obtain ⟨k, v⟩ := e
  have hmem2 : (k, v) ∈ cf.connections := (List.mem_filter.mp hmem).1
  have := htv k v (tbl_lookup_of_mem _ h.1 hmem2)
  have hv2 : v = cf.heap.length := hv
  omega

theorem associate_remote_connections (K : Consts) (cf : ConnForwarder) (rule : List Char) :
    (conn_forwarder_associate_remote K cf rule).1.connections = cf.connections := by
  cases ht : tokenize_redirection rule with
  | none => unfold conn_forwarder_associate_remote; rw [ht]
  | some t =>
    obtain ⟨bind, g, h, hp⟩ := t
    rw [associate_remote_of_tokenize K cf rule bind g h hp ht]

theorem associate_local_connections (cf : ConnForwarder) (rule : List Char) (res : Bool) :
    (conn_forwarder_associate_local cf rule res).1.connections = cf.connections := by
  unfold conn_forwarder_associate_local
  cases tokenize_redirection rule with
  | none => rfl
  | some t =>
    obtain ⟨bind, g, h, hp⟩ := t
    cases res <;> rfl

theorem accepted_prior_valid {cf : ConnForwarder} (htv : TableValid cf) (id : Nat) :
    TableValid (accepted_prior cf id) := by
  unfold accepted_prior
  split
  · exact htv.close_connection_no_notify _
  · exact htv

theorem accepted_prior_nodup {cf : ConnForwarder} (h : TableNodup cf) (id : Nat) :
    TableNodup (accepted_prior cf id) := by
  unfold accepted_prior
  split
  · exact table_nodup_close_connection_no_notify h _
  · exact h

theorem table_nodup_step {K : Consts} (cf : ConnForwarder) (e : Event) (cf1 : ConnForwarder)
    (hi : TableValid cf ∧ TableNodup cf) (h : step K cf e = Except.ok cf1) :
    TableValid cf1 ∧ TableNodup cf1 := by
  obtain ⟨htv, hnd⟩ := hi
  refine ⟨table_valid_step cf e cf1 htv h, ?_⟩
  cases e with
  | associate_remote rule =>
    simp only [ConnForward.step, Except.ok.injEq] at h
    subst h
    exact table_nodup_of_eq hnd (associate_remote_connections K cf rule)
  | associate_local rule res =>
    simp only [ConnForward.step, Except.ok.injEq] at h
    subst h
    exact table_nodup_of_eq hnd (associate_local_connections cf rule res)
  | agent_disconnected =>
    simp only [ConnForward.step, Except.ok.injEq] at h
    subst h
    apply table_nodup_foldl_unref
    exact ⟨List.nodup_nil, List.nodup_nil⟩
  | message m =>
    simp only [ConnForward.step] at h
    split at h
    · cases m with
      | accepted id listenId winSize =>
        have h2 : accepted_connect (accepted_prior cf id) id listenId winSize =
            Except.ok cf1 := h
        exact table_nodup_insert (accepted_prior_nodup hnd id) (accepted_prior_valid htv id) id
          (accepted_connect_connections h2)
      | data id payload => exact table_nodup_handle_data hnd h
      | close id =>
        simp only [conn_forwarder_handle_message, Except.ok.injEq] at h
        subst h
        exact table_nodup_handle_close hnd _
      | ack id size winSize => exact table_nodup_handle_ack hnd h
      | other command =>
        simp only [conn_forwarder_handle_message, Except.ok.injEq] at h
        subst h
        exact hnd
    · cases h
  | accept_done r =>
    simp only [ConnForward.step] at h
    split at h
    · simp only [Except.ok.injEq] at h
      subst h
      cases r with
      | none => exact hnd
      | some host =>
        exact @table_nodup_insert { cf with accepts := cf.accepts - 1 } _ hnd htv _
          (listener_accept_callback_connections K _ host)
    · cases h
  | read_done p r =>
    simp only [ConnForward.step] at h
    repeat' split at h
    all_goals first
      | exact table_nodup_connection_read_callback (table_nodup_set_conn hnd _ _) h
      | cases h
  | write_done p r =>
    simp only [ConnForward.step] at h
    repeat' split at h
    all_goals first
      | exact table_nodup_connection_write_callback (table_nodup_set_conn hnd _ _) h
      | cases h
  | connect_done p ok =>
    simp only [ConnForward.step] at h
    repeat' split at h
    all_goals first
      | exact table_nodup_connection_connect_callback (table_nodup_set_conn hnd _ _) h
      | cases h

theorem reachable_table_nodup {K : Consts} {cf : ConnForwarder} (h : Reachable K cf) :
    TableNodup cf := by
  obtain ⟨evs, hrun⟩ := h
  exact (@run_invariant K (fun cf => TableValid cf ∧ TableNodup cf) table_nodup_step evs _ _
    ⟨table_valid_init, ⟨List.nodup_nil, List.nodup_nil⟩⟩ hrun).2

theorem foldl_unref_frame (ps : List Nat) :
    ∀ cf, (ps.foldl unref_connection cf).sent = cf.sent ∧
      (ps.foldl unref_connection cf).remote_assocs = cf.remote_assocs ∧
      (ps.foldl unref_connection cf).connections = cf.connections ∧
      (ps.foldl unref_connection cf).listener = cf.listener ∧
      (ps.foldl unref_connection cf).accepts = cf.accepts := by
  induction ps with
  | nil => intro cf; exact ⟨rfl, rfl, rfl, rfl, rfl⟩
  | cons q ps ih =>
    intro cf
    simp only [List.foldl_cons]
    obtain ⟨h1, h2, h3, h4, h5⟩ := ih (unref_connection cf q)
    rw [h1, h2, h3, h4, h5]
    simp

/-- The heap after `unref_connection` on each pointer of a list without
duplicates. -/
theorem foldl_unref_heap (ps : List Nat) (hnd : ps.Nodup) :
    ∀ (cf : ConnForwarder) (p : Nat) (c : Connection), cf.heap[p]? = some c →
      (p ∈ ps → (ps.foldl unref_connection cf).heap[p]? = some (unref_cell c)) ∧
      (p ∉ ps → (ps.foldl unref_connection cf).heap[p]? = some c) := by
  induction ps with
  | nil =>
    intro cf p c hc
    exact ⟨fun h => (by cases h), fun _ => hc⟩
  | cons q ps ih =>
    intro cf p c hc
    simp only [List.nodup_cons] at hnd
    simp only [List.foldl_cons]
    by_cases hq : q = p
    · subst hq
      have h1 : (unref_connection cf q).heap[q]? = some (unref_cell c) := by
        rw [unref_connection_eq hc]
        exact heap_set_self _ hc
      exact ⟨fun _ => (ih hnd.2 _ q _ h1).2 hnd.1, fun h => absurd (List.mem_cons_self _ _) h⟩
    · have h1 : (unref_connection cf q).heap[p]? = some c := by
        rw [unref_connection_heap_ne cf hq]
        exact hc
      obtain ⟨i1, i2⟩ := ih hnd.2 _ p c h1
      refine ⟨fun h => ?_, fun h => i2 (fun hx => h (List.mem_cons_of_mem _ hx))⟩
      rcases List.mem_cons.mp h with hx | hx
      · exact absurd hx.symm hq
      · exact i1 hx

/-- C21: in a reachable state, `conn_forwarder_agent_disconnected` leaves the
association map and the connections table empty and sends no command; each
connection of the table loses one reference, the one of the table (and is
released when that was its last one), its token is not touched, and the
connections that were not in the table are unchanged. -/
theorem agent_disconnected_releases (K : Consts) (cf : ConnForwarder) (hr : Reachable K cf) :
    (conn_forwarder_agent_disconnected cf).remote_assocs = [] ∧
    (conn_forwarder_agent_disconnected cf).connections = [] ∧
    (conn_forwarder_agent_disconnected cf).sent = cf.sent ∧
    ∀ (p : Nat) (c : Connection), cf.heap[p]? = some c →
      (∀ id, tbl_lookup cf.connections id = some p →
        (conn_forwarder_agent_disconnected cf).heap[p]? =
          some { c with refs := c.refs - 1,
                        freed := if c.refs - 1 = 0 then true else c.freed }) ∧
      ((∀ id, tbl_lookup cf.connections id ≠ some p) →
        (conn_forwarder_agent_disconnected cf).heap[p]? = some c) := by
  obtain ⟨hk, hv⟩ := reachable_table_nodup hr
  obtain ⟨f1, f2, f3, _, _⟩ := foldl_unref_frame (cf.connections.map (fun e => e.2))
    { cf with remote_assocs := [], connections := [] }
  refine ⟨f2, f3, f1, ?_⟩
  intro p c hc
  obtain ⟨i1, i2⟩ := foldl_unref_heap (cf.connections.map (fun e => e.2)) hv
    { cf with remote_assocs := [], connections := [] } p c hc
  refine ⟨fun id hl => ?_, fun hno => ?_⟩
  · exact i1 (List.mem_map.mpr ⟨(id, p), tbl_mem_of_lookup _ hl, rfl⟩)
  · apply i2
    intro hm
    obtain ⟨e, he, hp⟩ := List.mem_map.mp hm
    obtain ⟨k, v⟩ := e
    have hp2 : v = p := hp
    subst hp2
    exact hno k (tbl_lookup_of_mem _ hk he)

/-- The claim on scenario S1 with a read and a write in flight. -/
theorem agent_disconnected_releases_witness :
    Reachable flexdp (run_state flexdp echo_events) ∧
    ((conn_forwarder_agent_disconnected (run_state flexdp echo_events)).remote_assocs = [] ∧
    (conn_forwarder_agent_disconnected (run_state flexdp echo_events)).connections = [] ∧
    (conn_forwarder_agent_disconnected (run_state flexdp echo_events)).sent =
      (run_state flexdp echo_events).sent ∧
    ∀ (p : Nat) (c : Connection), (run_state flexdp echo_events).heap[p]? = some c →
      (∀ id, tbl_lookup (run_state flexdp echo_events).connections id = some p →
        (conn_forwarder_agent_disconnected (run_state flexdp echo_events)).heap[p]? =
          some { c with refs := c.refs - 1,
                        freed := if c.refs - 1 = 0 then true else c.freed }) ∧
      ((∀ id, tbl_lookup (run_state flexdp echo_events).connections id ≠ some p) →
        (conn_forwarder_agent_disconnected (run_state flexdp echo_events)).heap[p]? =
          some c)) :=
  ⟨⟨echo_events, by rfl⟩,
   agent_disconnected_releases flexdp (run_state flexdp echo_events) ⟨echo_events, by rfl⟩⟩

/-! ## Reference counts -/

theorem tbl_lookup_none_of_not_mem {α : Type} (t : List (Nat × α)) {k : Nat}
    (h : k ∉ t.map Prod.fst) : tbl_lookup t k = none := by
  cases hl : tbl_lookup t k with
  | none => rfl
  | some v => exact absurd (List.mem_map.mpr ⟨(k, v), tbl_mem_of_lookup t hl, rfl⟩) h

/-- Erasing the entry of an id takes one entry away from the object it pointed
to and none from the others. -/
theorem count_erase (t : List (Nat × Nat)) {id q : Nat} (hnd : (t.map Prod.fst).Nodup)
    (hl : tbl_lookup t id = some q) (p : Nat) :
    ((tbl_erase t id).map Prod.snd).count p + (if p = q then 1 else 0) =
      (t.map Prod.snd).count p := by
  induction t with
  | nil => cases hl
  | cons e t ih =>
    obtain ⟨k, v⟩ := e
    simp only [List.map_cons, List.nodup_cons] at hnd
    by_cases hk : k = id
    · subst hk
      simp only [tbl_lookup, if_true] at hl
      injection hl with hl
      subst hl
      have he : tbl_erase ((k, v) :: t) k = t := by
        have h1 : tbl_erase ((k, v) :: t) k = tbl_erase t k := by
          simp [tbl_erase]
        rw [h1, tbl_erase_absent _ _ (tbl_lookup_none_of_not_mem t hnd.1)]
      rw [he]
      simp only [List.map_cons, List.count_cons, beq_iff_eq]
      by_cases hp : p = v
      · subst hp
        simp
      · have hp2 : ¬ v = p := fun h => hp h.symm
        simp [hp, hp2]
    · simp only [tbl_lookup, hk, if_false] at hl
      have he : tbl_erase ((k, v) :: t) id = (k, v) :: tbl_erase t id := by
        simp [tbl_erase, hk]
      rw [he]
      simp only [List.map_cons, List.count_cons]
      have := ih hnd.2 hl
      omega

theorem held_pos {cf : ConnForwarder} {id p : Nat} (hl : tbl_lookup cf.connections id = some p) :
    0 < held cf p := by
  unfold held
  exact List.count_pos_iff.mpr (List.mem_map.mpr ⟨(id, p), tbl_mem_of_lookup _ hl, rfl⟩)

theorem held_fresh {cf : ConnForwarder} (htv : TableValid cf) (hnd : TableNodup cf) {p : Nat}
    (hp : cf.heap.length ≤ p) : held cf p = 0 := by
  unfold held
  apply List.count_eq_zero_of_not_mem
  intro hm
  obtain ⟨e, he, hv⟩ := List.mem_map.mp hm
  obtain ⟨k, v⟩ := e
  have := htv k v (tbl_lookup_of_mem _ hnd.1 he)
  have hv2 : v = p := hv
  omega

theorem balanced_retarget {cf : ConnForwarder} {q : Nat} (h : Balanced cf q 0) (q1 : Nat) :
    Balanced cf q1 0 := by
  obtain ⟨htv, hnd, hb⟩ := h
  refine ⟨htv, hnd, fun p c hc => ?_⟩
  obtain ⟨h1, h2⟩ := hb p c hc
  refine ⟨?_, h2⟩
  rw [h1]
  split <;> split <;> rfl

/-- A state with the same heap and table has the same balance. -/
theorem balanced_of_eq {cf cf1 : ConnForwarder} {q : Nat} {n : Int} (h : Balanced cf q n)
    (hh : cf1.heap = cf.heap) (hc : cf1.connections = cf.connections) : Balanced cf1 q n := by
  obtain ⟨htv, hnd, hb⟩ := h
  refine ⟨?_, table_nodup_of_eq hnd hc, ?_⟩
  · intro id p hl
    rw [hc] at hl
    rw [hh]
    exact htv id p hl
  · intro p c hp
    rw [hh] at hp
    unfold held
    rw [hc]
    exact hb p c hp

/-- A store through the pointer that holds the extra references. -/
theorem balanced_set {cf : ConnForwarder} {q : Nat} {n : Int} (h : Balanced cf q n)
    {c : Connection} (hc : cf.heap[q]? = some c) (c1 : Connection) (m : Int)
    (hr : c1.refs - (ops c1 : Int) = c.refs - (ops c : Int) + (m - n))
    (hf : c1.freed = true ↔ c1.refs = 0) : Balanced (set_conn cf q c1) q m := by
  obtain ⟨htv, hnd, hb⟩ := h
  refine ⟨htv.set_conn q c1, table_nodup_set_conn hnd q c1, ?_⟩
  intro p c2 hp
  by_cases hpq : p = q
  · subst hpq
    have h2 : (set_conn cf p c1).heap[p]? = some c1 := heap_set_self _ hc
    rw [h2] at hp
    injection hp with hp
    subst hp
    obtain ⟨h1, _⟩ := hb p c hc
    rw [if_pos rfl] at h1 ⊢
    refine ⟨?_, hf⟩
    have hh : held (set_conn cf p c1) p = held cf p := rfl
    rw [hh]
    omega
  · have h2 : (set_conn cf q c1).heap[p]? = cf.heap[p]? := heap_set_ne _ (fun hx => hpq hx.symm)
    rw [h2] at hp
    have := hb p c2 hp
    rw [if_neg hpq] at this ⊢
    exact this

theorem balanced_send_command {cf : ConnForwarder} {q : Nat} {n : Int} (h : Balanced cf q n)
    (m : OutMsg) : Balanced (send_command cf m) q n := balanced_of_eq h rfl rfl

/-- Releasing one of the extra references. -/
theorem balanced_unref {cf : ConnForwarder} {q : Nat} {n : Int} (h : Balanced cf q n)
    (hn : 1 ≤ n) : Balanced (unref_connection cf q) q (n - 1) := by
  cases hc : cf.heap[q]? with
  | none =>
    have he : unref_connection cf q = cf := by
      unfold unref_connection
      rw [hc]
    rw [he]
    obtain ⟨htv, hnd, hb⟩ := h
    refine ⟨htv, hnd, fun p c hp => ?_⟩
    have hpq : p ≠ q := by
      intro hx
      subst hx
      rw [hc] at hp
      cases hp
    have := hb p c hp
    rw [if_neg hpq] at this ⊢
    exact this
  | some c =>
    rw [unref_connection_eq hc]
    obtain ⟨h1, h2⟩ := h.2.2 q c hc
    rw [if_pos rfl] at h1
    have hpos : 1 ≤ c.refs := by
      have : (0 : Int) ≤ (ops c : Int) + (held cf q : Int) := by omega
      omega
    have hnf : c.freed = false := by
      cases hfr : c.freed with
      | false => rfl
      | true =>
        have := h2.mp hfr
        omega
    refine balanced_set h hc (unref_cell c) (n - 1) ?_ ?_
    · show c.refs - 1 - (ops c : Int) = _
      omega
    · show (if c.refs - 1 = 0 then true else c.freed) = true ↔ c.refs - 1 = 0
      rw [hnf]
      split <;> simp_all

/-- Arming a read on one of the extra references. -/
theorem balanced_program_read {cf cf1 : ConnForwarder} {q : Nat} {n : Int}
    (h : Balanced cf q n) {c : Connection} (hc : cf.heap[q]? = some c)
    (hr : program_read cf q = Except.ok cf1) : Balanced cf1 q (n - 1) := by
  rw [(program_read_eq hr hc).2]
  refine balanced_set h hc _ (n - 1) ?_ (h.2.2 q c hc).2
  unfold ops
  dsimp only
  push_cast
  omega

/-- `unref_connection` on an object that holds one reference beyond those of a
balanced state. -/
theorem balanced_unref_other {cfm : ConnForwarder} {q q1 : Nat} {n : Int}
    (htv : TableValid cfm) (hnd : TableNodup cfm) (hn : 0 ≤ n)
    (hb : ∀ (p : Nat) (c : Connection), cfm.heap[p]? = some c →
      c.refs = (ops c : Int) + (held cfm p : Int) + (if p = q then n else 0) +
        (if p = q1 then 1 else 0) ∧ (c.freed = true ↔ c.refs = 0)) :
    Balanced (unref_connection cfm q1) q n := by
  refine ⟨htv.unref_connection q1, table_nodup_unref_connection hnd q1, ?_⟩
  have hheld : ∀ p, held (unref_connection cfm q1) p = held cfm p := by
    intro p
    unfold held
    rw [unref_connection_connections]
  intro p c2 hp
  rw [hheld]
  cases hc : cfm.heap[q1]? with
  | none =>
    have he : unref_connection cfm q1 = cfm := by
      unfold unref_connection
      rw [hc]
    rw [he] at hp
    have hpq : p ≠ q1 := by
      intro hx
      subst hx
      rw [hc] at hp
      cases hp
    have := hb p c2 hp
    rw [if_neg hpq] at this
    refine ⟨?_, this.2⟩
    omega
  | some c =>
    rw [unref_connection_eq hc] at hp
    by_cases hpq : p = q1
    · subst hpq
      have h2 : (cfm.heap.set p (unref_cell c))[p]? = some (unref_cell c) := heap_set_self _ hc
      have hp2 : (cfm.heap.set p (unref_cell c))[p]? = some c2 := hp
      rw [h2] at hp2
      injection hp2 with hp2
      subst hp2
      obtain ⟨h1, h3⟩ := hb p c hc
      rw [if_pos rfl] at h1
      have hpos : 1 ≤ c.refs := by
        have : (0 : Int) ≤ (if p = q then n else 0) := by split <;> omega
        omega
      have hnf : c.freed = false := by
        cases hfr : c.freed with
        | false => rfl
        | true =>
          have := h3.mp hfr
          omega
      constructor
      · show c.refs - 1 = (ops c : Int) + _ + _
        omega
      · show (if c.refs - 1 = 0 then true else c.freed) = true ↔ c.refs - 1 = 0
        rw [hnf]
        split <;> simp_all
    · have h2 : (cfm.heap.set q1 (unref_cell c))[p]? = cfm.heap[p]? :=
        heap_set_ne _ (fun hx => hpq hx.symm)
      have hp2 : (cfm.heap.set q1 (unref_cell c))[p]? = some c2 := hp
      rw [h2] at hp2
      have := hb p c2 hp2
      rw [if_neg hpq] at this
      refine ⟨?_, this.2⟩
      omega

/-- `g_hash_table_remove` keeps the balance: the object of the removed entry
loses the entry and the reference of the table. -/
theorem balanced_connections_remove {cf : ConnForwarder} {q : Nat} {n : Int}
    (h : Balanced cf q n) (hn : 0 ≤ n) (id : Nat) :
    Balanced (connections_remove cf id).1 q n := by
  obtain ⟨htv, hnd, hb⟩ := h
  unfold connections_remove
  cases hl : tbl_lookup cf.connections id with
  | none => exact ⟨htv, hnd, hb⟩
  | some q1 =>
    dsimp only
    have htv1 : TableValid { cf with connections := tbl_erase cf.connections id } :=
      fun k v hk => htv k v (tbl_lookup_erase_some _ hk)
    have hnd1 : TableNodup { cf with connections := tbl_erase cf.connections id } :=
      table_nodup_erase hnd id rfl
    refine balanced_unref_other htv1 hnd1 hn ?_
    intro p c hp
    obtain ⟨h1, h2⟩ := hb p c hp
    refine ⟨?_, h2⟩
    have hcount := count_erase cf.connections hnd.1 hl p
    have hh1 : held { cf with connections := tbl_erase cf.connections id } p =
        ((tbl_erase cf.connections id).map Prod.snd).count p := rfl
    have hh2 : held cf p = (cf.connections.map Prod.snd).count p := rfl
    rw [hh1, h1, hh2, ← hcount]
    push_cast
    split <;> omega

theorem balanced_close_connection_no_notify {cf : ConnForwarder} {q : Nat} {n : Int}
    (h : Balanced cf q n) (hn : 0 ≤ n) : Balanced (close_connection_no_notify cf q) q n := by
  unfold close_connection_no_notify
  cases hc : cf.heap[q]? with
  | none => exact h
  | some c =>
    dsimp only
    refine balanced_connections_remove
      (balanced_set h hc { c with cancelled := true } n ?_ (h.2.2 q c hc).2) hn c.id
    show c.refs - (ops c : Int) = c.refs - (ops c : Int) + (n - n)
    omega

theorem balanced_close_connection {cf : ConnForwarder} {q : Nat} {n : Int}
    (h : Balanced cf q n) (hn : 0 ≤ n) : Balanced (close_connection cf q) q n := by
  unfold close_connection
  cases hc : cf.heap[q]? with
  | none => exact h
  | some c =>
    exact balanced_close_connection_no_notify (balanced_send_command h _) hn

/-- A new object on the heap holds its references beyond the accounted ones:
it is in no table entry yet. -/
theorem balanced_alloc {cf : ConnForwarder} {q : Nat} (h : Balanced cf q 0) (c0 : Connection)
    (hf : c0.freed = true ↔ c0.refs = 0) :
    Balanced (alloc cf c0).1 cf.heap.length (c0.refs - (ops c0 : Int)) := by
  obtain ⟨htv, hnd, hb⟩ := h
  have hlen : (alloc cf c0).1.heap.length = cf.heap.length + 1 := by simp [alloc]
  refine ⟨fun k v hk => ?_, hnd, ?_⟩
  · have := htv k v hk
    rw [hlen]
    omega
  · intro p c hp
    have hheld : held (alloc cf c0).1 p = held cf p := rfl
    rw [hheld]
    by_cases hpl : p = cf.heap.length
    · subst hpl
      have h2 : (alloc cf c0).1.heap[cf.heap.length]? = some c0 := by simp [alloc]
      rw [h2] at hp
      injection hp with hp
      subst hp
      rw [if_pos rfl, held_fresh htv hnd (Nat.le_refl _)]
      refine ⟨?_, hf⟩
      push_cast
      omega
    · have hlt : p < cf.heap.length := by
        have := heap_lt_of_get hp
        rw [hlen] at this
        omega
      have h2 : (alloc cf c0).1.heap[p]? = cf.heap[p]? := by
        show (cf.heap ++ [c0])[p]? = _
        exact List.getElem?_append_left hlt
      rw [h2] at hp
      obtain ⟨h1, h3⟩ := hb p c hp
      refine ⟨?_, h3⟩
      rw [h1, if_neg hpl]
      split <;> rfl

/-- `g_hash_table_insert` of an object that is in no entry yet: the entry takes
one of its extra references, and an object that was stored under the id loses
its entry and the reference of the table. -/
theorem balanced_connections_insert {cf : ConnForwarder} {p : Nat} {n : Int}
    (h : Balanced cf p n) (hn : 1 ≤ n) {c : Connection} (hc : cf.heap[p]? = some c)
    (hfresh : held cf p = 0) (id : Nat) :
    Balanced (connections_insert cf id p) p (n - 1) := by
  obtain ⟨htv, hnd, hb⟩ := h
  have hpv : p ∉ cf.connections.map Prod.snd := by
    intro hm
    have := List.count_pos_iff.mpr hm
    unfold held at hfresh
    omega
  have htv1 : TableValid { cf with connections := tbl_insert cf.connections id p } := by
    intro k v hk
    by_cases hki : k = id
    · subst hki
      have hk2 : tbl_lookup (tbl_insert cf.connections k p) k = some v := hk
      rw [tbl_lookup_insert_self] at hk2
      injection hk2 with hk2
      subst hk2
      exact heap_lt_of_get hc
    · have hk2 : tbl_lookup (tbl_insert cf.connections id p) k = some v := hk
      rw [tbl_lookup_insert_ne _ _ hki] at hk2
      exact htv k v hk2
  have hnd1 : TableNodup { cf with connections := tbl_insert cf.connections id p } := by
    have he : TableNodup { cf with connections := tbl_erase cf.connections id } :=
      table_nodup_erase hnd id rfl
    refine ⟨?_, ?_⟩
    · show ((id, p) :: tbl_erase cf.connections id |>.map Prod.fst).Nodup
      simp only [List.map_cons, List.nodup_cons]
      exact ⟨tbl_erase_keys _ _, he.1⟩
    · show ((id, p) :: tbl_erase cf.connections id |>.map Prod.snd).Nodup
      simp only [List.map_cons, List.nodup_cons]
      refine ⟨fun hm => hpv ?_, he.2⟩
      obtain ⟨e, hmem, hv⟩ := List.mem_map.mp hm
      exact List.mem_map.mpr ⟨e, (List.mem_filter.mp hmem).1, hv⟩
  have hheld : ∀ x, held { cf with connections := tbl_insert cf.connections id p } x =
      ((tbl_erase cf.connections id).map Prod.snd).count x + (if x = p then 1 else 0) := by
    intro x
    show ((id, p) :: tbl_erase cf.connections id |>.map Prod.snd).count x = _
    simp only [List.map_cons, List.count_cons, beq_iff_eq]
    by_cases hx : x = p
    · subst hx
      simp
    · have hx2 : ¬ p = x := fun hh => hx hh.symm
      simp [hx, hx2]
  unfold connections_insert
  cases hl : tbl_lookup cf.connections id with
  | none =>
    dsimp only
    refine ⟨htv1, hnd1, ?_⟩
    intro x cx hx
    obtain ⟨h1, h2⟩ := hb x cx hx
    refine ⟨?_, h2⟩
    rw [hheld, tbl_erase_absent _ _ hl, h1]
    have hh2 : held cf x = (cf.connections.map Prod.snd).count x := rfl
    rw [hh2]
    push_cast
    split <;> omega
  | some q1 =>
    dsimp only
    refine balanced_unref_other htv1 hnd1 (by omega) ?_
    intro x cx hx
    obtain ⟨h1, h2⟩ := hb x cx hx
    refine ⟨?_, h2⟩
    have hcount := count_erase cf.connections hnd.1 hl x
    have hh2 : held cf x = (cf.connections.map Prod.snd).count x := rfl
    rw [hheld, h1, hh2, ← hcount]
    push_cast
    split <;> split <;> omega

theorem balanced_init : Balanced conn_forwarder_new 0 0 := by
  refine ⟨table_valid_init, ⟨List.nodup_nil, List.nodup_nil⟩, ?_⟩
  intro p c hc
  simp [conn_forwarder_new] at hc

/-- The balance after `unref_connection` on each pointer of a list, in a state
with an empty table whose objects hold one reference per occurrence in the
list. -/
theorem balanced_foldl_unref (ps : List Nat) :
    ∀ cfm : ConnForwarder, cfm.connections = [] →
      (∀ (p : Nat) (c : Connection), cfm.heap[p]? = some c →
        c.refs = (ops c : Int) + (ps.count p : Int) ∧ (c.freed = true ↔ c.refs = 0)) →
      Balanced (ps.foldl unref_connection cfm) 0 0 := by
  induction ps with
  | nil =>
    intro cfm he hb
    show Balanced cfm 0 0
    refine ⟨fun k v hk => ?_, ?_, ?_⟩
    · rw [he] at hk
      cases hk
    · unfold TableNodup
      rw [he]
      exact ⟨List.nodup_nil, List.nodup_nil⟩
    · intro p c hc
      obtain ⟨h1, h2⟩ := hb p c hc
      refine ⟨?_, h2⟩
      have hh : held cfm p = 0 := by
        unfold held
        rw [he]
        rfl
      rw [h1, hh]
      simp
  | cons q ps ih =>
    intro cfm he hb
    simp only [List.foldl_cons]
    refine ih _ (by rw [unref_connection_connections]; exact he) ?_
    intro p c2 hp
    cases hc : cfm.heap[q]? with
    | none =>
      have hq : unref_connection cfm q = cfm := by
        unfold unref_connection
        rw [hc]
      rw [hq] at hp
      have hpq : q ≠ p := by
        intro hx
        subst hx
        rw [hc] at hp
        cases hp
      obtain ⟨h1, h2⟩ := hb p c2 hp
      refine ⟨?_, h2⟩
      rw [h1, List.count_cons_of_ne hpq.symm]
    | some c =>
      rw [unref_connection_eq hc] at hp
      by_cases hpq : q = p
      · subst hpq
        have hp2 : (cfm.heap.set q (unref_cell c))[q]? = some c2 := hp
        rw [heap_set_self _ hc] at hp2
        injection hp2 with hp2
        subst hp2
        obtain ⟨h1, h2⟩ := hb q c hc
        rw [List.count_cons_self] at h1
        have hnf : c.freed = false := by
          cases hfr : c.freed with
          | false => rfl
          | true =>
            have := h2.mp hfr
            omega
        constructor
        · show c.refs - 1 = (ops c : Int) + _
          push_cast at h1
          omega
        · show (if c.refs - 1 = 0 then true else c.freed) = true ↔ c.refs - 1 = 0
          rw [hnf]
          split <;> simp_all
      · have hp2 : (cfm.heap.set q (unref_cell c))[p]? = some c2 := hp
        rw [heap_set_ne _ hpq] at hp2
        obtain ⟨h1, h2⟩ := hb p c2 hp2
        refine ⟨?_, h2⟩
        rw [h1, List.count_cons_of_ne (fun hx => hpq hx.symm)]

theorem balanced_agent_disconnected {cf : ConnForwarder} (h : Balanced cf 0 0) :
    Balanced (conn_forwarder_agent_disconnected cf) 0 0 := by
  unfold conn_forwarder_agent_disconnected
  refine balanced_foldl_unref _ _ rfl ?_
  intro p c hc
  obtain ⟨h1, h2⟩ := h.2.2 p c hc
  refine ⟨?_, h2⟩
  rw [h1]
  have : (if p = 0 then (0 : Int) else 0) = 0 := by split <;> rfl
  rw [this]
  unfold held
  have hm : cf.connections.map (fun e => e.2) = cf.connections.map Prod.snd := rfl
  rw [hm]
  omega

theorem balanced_freed {cf : ConnForwarder} {q : Nat} {n : Int} (h : Balanced cf q n)
    {p : Nat} {c : Connection} (hc : cf.heap[p]? = some c) (hpos : 1 ≤ c.refs) :
    c.freed = false := by
  cases hfr : c.freed with
  | false => rfl
  | true =>
    have := (h.2.2 p c hc).2.mp hfr
    omega

/-- The completion of a read keeps the balance. -/
theorem balanced_read_done {K : Consts} {cf cf1 : ConnForwarder} {p : Nat}
    {r : Option (List Nat)} (hb : Balanced cf 0 0)
    (h : step K cf (Event.read_done p r) = Except.ok cf1) : Balanced cf1 0 0 := by
  simp only [ConnForward.step] at h
  cases hc : cf.heap[p]? with
  | none => rw [hc] at h; cases h
  | some c =>
    rw [hc] at h
    dsimp only at h
    split at h
    · rename_i hen
      have hc0 : (set_conn cf p { c with reads := c.reads - 1 }).heap[p]? =
          some { c with reads := c.reads - 1 } := heap_set_self _ hc
      have hb0 : Balanced (set_conn cf p { c with reads := c.reads - 1 }) p 1 := by
        refine balanced_set (balanced_retarget hb p) hc _ 1 ?_ ((hb.2.2 p c hc).2)
        unfold ops
        dsimp only
        have := hen.1
        omega
      refine balanced_retarget (q := p) ?_ 0
      unfold connection_read_callback at h
      rw [hc0] at h
      dsimp only at h
      split at h
      · injection h with h
        rw [← h]
        exact balanced_unref hb0 (Int.le_refl 1)
      · cases r with
        | none =>
          dsimp only at h
          injection h with h
          rw [← h]
          exact balanced_unref (balanced_close_connection hb0 (by omega)) (Int.le_refl 1)
        | some bytes =>
          dsimp only at h
          split at h
          · injection h with h
            rw [← h]
            exact balanced_unref (balanced_close_connection hb0 (by omega)) (Int.le_refl 1)
          · have hb1 := balanced_set (balanced_send_command hb0
              (OutMsg.data c.id (bytes.length % U32) bytes
                (DATA_HEAD_SIZE K + bytes.length % U32))) hc0
              { c with reads := c.reads - 1,
                       data_sent := (c.data_sent + bytes.length % U32) % U32 } 1
              (by unfold ops; dsimp only; omega)
              ((hb0.2.2 p _ hc0).2)
            split at h
            · exact balanced_program_read hb1 (heap_set_self _ hc0) h
            · injection h with h
              rw [← h]
              exact balanced_unref hb1 (Int.le_refl 1)
    · cases h

/-- The completion of a write keeps the balance. -/
theorem balanced_write_done {K : Consts} {cf cf1 : ConnForwarder} {p : Nat}
    {r : Option Nat} (hb : Balanced cf 0 0)
    (h : step K cf (Event.write_done p r) = Except.ok cf1) : Balanced cf1 0 0 := by
  cases r with
  | none =>
    simp only [ConnForward.step] at h
    cases hc : cf.heap[p]? with
    | none => rw [hc] at h; cases h
    | some c =>
      rw [hc] at h
      dsimp only at h
      cases hw : c.writing with
      | none => rw [hw] at h; cases h
      | some buf =>
        rw [hw] at h
        dsimp only at h
        have hc0 : (set_conn cf p { c with writing := none }).heap[p]? =
            some { c with writing := none } := heap_set_self _ hc
        have hb0 : Balanced (set_conn cf p { c with writing := none }) p 1 := by
          refine balanced_set (balanced_retarget hb p) hc _ 1 ?_ ((hb.2.2 p c hc).2)
          unfold ops
          dsimp only
          rw [hw]
          simp only [Option.isSome_none, Option.isSome_some, Bool.false_eq_true, if_false,
            if_true]
          push_cast
          omega
        refine balanced_retarget (q := p) ?_ 0
        rw [connection_write_callback_none hc0] at h
        injection h with h
        rw [← h]
        exact balanced_unref (balanced_close_connection hb0 (by omega)) (Int.le_refl 1)
  | some n =>
    obtain ⟨c, buf, hc, hw, hn, heq⟩ := step_write_ok h
    rw [heq]
    have hops : 1 ≤ c.refs := by
      have h1 := (hb.2.2 p c hc).1
      have : 1 ≤ ops c := by
        unfold ops
        rw [hw]
        simp only [Option.isSome_some, if_true]
        omega
      have h0 : (0 : Int) ≤ (held cf p : Int) := by omega
      have h2 : (if p = 0 then (0 : Int) else 0) = 0 := by split <;> rfl
      omega
    have hnf := balanced_freed hb hc hops
    refine balanced_retarget (q := p) (balanced_of_eq
      (balanced_set (balanced_retarget hb p) hc
        (write_cell { c with writing := none, written := c.written ++ buf.take n } n) 0 ?_ ?_)
      rfl rfl) 0
    · unfold ops write_cell
      dsimp only
      rw [hw]
      cases hpop : pop_written c.write_buffer n with
      | nil =>
        simp only [if_true, Option.isSome_none, Option.isSome_some, Bool.false_eq_true,
          if_false]
        push_cast
        omega
      | cons b bs =>
        simp only [Option.isSome_some, if_true, reduceCtorEq, if_false]
        push_cast
        omega
    · unfold write_cell
      dsimp only
      rw [hnf]
      cases hpop : pop_written c.write_buffer n with
      | nil =>
        simp only [true_and, if_true]
        split <;> simp_all
      | cons b bs =>
        simp only [reduceCtorEq, false_and, if_false, Bool.false_eq_true, false_iff]
        omega

/-- The completion of a connect keeps the balance. -/
theorem balanced_connect_done {K : Consts} {cf cf1 : ConnForwarder} {p : Nat} {ok : Bool}
    (hb : Balanced cf 0 0) (h : step K cf (Event.connect_done p ok) = Except.ok cf1) :
    Balanced cf1 0 0 := by
  simp only [ConnForward.step] at h
  cases hc : cf.heap[p]? with
  | none => rw [hc] at h; cases h
  | some c =>
    rw [hc] at h
    dsimp only at h
    split at h
    · rename_i hp
      have hc0 : (set_conn cf p { c with connect_pending := false }).heap[p]? =
          some { c with connect_pending := false } := heap_set_self _ hc
      have hb0 : Balanced (set_conn cf p { c with connect_pending := false }) p 1 := by
        refine balanced_set (balanced_retarget hb p) hc _ 1 ?_ ((hb.2.2 p c hc).2)
        unfold ops
        dsimp only
        rw [hp]
        simp only [Bool.false_eq_true, if_false, if_true]
        push_cast
        omega
      refine balanced_retarget (q := p) ?_ 0
      unfold connection_connect_callback at h
      rw [hc0] at h
      dsimp only at h
      split at h
      · injection h with h
        rw [← h]
        exact balanced_unref hb0 (Int.le_refl 1)
      · split at h
        · have hb1 := balanced_set hb0 hc0
            { c with connect_pending := false, conn := false } 1
            (by unfold ops; dsimp only; omega) ((hb0.2.2 p _ hc0).2)
          injection h with h
          rw [← h]
          exact balanced_unref (balanced_close_connection hb1 (by omega)) (Int.le_refl 1)
        · have hb1 := balanced_set hb0 hc0
            { c with connect_pending := false, conn := true, connecting := false } 1
            (by unfold ops; dsimp only; omega) ((hb0.2.2 p _ hc0).2)
          split at h
          · rename_i cf2 hpr
            injection h with h
            rw [← h]
            exact balanced_send_command
              (balanced_program_read hb1 (heap_set_self _ hc0) hpr) _
          · cases h
    · cases h

/-- The object entered by `g_hash_table_insert` right after its allocation is
still the one that was allocated. -/
theorem connections_insert_new (cf : ConnForwarder) (htv : TableValid cf) (c0 : Connection)
    (id : Nat) :
    (connections_insert (alloc cf c0).1 id cf.heap.length).heap[cf.heap.length]? = some c0 := by
  unfold connections_insert
  have hget : (alloc cf c0).1.heap[cf.heap.length]? = some c0 := by simp [alloc]
  cases hl : tbl_lookup (alloc cf c0).1.connections id with
  | none => exact hget
  | some q1 =>
    dsimp only
    have hlt : q1 < cf.heap.length := htv id q1 hl
    rw [unref_connection_heap_ne _ (by omega)]
    exact hget

/-- The object a new connection gets from `alloc` and `g_hash_table_insert`
keeps the balance when it has one reference and no operation in flight. -/
theorem balanced_new {cf : ConnForwarder} (hb : Balanced cf 0 0) (c0 : Connection) (id : Nat)
    (hr : c0.refs = 1) (ho : ops c0 = 0) (hf : c0.freed = false) :
    Balanced (connections_insert (alloc cf c0).1 id cf.heap.length) cf.heap.length 0 := by
  have h1 := balanced_alloc hb c0 (by rw [hf, hr]; decide)
  rw [hr, ho] at h1
  have hget : (alloc cf c0).1.heap[cf.heap.length]? = some c0 := by simp [alloc]
  exact balanced_connections_insert h1 (Int.le_refl 1) hget
    (held_fresh hb.1 hb.2.1 (Nat.le_refl _)) id

theorem unref_connection_send (cf : ConnForwarder) (m : OutMsg) (q : Nat) :
    unref_connection (send_command cf m) q = send_command (unref_connection cf q) m := by
  unfold unref_connection
  show (match cf.heap[q]? with
    | none => send_command cf m
    | some c => set_conn (send_command cf m) q (unref_cell c)) = _
  cases cf.heap[q]? <;> rfl

theorem connections_insert_send (cf : ConnForwarder) (m : OutMsg) (id p : Nat) :
    connections_insert (send_command cf m) id p =
      send_command (connections_insert cf id p) m := by
  unfold connections_insert
  show (match tbl_lookup cf.connections id with
    | none => { send_command cf m with connections := tbl_insert cf.connections id p }
    | some q => unref_connection
        { send_command cf m with connections := tbl_insert cf.connections id p } q) = _
  cases tbl_lookup cf.connections id with
  | none => rfl
  | some q =>
    exact unref_connection_send { cf with connections := tbl_insert cf.connections id p } m q

theorem balanced_accept_done {K : Consts} {cf cf1 : ConnForwarder} {r : Option AddressPort}
    (hb : Balanced cf 0 0) (h : step K cf (Event.accept_done r) = Except.ok cf1) :
    Balanced cf1 0 0 := by
  simp only [ConnForward.step] at h
  split at h
  · simp only [Except.ok.injEq] at h
    subst h
    cases r with
    | none => exact balanced_of_eq hb rfl rfl
    | some host =>
      have hb1 : Balanced { cf with accepts := cf.accepts - 1, seq := (cf.seq + U32 - 1) % U32 }
          0 0 := balanced_of_eq hb rfl rfl
      have h2 := balanced_new hb1
        (new_open_connection ((cf.seq + U32 - 1) % U32) (WINDOW_SIZE / 2))
        ((cf.seq + U32 - 1) % U32) rfl rfl rfl
      refine balanced_retarget (q := cf.heap.length) (balanced_of_eq h2 ?_ ?_) 0
      · unfold listener_accept_callback
        simp only [generate_connection_id]
        show (connections_insert (send_command _ _) _ _).heap = _
        rw [connections_insert_send]
        rfl
      · unfold listener_accept_callback
        simp only [generate_connection_id]
        show (connections_insert (send_command _ _) _ _).connections = _
        rw [connections_insert_send]
        rfl
  · cases h

theorem balanced_accepted_prior {cf : ConnForwarder} (hb : Balanced cf 0 0) (id : Nat) :
    Balanced (accepted_prior cf id) 0 0 := by
  unfold accepted_prior
  split
  · rename_i q _
    exact balanced_retarget (q := q)
      (balanced_close_connection_no_notify (balanced_retarget hb q) (Int.le_refl 0)) 0
  · exact hb

theorem balanced_accepted_connect {cfa cf1 : ConnForwarder} {id listenId winSize : Nat}
    (hb : Balanced cfa 0 0) (h : accepted_connect cfa id listenId winSize = Except.ok cf1) :
    Balanced cf1 0 0 := by
  unfold accepted_connect at h
  split at h
  · cases h
  · have h2 := balanced_new hb (new_connection_with_socket id (winSize / 2)) id rfl rfl rfl
    have hnew := connections_insert_new cfa hb.1 (new_connection_with_socket id (winSize / 2)) id
    simp only [alloc] at h h2 hnew
    rw [hnew] at h
    simp only [Except.ok.injEq] at h
    subst h
    refine balanced_retarget (q := cfa.heap.length) (balanced_set h2 hnew _ 0 ?_ ?_) 0
    · unfold ops
      dsimp only
      rfl
    · show false = true ↔ (1 : Int) + 1 = 0
      constructor
      · intro hx; cases hx
      · intro hx; omega

theorem balanced_handle_data {cf cf1 : ConnForwarder} {id : Nat} {payload : List Nat}
    (hb : Balanced cf 0 0) (hs : HeapAll Sizes cf)
    (hr : handle_data cf id payload = Except.ok cf1) : Balanced cf1 0 0 := by
  rcases handle_data_eq hr with h | ⟨p, c, hl, hc, hcon, _, h⟩
  · rw [h]; exact hb
  · rw [h]
    have hpos : 1 ≤ c.refs := by
      have h1 := (hb.2.2 p c hc).1
      have h2 := held_pos hl
      have h3 : (if p = 0 then (0 : Int) else 0) = 0 := by split <;> rfl
      omega
    have hnf := balanced_freed hb hc hpos
    refine balanced_retarget (q := p)
      (balanced_set (balanced_retarget hb p) hc (data_cell c payload) 0 ?_ ?_) 0
    · unfold data_cell ops
      dsimp only
      by_cases hwb : c.write_buffer = []
      · have hw : c.writing = none := by
          cases hw : c.writing with
          | none => rfl
          | some buf =>
            have := (hs p c hc).2.2.2.2 buf hw
            rw [hwb] at this
            cases this
        simp only [hwb, hw, if_true, Option.isSome_some, Option.isSome_none,
          Bool.false_eq_true, if_false]
        push_cast
        omega
      · simp only [hwb, if_false]
        omega
    · unfold data_cell
      dsimp only
      rw [hnf]
      split
      · constructor
        · intro hx; cases hx
        · intro hx; omega
      · constructor
        · intro hx; cases hx
        · intro hx; omega

theorem balanced_handle_ack {cf cf1 : ConnForwarder} {id size winSize : Nat}
    (hb : Balanced cf 0 0) (hr : handle_ack cf id size winSize = Except.ok cf1) :
    Balanced cf1 0 0 := by
  rcases handle_ack_eq hr with h | ⟨p, c, hl, hc, _, h⟩
  · rw [h]; exact hb
  · rw [h]
    have hpos : 1 ≤ c.refs := by
      have h1 := (hb.2.2 p c hc).1
      have h2 := held_pos hl
      have h3 : (if p = 0 then (0 : Int) else 0) = 0 := by split <;> rfl
      omega
    have hnf := balanced_freed hb hc hpos
    refine balanced_retarget (q := p)
      (balanced_set (balanced_retarget hb p) hc (ack_cell c size winSize) 0 ?_ ?_) 0
    · unfold ack_cell
      split
      · unfold ops
        dsimp only
        push_cast
        omega
      · split
        · unfold ops
          dsimp only
          push_cast
          omega
        · unfold ops
          dsimp only
          omega
    · unfold ack_cell
      split
      · show c.freed = true ↔ c.refs + 1 = 0
        rw [hnf]
        constructor
        · intro hx; cases hx
        · intro hx; omega
      · split
        · show c.freed = true ↔ c.refs + 1 = 0
          rw [hnf]
          constructor
          · intro hx; cases hx
          · intro hx; omega
        · exact (hb.2.2 p c hc).2

theorem balanced_handle_close {cf : ConnForwarder} (hb : Balanced cf 0 0) (id : Nat) :
    Balanced (handle_close cf id) 0 0 := by
  unfold handle_close
  split
  · rename_i p _
    exact balanced_retarget (q := p)
      (balanced_close_connection_no_notify (balanced_retarget hb p) (Int.le_refl 0)) 0
  · exact balanced_send_command hb _

/-- One turn of the main loop that returns keeps the reference counts
balanced. -/
theorem balanced_step {K : Consts} {cf cf1 : ConnForwarder} {e : Event}
    (hb : Balanced cf 0 0) (hs : HeapAll Sizes cf)
    (h : step K cf e = Except.ok cf1) : Balanced cf1 0 0 := by
  cases e with
  | associate_remote rule =>
    simp only [ConnForward.step, Except.ok.injEq] at h
    subst h
    exact balanced_of_eq hb (associate_remote_heap K cf rule) (associate_remote_connections K cf rule)
  | associate_local rule res =>
    simp only [ConnForward.step, Except.ok.injEq] at h
    subst h
    exact balanced_of_eq hb (associate_local_heap cf rule res)
      (associate_local_connections cf rule res)
  | agent_disconnected =>
    simp only [ConnForward.step, Except.ok.injEq] at h
    subst h
    exact balanced_agent_disconnected hb
  | message m =>
    simp only [ConnForward.step] at h
    split at h
    · cases m with
      | accepted id listenId winSize =>
        have h2 : accepted_connect (accepted_prior cf id) id listenId winSize =
            Except.ok cf1 := h
        exact balanced_accepted_connect (balanced_accepted_prior hb id) h2
      | data id payload => exact balanced_handle_data hb hs h
      | close id =>
        simp only [conn_forwarder_handle_message, Except.ok.injEq] at h
        subst h
        exact balanced_handle_close hb id
      | ack id size winSize => exact balanced_handle_ack hb h
      | other command =>
        simp only [conn_forwarder_handle_message, Except.ok.injEq] at h
        subst h
        exact hb
    · cases h
  | accept_done r => exact balanced_accept_done hb h
  | read_done p r => exact balanced_read_done hb h
  | write_done p r => exact balanced_write_done hb h
  | connect_done p ok => exact balanced_connect_done hb h

theorem run_balanced {K : Consts} (evs : List Event) :
    ∀ cf cf1, Balanced cf 0 0 → HeapAll Sizes cf →
      run K cf evs = Except.ok cf1 → Balanced cf1 0 0 := by
  induction evs with
  | nil =>
    intro cf cf1 hb _ h
    simp only [run, Except.ok.injEq] at h
    subst h
    exact hb
  | cons e es ih =>
    intro cf cf1 hb hs h
    simp only [run] at h
    cases hst : step K cf e with
    | error x => rw [hst] at h; cases h
    | ok cf2 =>
      rw [hst] at h
      exact ih cf2 cf1 (balanced_step hb hs hst) (step_sizes cf e cf2 hs hst) h

theorem reachable_balanced {K : Consts} {cf : ConnForwarder} (h : Reachable K cf) :
    Balanced cf 0 0 := by
  obtain ⟨evs, hrun⟩ := h
  exact run_balanced evs _ _ balanced_init (heap_all_init _) hrun

/-- C23: in every reachable state (a state the main loop reaches from a new
forwarder, whatever the host and the peer do), the reference count of each
connection is the number of its operations in flight (reads, write, connect)
plus one if it is in the connections table, which has at most one entry for
it; so a connection of the table has at least one reference, and a connection
is released exactly when it is out of the table and has no operation in
flight. -/
theorem refs_balance (K : Consts) (evs : List Event) (cf : ConnForwarder)
    (hrun : run K conn_forwarder_new evs = Except.ok cf)
    (p : Nat) (c : Connection) (hc : cf.heap[p]? = some c) :
    c.refs = (ops c : Int) + (held cf p : Int) ∧
    (held cf p = 1 ↔ ∃ id, tbl_lookup cf.connections id = some p) ∧
    (held cf p = 0 ↔ ∀ id, tbl_lookup cf.connections id ≠ some p) ∧
    ((∃ id, tbl_lookup cf.connections id = some p) → 1 ≤ c.refs) ∧
    (c.freed = true ↔ (held cf p = 0 ∧ ops c = 0)) := by
  have hb := run_balanced evs _ _ balanced_init (heap_all_init _) hrun
  obtain ⟨htv, hnd, hbal⟩ := hb
  obtain ⟨h1, h2⟩ := hbal p c hc
  have h0 : (if p = 0 then (0 : Int) else 0) = 0 := by split <;> rfl
  rw [h0] at h1
  have hle : held cf p ≤ 1 := List.nodup_iff_count_le_one.mp hnd.2 p
  have hmem : 0 < held cf p ↔ ∃ id, tbl_lookup cf.connections id = some p := by
    constructor
    · intro hpos
      obtain ⟨e, he, hv⟩ := List.mem_map.mp (List.count_pos_iff.mp hpos)
      obtain ⟨k, v⟩ := e
      have hv2 : v = p := hv
      subst hv2
      exact ⟨k, tbl_lookup_of_mem _ hnd.1 he⟩
    · intro ⟨id, hl⟩
      exact held_pos hl
  refine ⟨by omega, ?_, ?_, ?_, ?_⟩
  · rw [← hmem]
    omega
  · constructor
    · intro hz id hl
      have := hmem.mpr ⟨id, hl⟩
      omega
    · intro hno
      rcases Nat.eq_zero_or_pos (held cf p) with hz | hz
      · exact hz
      · obtain ⟨id, hl⟩ := hmem.mp hz
        exact absurd hl (hno id)
  · intro hex
    have := hmem.mpr hex
    omega
  · rw [h2]
    omega

/-- The claim on scenario S1 with a read and a write in flight. -/
theorem refs_balance_witness :
    (run flexdp conn_forwarder_new echo_events = Except.ok (run_state flexdp echo_events) ∧
     (run_state flexdp echo_events).heap[0]? = some echo_data_conn) ∧
    (echo_data_conn.refs = (ops echo_data_conn : Int) +
        (held (run_state flexdp echo_events) 0 : Int) ∧
    (held (run_state flexdp echo_events) 0 = 1 ↔
      ∃ id, tbl_lookup (run_state flexdp echo_events).connections id = some 0) ∧
    (held (run_state flexdp echo_events) 0 = 0 ↔
      ∀ id, tbl_lookup (run_state flexdp echo_events).connections id ≠ some 0) ∧
    ((∃ id, tbl_lookup (run_state flexdp echo_events).connections id = some 0) →
      1 ≤ echo_data_conn.refs) ∧
    (echo_data_conn.freed = true ↔
      (held (run_state flexdp echo_events) 0 = 0 ∧ ops echo_data_conn = 0))) :=
  ⟨⟨by rfl, by decide⟩,
   refs_balance flexdp echo_events (run_state flexdp echo_events) (by rfl) 0
    echo_data_conn (by decide)⟩

/-! ## Open connections have their socket connection -/

theorem joined_quiet (c c1 : Connection) (h : Armed c ∧ Joined c) (hq : Quiet c c1) :
    Armed c1 ∧ Joined c1 := by
  unfold Quiet at hq
  rw [hq]
  exact h

theorem joined_new (c : Connection) (h : CellNew c) : Armed c ∧ Joined c := by
  refine ⟨armed_new c h, ?_⟩
  rcases h with ⟨id, rfl⟩ | ⟨id, w, hw, rfl⟩
  · exact ⟨fun hx => (by cases hx), fun hx => (by cases hx)⟩
  · exact ⟨fun hx => (by cases hx), fun _ => rfl⟩

theorem joined_cell_step {K : Consts} {cf : ConnForwarder} {e : Event} {j : Nat}
    {c c0 : Connection} (h : Armed c ∧ Joined c) (hs : CellStep K cf e j c c0) :
    Armed c0 ∧ Joined c0 := by
  refine ⟨armed_cell_step h.1 hs, ?_⟩
  obtain ⟨⟨a1, a2, a3⟩, j1, j2⟩ := h
  cases hs with
  | quiet => exact ⟨j1, j2⟩
  | data id _ payload _ hl hwf hcon hconn => exact ⟨j1, j2⟩
  | ack id size winSize _ _ hl hsz hw hconn =>
    unfold ack_cell
    split
    · rename_i hcon
      have hc1 : c.conn = true := hconn (Or.inl hcon)
      refine ⟨fun _ => hc1, fun hx => ?_⟩
      have hx2 : c.connect_pending = true := hx
      rw [a2 hx2] at hc1
      cases hc1
    · split
      · exact ⟨j1, j2⟩
      · exact ⟨j1, j2⟩
  | read_quiet _ r _ hr => exact ⟨j1, j2⟩
  | read_data _ bytes _ hr hb hne hcan hconn => exact ⟨j1, j2⟩
  | write_err => exact ⟨j1, j2⟩
  | write_ok _ n _ buf hw hn => exact ⟨j1, j2⟩
  | connect _ ok _ hp =>
    have hcon : c.connecting = true := j2 hp
    unfold connect_cell
    split
    · exact ⟨j1, fun hx => (by cases hx)⟩
    · split
      · exact ⟨fun _ => rfl, fun hx => (by cases hx)⟩
      · refine ⟨fun hx => ?_, fun hx => (by cases hx)⟩
        have hx2 : c.connecting = false := hx
        rw [hcon] at hx2
        cases hx2

theorem reachable_joined {K : Consts} {cf : ConnForwarder} (h : Reachable K cf) :
    HeapAll Joined cf := by
  obtain ⟨evs, hrun⟩ := h
  have hall : HeapAll (fun c => Armed c ∧ Joined c) cf :=
    run_invariant (I := HeapAll (fun c => Armed c ∧ Joined c))
      (fun cf e cf1 hi hs =>
        heap_all_step joined_quiet joined_new (fun _ _ _ _ hp hcs => joined_cell_step hp hcs)
          hi hs)
      evs _ _ (heap_all_init _) hrun
  exact fun j c hc => (hall j c hc).2

/-- In a reachable state a connection of the table with a write in flight has
at least two references and is not released. -/
theorem table_write_refs {K : Consts} {cf : ConnForwarder} (hr : Reachable K cf) {p : Nat}
    {c : Connection} {buf : List Nat} (hc : cf.heap[p]? = some c)
    (hl : tbl_lookup cf.connections c.id = some p) (hw : c.writing = some buf) :
    2 ≤ c.refs ∧ c.freed = false := by
  have hb := reachable_balanced hr
  have h1 := (hb.2.2 p c hc).1
  have h2 := held_pos hl
  have h3 : (if p = 0 then (0 : Int) else 0) = 0 := by split <;> rfl
  have h4 : 1 ≤ ops c := by
    unfold ops
    rw [hw]
    simp only [Option.isSome_some, if_true]
    omega
  have h5 : 2 ≤ c.refs := by omega
  exact ⟨h5, balanced_freed hb hc (by omega)⟩

/-- On a connection of the table of a reachable state that is not connecting,
no interleaving of DATA messages for its id and successful write completions
faults: the DATA handler finds the socket connection, and a write completion
does not release the connection, which the table holds. -/
theorem stream_no_fault (K : Consts) (evs : List StreamEvent) :
    ∀ (cf : ConnForwarder) (p : Nat) (c : Connection), Reachable K cf →
      cf.heap[p]? = some c → tbl_lookup cf.connections c.id = some p →
      c.connecting = false →
      run K cf (evs.map (StreamEvent.event c.id p)) ≠ Except.error Stop.fault := by
  induction evs with
  | nil =>
    intro cf p c _ _ _ _ h
    simp only [List.map_nil, run] at h
    cases h
  | cons e es ih =>
    intro cf p c hreach hc htab hopen h
    simp only [List.map_cons, run] at h
    cases e with
    | data payload =>
      have hconn := (reachable_joined hreach p c hc).1 hopen
      have hd := handle_data_ok payload htab hc hopen (fun _ => hconn)
      by_cases hwf : (InMsg.data c.id payload).wf = true
      · have hs : step K cf (StreamEvent.event c.id p (StreamEvent.data payload)) =
            Except.ok (set_conn cf p (data_cell c payload)) := by
          simp only [StreamEvent.event, step]
          rw [if_pos hwf]
          exact hd
        rw [hs] at h
        dsimp only at h
        exact ih _ p (data_cell c payload) (reachable_step hreach hs) (heap_set_self _ hc)
          htab hopen h
      · have hs : step K cf (StreamEvent.event c.id p (StreamEvent.data payload)) =
            Except.error Stop.not_enabled := by
          simp only [StreamEvent.event, step]
          rw [if_neg hwf]
        rw [hs] at h
        cases h
    | written n =>
      cases hw : c.writing with
      | none =>
        have hs : step K cf (StreamEvent.event c.id p (StreamEvent.written n)) =
            Except.error Stop.not_enabled := by
          simp only [StreamEvent.event, step]
          rw [hc]
          dsimp only
          rw [hw]
        rw [hs] at h
        cases h
      | some buf =>
        by_cases hn : n ≤ buf.length
        · obtain ⟨h2, hnf⟩ := table_write_refs hreach hc htab hw
          have hs := step_write_some (K := K) hc hw hn
          rw [if_neg (by
            unfold write_cell
            dsimp only
            rw [hnf, if_neg (fun hx => by omega)]
            exact Bool.false_ne_true)] at hs
          have hs2 : step K cf (StreamEvent.event c.id p (StreamEvent.written n)) = _ := hs
          rw [hs2] at h
          dsimp only at h
          exact ih _ p _ (reachable_step hreach hs) (heap_set_self _ hc) htab hopen h
        · have hs : step K cf (StreamEvent.event c.id p (StreamEvent.written n)) =
              Except.error Stop.not_enabled := by
            simp only [StreamEvent.event, step]
            rw [hc]
            dsimp only
            rw [hw]
            dsimp only
            rw [if_neg hn]
          rw [hs] at h
          cases h

/-! ## Claims on the inbound stream -/

/-- C1: for every connection of a reachable state that is in the table and not
connecting, every sequence of inbound DATA payloads for its id, and every
sequence of successful (possibly partial) write completions interleaved with
them, the handlers do not fault, and the bytes the socket reported written
followed by the contents of the write queue are exactly what they were before
followed by the payloads, in order; so what is reported written is a prefix of
the stream and the queue holds exactly the part not yet written: no byte is
dropped, duplicated or reordered. -/
theorem stream_order (K : Consts) (cf : ConnForwarder) (p : Nat) (c : Connection)
    (evs : List StreamEvent) (hreach : Reachable K cf) (hc : cf.heap[p]? = some c)
    (htab : tbl_lookup cf.connections c.id = some p) (hopen : c.connecting = false) :
    run K cf (evs.map (StreamEvent.event c.id p)) ≠ Except.error Stop.fault ∧
    ∀ cf1, run K cf (evs.map (StreamEvent.event c.id p)) = Except.ok cf1 →
      ∃ c1, cf1.heap[p]? = some c1 ∧
        c1.written ++ c1.write_buffer.flatten =
          c.written ++ c.write_buffer.flatten ++ payloads evs ∧
        c1.written <+: c.written ++ c.write_buffer.flatten ++ payloads evs := by
  refine ⟨stream_no_fault K evs cf p c hreach hc htab hopen, fun cf1 hrun => ?_⟩
  obtain ⟨c1, hc1, heq⟩ := stream_run K evs cf cf1 p c hreach hc htab hopen hrun
  exact ⟨c1, hc1, heq, ⟨c1.write_buffer.flatten, heq⟩⟩

theorem stream_order_witness :
    (Reachable flexdp (run_state flexdp echo_open) ∧
    (run_state flexdp echo_open).heap[0]? = some echo_conn ∧
    tbl_lookup (run_state flexdp echo_open).connections echo_conn.id = some 0 ∧
    echo_conn.connecting = false ∧
    run flexdp (run_state flexdp echo_open)
        (echo_stream.map (StreamEvent.event echo_conn.id 0)) =
      Except.ok (run_state flexdp
        (echo_open ++ echo_stream.map (StreamEvent.event echo_conn.id 0))) ∧
    payloads echo_stream = [104, 101, 108, 108, 111]) ∧
    run flexdp (run_state flexdp echo_open)
        (echo_stream.map (StreamEvent.event echo_conn.id 0)) ≠ Except.error Stop.fault ∧
    ∃ c1, (run_state flexdp
        (echo_open ++ echo_stream.map (StreamEvent.event echo_conn.id 0))).heap[0]? = some c1 ∧
      c1.written ++ c1.write_buffer.flatten =
        echo_conn.written ++ echo_conn.write_buffer.flatten ++ payloads echo_stream ∧
      c1.written <+: echo_conn.written ++ echo_conn.write_buffer.flatten ++
        payloads echo_stream :=
  ⟨⟨⟨echo_open, by rfl⟩, by rfl, by decide, by rfl, by rfl, by decide⟩,
   (stream_order flexdp (run_state flexdp echo_open) 0 echo_conn echo_stream
     ⟨echo_open, by rfl⟩ (by rfl) (by decide) (by rfl)).1,
   (stream_order flexdp (run_state flexdp echo_open) 0 echo_conn echo_stream
     ⟨echo_open, by rfl⟩ (by rfl) (by decide) (by rfl)).2
     (run_state flexdp (echo_open ++ echo_stream.map (StreamEvent.event echo_conn.id 0)))
     (by rfl)⟩

/-! ## Claims on the write completions -/

/-- A successful write completion in a reachable state: it faults when it
empties the queue on a connection that has no other reference, and otherwise
it returns, with `data_received` increased by `n` and the ACK of the interval. -/
theorem write_completion_cases {K : Consts} {cf : ConnForwarder} {p n : Nat} {c : Connection}
    {buf : List Nat} (hr : Reachable K cf) (hc : cf.heap[p]? = some c)
    (hw : c.writing = some buf) (hn : n ≤ buf.length) :
    (pop_written c.write_buffer n = [] ∧ c.refs = 1 →
      step K cf (Event.write_done p (some n)) = Except.error Stop.fault) ∧
    (¬ (pop_written c.write_buffer n = [] ∧ c.refs = 1) →
      ∃ cf1 c1, step K cf (Event.write_done p (some n)) = Except.ok cf1 ∧
        cf1.heap[p]? = some c1 ∧
        (c.ack_interval ≤ c.data_received + n →
          cf1.sent = cf.sent ++
            [OutMsg.ack c.id (c.data_received + n) (2 * c.ack_interval)] ∧
          c1.data_received = 0) ∧
        (c.data_received + n < c.ack_interval →
          cf1.sent = cf.sent ∧ c1.data_received = c.data_received + n)) := by
  have hb := reachable_balanced hr
  have hpos : 1 ≤ c.refs := by
    have h1 := (hb.2.2 p c hc).1
    have h3 : (if p = 0 then (0 : Int) else 0) = 0 := by split <;> rfl
    have h4 : 1 ≤ ops c := by
      unfold ops
      rw [hw]
      simp only [Option.isSome_some, if_true]
      omega
    omega
  have hnf := balanced_freed hb hc hpos
  have hs := step_write_some (K := K) hc hw hn
  obtain ⟨hm1, hm2⟩ := write_no_wrap (reachable_sizes hr p c hc) hw hn
  constructor
  · intro hrel
    rw [if_pos (by
      unfold write_cell
      dsimp only
      rw [if_pos ⟨hrel.1, by omega⟩])] at hs
    exact hs
  · intro hrel
    rw [if_neg (by
      unfold write_cell
      dsimp only
      rw [hnf, if_neg (fun hx => hrel ⟨hx.1, by omega⟩)]
      exact Bool.false_ne_true)] at hs
    refine ⟨_, write_cell { c with writing := none, written := c.written ++ buf.take n } n,
      hs, heap_set_self _ hc, ?_, ?_⟩
    · intro hge
      simp only [write_acks, write_cell, hm1, hm2, ge_iff_le, hge, if_true, and_self]
    · intro hlt
      have hng : ¬ c.ack_interval ≤ c.data_received + n := Nat.not_le.2 hlt
      simp only [write_acks, write_cell, hm1, ge_iff_le, hng, if_false, List.append_nil,
        and_self]

/-- C3, on the code: a successful write completion that empties the queue
calls `unref_connection` and only then updates `data_received` and builds the
ACK. In scenario S1 the peer sends CLOSE while the write of three bytes is in
flight and the read, whose token is fired, completes: the write holds the last
reference. Its completion with three bytes releases the connection, and the
update of `data_received` is an access to released memory: the turn yields no
next state, where the claim has `data_received` increased and the ACK sent.
In every reachable state a successful write completion faults exactly when it
empties the queue on a connection with no other reference, and otherwise it
does what the claim says, as the completion of the same write does while the
connection is in the table. -/
theorem write_completion_released :
    run flexdp conn_forwarder_new closing_events = Except.ok (run_state flexdp closing_events) ∧
    (run_state flexdp closing_events).connections = [] ∧
    (run_state flexdp closing_events).heap = [closing_conn] ∧
    closing_conn.writing = some [104, 101, 108] ∧ closing_conn.refs = 1 ∧
    closing_conn.freed = false ∧ pop_written closing_conn.write_buffer 3 = [] ∧
    step flexdp (run_state flexdp closing_events) (Event.write_done 0 (some 3)) =
      Except.error Stop.fault ∧
    step flexdp (run_state flexdp echo_events) (Event.write_done 0 (some 3)) =
      Except.ok (run_state flexdp (echo_events ++ [Event.write_done 0 (some 3)])) ∧
    (run_state flexdp (echo_events ++ [Event.write_done 0 (some 3)])).sent =
      (run_state flexdp echo_events).sent ++ [OutMsg.ack 4294967295 3 4] ∧
    ∀ (K : Consts) (cf : ConnForwarder) (p n : Nat) (c : Connection) (buf : List Nat),
      Reachable K cf → cf.heap[p]? = some c → c.writing = some buf → n ≤ buf.length →
      (pop_written c.write_buffer n = [] ∧ c.refs = 1 →
        step K cf (Event.write_done p (some n)) = Except.error Stop.fault) ∧
      (¬ (pop_written c.write_buffer n = [] ∧ c.refs = 1) →
        ∃ cf1 c1, step K cf (Event.write_done p (some n)) = Except.ok cf1 ∧
          cf1.heap[p]? = some c1 ∧
          (c.ack_interval ≤ c.data_received + n →
            cf1.sent = cf.sent ++
              [OutMsg.ack c.id (c.data_received + n) (2 * c.ack_interval)] ∧
            c1.data_received = 0) ∧
          (c.data_received + n < c.ack_interval →
            cf1.sent = cf.sent ∧ c1.data_received = c.data_received + n)) :=
  ⟨by rfl, by decide, by decide, by decide, by decide, by decide, by decide, by rfl, by rfl,
   by decide, fun _ _ _ _ _ _ hr hc hw hn => write_completion_cases hr hc hw hn⟩

/-- C4, on the code: in scenario S1 the socket reports two of the three bytes
written (an ACK of size 2 is sent, `data_received` is 0 again), then the peer
sends CLOSE and the read, whose token is fired, completes: the write of the
last byte holds the last reference. Its completion with one byte releases the
connection before `data_received` is updated, an access to released memory:
the turn yields no next state, and the byte that the socket reported written
is in no ACK and in no `data_received`. Over the runs of DATA messages and
successful write completions that return, the accounting of the claim holds. -/
theorem ack_accounting_released :
    run flexdp conn_forwarder_new partial_events = Except.ok (run_state flexdp partial_events) ∧
    (run_state flexdp partial_events).connections = [] ∧
    (run_state flexdp partial_events).heap = [partial_conn] ∧
    partial_conn.writing = some [108] ∧ partial_conn.refs = 1 ∧
    partial_conn.written.length = 2 ∧ partial_conn.data_received = 0 ∧
    (ack_sizes (run_state flexdp partial_events).sent).sum = 2 ∧
    step flexdp (run_state flexdp partial_events) (Event.write_done 0 (some 1)) =
      Except.error Stop.fault ∧
    ∀ (K : Consts) (cf cf1 : ConnForwarder) (p : Nat) (c : Connection) (evs : List StreamEvent),
      Reachable K cf → cf.heap[p]? = some c →
      run K cf (evs.map (StreamEvent.event c.id p)) = Except.ok cf1 →
      ∃ c1 acks, cf1.heap[p]? = some c1 ∧ cf1.sent = cf.sent ++ acks ∧
        (∀ m ∈ acks, ∃ size, m = OutMsg.ack c.id size (2 * c.ack_interval)) ∧
        (ack_sizes acks).sum + c1.data_received = c.data_received + written_total evs ∧
        ((ack_sizes acks).sum + c1.data_received) % 2 ^ 32 =
          (c.data_received + written_total evs) % 2 ^ 32 ∧
        c1.written.length = c.written.length + written_total evs ∧
        (0 < c.ack_interval → (∃ n, StreamEvent.written n ∈ evs) →
          c1.data_received < c.ack_interval) :=
  ⟨by rfl, by decide, by decide, by decide, by decide, by decide, by decide, by decide, by rfl,
   fun K cf cf1 p c evs hreach hc hrun => by
    obtain ⟨c1, acks, hc1, hs1, hm, hsum, hlen, hlt⟩ :=
      ack_run K evs cf cf1 p c hreach hc hrun
    exact ⟨c1, acks, hc1, hs1, hm, hsum, by rw [hsum], hlen, fun h0 h => hlt h0 (Or.inr h)⟩⟩

end ConnForward
